import Mathlib

/-!
# Recursive coordinate bisection (Zoltan `rcb.c`): embedding and properties

A shallow embedding of `packages/zoltan/src/rcb/rcb.c`.

Conventions of the embedding.

* C `double` values are exact rationals (`ℚ`); C `int` values are unbounded
  integers (`Int`), and counts of dots and positions in the dot arrays are
  naturals (`Nat`).
* A C array is a total map from index to value; a pointer into an array is
  the array together with an offset.  `serial_rcb` receives `dindx` and
  `tmpdindx` as two disjoint blocks (`memcpy` requires it), so they are two
  maps.
* `Zoltan_Divide_Parts` and `Zoltan_RB_find_median` are collaborators that
  live outside `rcb.c`; they are parameters of the embedding (`SerialEnv`).
* `serial_rcb` may recurse for ever when the divider misbehaves, so it takes
  fuel and returns `none` when the fuel is exhausted.
* `serial_rcb` also returns a ghost log of events (median searches, reads of
  the preset sequence, skipped branches); the log influences nothing.
-/

namespace RCB

/-! ## Data model -/

/-- Modelled from the spec: the status constants of `zoltan_types.h`, which is
not among the sources; success is `0`, a warning is positive and the two error
statuses (algorithmic failure, out of memory) are negative. -/
def ZOLTAN_OK : Int := 0

/-- Modelled from the spec: warning status of `zoltan_types.h` (non-negative,
so callers testing `ierr < 0` continue). -/
def ZOLTAN_WARN : Int := 1

/-- Modelled from the spec: algorithmic-failure status of `zoltan_types.h`. -/
def ZOLTAN_FATAL : Int := -1

/-- Modelled from the spec: out-of-memory status of `zoltan_types.h`. -/
def ZOLTAN_MEMERR : Int := -2

/-- The `struct rcb_box` of `rcb.h`: `lo[3]`, `hi[3]`, indexed by axis. -/
structure rcb_box where
  lo : Int → ℚ
  hi : Int → ℚ

/-- The `struct rcb_tree` of `rcb.h`, with the five fields `rcb.c` uses. -/
structure rcb_tree where
  cut : ℚ
  dim : Int
  parent : Int
  left_leaf : Int
  right_leaf : Int

/-- The `struct Dot_Struct` fields `rcb.c` uses: coordinates, weights, and the
assigned partition. -/
structure Dot_Struct where
  X : Int → ℚ
  Weight : Nat → ℚ
  Part : Int

/-! ## Direction selection -/

/-- The function `cut_dimension`: returns the axis and the updated `*level`. -/
def cut_dimension (lock_direction : Int) (treept : Int → rcb_tree) (partmid : Int)
    (preset_dir : Int) (dim_spec : Nat → Int) (level : Nat) (rcbbox : rcb_box) :
    Int × Nat :=
  if lock_direction ≠ 0 then
    ((treept partmid).dim, level)
  else if preset_dir ≠ 0 then
    (dim_spec level, level + 1)
  else
    let dim : Int := 0
    let dim : Int :=
      if rcbbox.hi 1 - rcbbox.lo 1 > rcbbox.hi 0 - rcbbox.lo 0 then 1 else dim
    let dim : Int :=
      if dim = 0 ∧ rcbbox.hi 2 - rcbbox.lo 2 > rcbbox.hi 0 - rcbbox.lo 0 then 2 else dim
    let dim : Int :=
      if dim = 1 ∧ rcbbox.hi 2 - rcbbox.lo 2 > rcbbox.hi 1 - rcbbox.lo 1 then 2 else dim
    (dim, level)

/-- Extent `hi - lo` of a box along an axis. -/
def extent (b : rcb_box) (j : Int) : ℚ := b.hi j - b.lo j

/-! ## Preset direction sequence -/

/-- State of the counting loop of `set_preset_dir`: `tmp_nparts`, `level`,
the counts `ix[0..2]` and the three widths. -/
structure PresetCount where
  tmp_nparts : Int
  level : Nat
  ix : Int → Int
  wx : ℚ
  wy : ℚ
  wz : ℚ

/-- One iteration of the counting loop of `set_preset_dir` (body and `level++`). -/
def preset_count_step (c : PresetCount) : PresetCount :=
  let tmp_nparts := (c.tmp_nparts + 1) / 2
  if c.wz > c.wx ∧ c.wz > c.wy then
    { c with tmp_nparts := tmp_nparts, level := c.level + 1,
             ix := Function.update c.ix 2 (c.ix 2 + 1), wz := c.wz / 2 }
  else if c.wy > c.wx ∧ c.wy > c.wz then
    { c with tmp_nparts := tmp_nparts, level := c.level + 1,
             ix := Function.update c.ix 1 (c.ix 1 + 1), wy := c.wy / 2 }
  else
    { c with tmp_nparts := tmp_nparts, level := c.level + 1,
             ix := Function.update c.ix 0 (c.ix 0 + 1), wx := c.wx / 2 }

/-- The width the counting loop of `set_preset_dir` holds for axis `d`: `wx`,
`wy` or `wz`. -/
def PresetCount.width (c : PresetCount) (d : Int) : ℚ :=
  if d = 0 then c.wx else if d = 1 then c.wy else c.wz

/-- The counting loop `for (...; tmp_nparts > 1; level++)` of `set_preset_dir`,
with fuel; `none` when the fuel runs out before the guard fails. -/
def preset_count_loop : Nat → PresetCount → Option PresetCount
  | 0, c => if c.tmp_nparts > 1 then none else some c
  | fuel + 1, c =>
    if c.tmp_nparts > 1 then preset_count_loop fuel (preset_count_step c) else some c

/-- State of the assignment loop of `set_preset_dir`: `j`, `dim`, the counts
and the array being filled. -/
structure PresetFill where
  j : Int
  dim : Int
  ix : Int → Int
  dim_spec : Nat → Int

/-- One iteration (index `i`) of the assignment loop of `set_preset_dir`. -/
def preset_fill_step (preset_dir : Int) (f : PresetFill) (i : Nat) : PresetFill :=
  let j := f.j
  let dim := f.dim
  let ix := f.ix
  -- if (j == 0) { ... }
  let dim0 : Int := if preset_dir < 3 then 0 else if preset_dir < 5 then 1 else 2
  let dim := if j = 0 then dim0 else dim
  let j := if j = 0 ∧ ix dim = 0 then j + 1 else j
  -- if (j == 1) { ... }
  let dim1 : Int :=
    if preset_dir = 1 ∨ preset_dir = 6 then 1 else if preset_dir < 4 then 2 else 0
  let j1 := j
  let dim := if j1 = 1 then dim1 else dim
  let j := if j1 = 1 ∧ ix dim = 0 then j + 1 else j
  -- if (j == 2) { ... }
  let dim2 : Int :=
    if preset_dir = 3 ∨ preset_dir = 6 then 0
    else if preset_dir = 2 ∨ preset_dir = 5 then 1
    else 0
  let dim := if j = 2 then dim2 else dim
  { j := j, dim := dim, ix := Function.update ix dim (ix dim - 1),
    dim_spec := Function.update f.dim_spec i dim }

/-- Result of `set_preset_dir`: the status, the value left in `*dim_spec`
(`none` is the null pointer) and the number of entries allocated. -/
structure PresetResult where
  ierr : Int
  dim_spec : Option (Nat → Int)
  level : Nat

/-- The state in which `set_preset_dir` enters its counting loop. -/
def preset_count_init (nparts : Int) (rcbbox : rcb_box) : PresetCount :=
  { tmp_nparts := nparts, level := 0, ix := fun _ => 0,
    wx := rcbbox.hi 0 - rcbbox.lo 0,
    wy := rcbbox.hi 1 - rcbbox.lo 1,
    wz := rcbbox.hi 2 - rcbbox.lo 2 }

/-- The function `set_preset_dir`.  `dim_spec_in` is the value of `*dim_spec`
on entry and `malloc` the outcome of `ZOLTAN_MALLOC` (the contents of the fresh
block, or `none` for a null result).  `none` only if the counting loop ran out
of fuel, which `nparts.toNat` steps never do. -/
def set_preset_dir (nparts : Int) (preset_dir : Int) (rcbbox : rcb_box)
    (dim_spec_in : Option (Nat → Int)) (malloc : Option (Nat → Int)) :
    Option PresetResult :=
  let ierr : Int := if preset_dir < 0 ∨ preset_dir > 6 then ZOLTAN_WARN else ZOLTAN_OK
  let preset_dir : Int := if preset_dir < 0 ∨ preset_dir > 6 then 1 else preset_dir
  match preset_count_loop nparts.toNat (preset_count_init nparts rcbbox) with
  | none => none
  | some c =>
    if c.level > 0 then
      match malloc with
      | none => some { ierr := ZOLTAN_MEMERR, dim_spec := none, level := 0 }
      | some block =>
        let f0 : PresetFill := { j := 0, dim := 0, ix := c.ix, dim_spec := block }
        let f := (List.range c.level).foldl (preset_fill_step preset_dir) f0
        some { ierr := ierr, dim_spec := some f.dim_spec, level := c.level }
    else
      some { ierr := ierr, dim_spec := dim_spec_in, level := 0 }

/-- The entries `a[off], ..., a[off + len - 1]` of an array, as a list. -/
def slice {α : Type} (a : Nat → α) (off len : Nat) : List α :=
  (List.range len).map (fun i => a (off + i))

/-! ## Serial bisection -/

/-- What `Zoltan_Divide_Parts` hands back: its status, `*partmid` and
`*fractionlo`. -/
structure DivideResult where
  ierr : Int
  partmid : Int
  fractionlo : ℚ

/-- The arguments of one call of `Zoltan_RB_find_median`, in the order of the
C call; `valuehalf` is `none` when the caller left it uninitialised. -/
structure MedianArgs where
  Tflops_Special : Int
  coord : Nat → ℚ
  wgts : Nat → ℚ
  dotmark : Nat → Int
  dotnum : Nat
  proc : Int
  fractionlo : ℚ
  valuehalf : Option ℚ
  first_guess : Int
  counter0 : Int
  nprocs : Int
  num_procs : Int
  proclower : Int
  num_parts : Int
  wgtflag : Int
  valuemin : ℚ
  valuemax : ℚ
  weight : ℚ
  dotlist : Nat → Int
  rectilinear_blocks : Int

/-- What one call of `Zoltan_RB_find_median` leaves behind: whether it
returned non-zero, and the contents of everything it may write. -/
structure MedianResult where
  ok : Bool
  dotmark : Nat → Int
  valuehalf : ℚ
  weightlo : ℚ
  weighthi : ℚ
  counter0 : Int
  dotlist : Nat → Int

/-- The collaborators and the arguments of `serial_rcb` that every recursive
call passes on unchanged.  `Zoltan_Divide_Parts` is applied to `num_parts` and
`partlower`; `partlower` is passed by address and is an input of the divider,
which leaves it as it is. -/
structure SerialEnv where
  Zoltan_Divide_Parts : Int → Int → DivideResult
  Zoltan_RB_find_median : MedianArgs → MedianResult
  proc : Int
  wgtflag : Int
  lock_direction : Int
  reuse : Int
  stats : Int
  gen_tree : Int
  preset_dir : Int
  rectilinear_blocks : Int
  dim_spec : Nat → Int

/-- The memory `serial_rcb` works on. -/
structure SerialState where
  dotpt : Nat → Dot_Struct
  dotmark : Nat → Int
  dotlist : Nat → Int
  dindx : Nat → Nat
  tmpdindx : Nat → Nat
  counters : Nat → Int
  treept : Int → rcb_tree
  coord : Nat → ℚ
  wgts : Nat → ℚ

/-- Ghost events logged by the embedding of `serial_rcb`. -/
inductive Event where
  /-- a call of the median search for the cut at `partmid`, and its outcome -/
  | find_median (partmid : Int) (first_guess : Int) (ok : Bool)
  /-- a read of `dim_spec[level]` -/
  | dim_spec_read (level : Nat)
  /-- the recursive call for `set` (0 or 1) was not made -/
  | branch_skipped (set : Int) (new_nparts : Int) (ndots : Nat)
  deriving DecidableEq

/-- Whether an event records a skipped recursive call. -/
def Event.isSkip : Event → Bool
  | .branch_skipped _ _ _ => true
  | _ => false

/-- Whether an event records a failed median search. -/
def Event.isMedianFailure : Event → Bool
  | .find_median _ _ ok => !ok
  | _ => false

/-- The loop `for (i = 0; i < dotnum; i++) dotpt[dindx[i]].Part = partlower;`. -/
def assign_parts (dotpt : Nat → Dot_Struct) (dx : Nat → Nat) (dindx dotnum : Nat)
    (partlower : Int) : Nat → Dot_Struct :=
  (List.range dotnum).foldl
    (fun dp i => Function.update dp (dx (dindx + i)) { dp (dx (dindx + i)) with Part := partlower })
    dotpt

/-- The loop filling `coord[i]` and `wgts[i]` for `i < dotnum`. -/
def fill_coord (dotpt : Nat → Dot_Struct) (dx : Nat → Nat) (dindx dotnum : Nat) (dim : Int)
    (cw : (Nat → ℚ) × (Nat → ℚ)) : (Nat → ℚ) × (Nat → ℚ) :=
  (List.range dotnum).foldl
    (fun cw i => (Function.update cw.1 i ((dotpt (dx (dindx + i))).X dim),
                  Function.update cw.2 i ((dotpt (dx (dindx + i))).Weight 0)))
    cw

/-- The node written at `treept[partmid]` (lines `treept[partmid].dim = dim;`
to `treept[partmid].right_leaf = -partmid;`, the same in both phases). -/
def record_cut (treept : Int → rcb_tree) (partmid dim : Int) (valuehalf : ℚ)
    (old_set root partlower : Int) : Int → rcb_tree :=
  Function.update treept partmid
    { dim := dim, cut := valuehalf,
      parent := if old_set ≠ 0 then -(root + 1) else root + 1,
      left_leaf := -partlower, right_leaf := -partmid }

/-- The first `n` iterations of the regrouping loop of `serial_rcb`; the state
is `(set0, set1, tmpdindx)`, started at `(0, dotnum, tmpdindx)`. -/
def regroup_steps (dotmark : Nat → Int) (dx : Nat → Nat) (dindx tmpdindx dotnum : Nat)
    (tmp : Nat → Nat) (n : Nat) : Nat × Nat × (Nat → Nat) :=
  (List.range n).foldl
    (fun st i =>
      if dotmark i = 0 then
        (st.1 + 1, st.2.1, Function.update st.2.2 (tmpdindx + st.1) (dx (dindx + i)))
      else
        (st.1, st.2.1 - 1, Function.update st.2.2 (tmpdindx + (st.2.1 - 1)) (dx (dindx + i))))
    (0, dotnum, tmp)

/-- The call `memcpy(dindx, tmpdindx, dotnum * sizeof(int))`. -/
def memcpy_dindx (dx tmp : Nat → Nat) (dindx tmpdindx dotnum : Nat) : Nat → Nat :=
  (List.range dotnum).foldl (fun d i => Function.update d (dindx + i) (tmp (tmpdindx + i))) dx

/-- The box handed to the recursive call for set 0: a copy of `rcbbox` with
`hi[dim] = valuehalf`. -/
def tmpbox_set0 (rcbbox : rcb_box) (dim : Int) (valuehalf : ℚ) : rcb_box :=
  { rcbbox with hi := Function.update rcbbox.hi dim valuehalf }

/-- The box handed to the recursive call for set 1: a copy of `rcbbox` with
`lo[dim] = valuehalf`. -/
def tmpbox_set1 (rcbbox : rcb_box) (dim : Int) (valuehalf : ℚ) : rcb_box :=
  { rcbbox with lo := Function.update rcbbox.lo dim valuehalf }

/-- Everything `serial_rcb` has computed when it reaches its recursive calls. -/
structure SplitOut where
  ierr : Int
  partmid : Int
  dim : Int
  level : Nat
  first_guess : Int
  ok : Bool
  valuehalf : ℚ
  weightlo : ℚ
  weighthi : ℚ
  set0 : Nat
  set1 : Nat
  st : SerialState
  log : List Event

/-- The test `reuse && dim == treept[partmid].dim` of `serial_rcb`. -/
def serial_guess (env : SerialEnv) (treept : Int → rcb_tree) (partmid dim : Int) : Bool :=
  decide (env.reuse ≠ 0 ∧ dim = (treept partmid).dim)

/-- The counters after `if (stats) counters[5]++;` inside that test. -/
def serial_counters (env : SerialEnv) (counters : Nat → Int) (guess : Bool) : Nat → Int :=
  if guess = true ∧ env.stats ≠ 0 then Function.update counters 5 (counters 5 + 1)
  else counters

/-- The arguments `serial_rcb` passes to `Zoltan_RB_find_median`: the lines of
`serial_rcb` from the call of `Zoltan_Divide_Parts` up to that call. -/
def serial_median_args (env : SerialEnv) (rcbbox : rcb_box) (weight : ℚ) (dotnum : Nat)
    (num_parts : Int) (dindx : Nat) (partlower : Int) (level : Nat) (s : SerialState) :
    MedianArgs :=
  let d := env.Zoltan_Divide_Parts num_parts partlower
  let partmid := d.partmid
  let dim := (cut_dimension env.lock_direction s.treept partmid env.preset_dir env.dim_spec
                level rcbbox).1
  let cw := fill_coord s.dotpt s.dindx dindx dotnum dim (s.coord, s.wgts)
  let guess := serial_guess env s.treept partmid dim
  { Tflops_Special := 0, coord := cw.1, wgts := cw.2, dotmark := s.dotmark,
    dotnum := dotnum, proc := env.proc, fractionlo := d.fractionlo,
    valuehalf := if guess then some (s.treept partmid).cut else none,
    first_guess := if guess then 1 else 0,
    counter0 := serial_counters env s.counters guess 0, nprocs := 1, num_procs := 1,
    proclower := env.proc, num_parts := num_parts, wgtflag := env.wgtflag,
    valuemin := rcbbox.lo dim, valuemax := rcbbox.hi dim, weight := weight,
    dotlist := s.dotlist, rectilinear_blocks := env.rectilinear_blocks }

/-- The ghost events of the straight-line part: the read of `dim_spec` (when
`cut_dimension` makes one) and the median search. -/
def serial_split_log (env : SerialEnv) (level : Nat) (partmid first_guess : Int) (ok : Bool) :
    List Event :=
  (if env.lock_direction = 0 ∧ env.preset_dir ≠ 0 then [Event.dim_spec_read level] else []) ++
    [Event.find_median partmid first_guess ok]

/-- The straight-line part of the `else` branch of `serial_rcb`, from the call
of `Zoltan_Divide_Parts` to the `memcpy`.  When the median search fails
(`ok = false`) the tree and the index arrays are left as they were. -/
def serial_split (env : SerialEnv) (old_set root : Int) (rcbbox : rcb_box) (weight : ℚ)
    (dotnum : Nat) (num_parts : Int) (dindx tmpdindx : Nat) (partlower : Int) (level : Nat)
    (s : SerialState) : SplitOut :=
  let d := env.Zoltan_Divide_Parts num_parts partlower
  let partmid := d.partmid
  let cd := cut_dimension env.lock_direction s.treept partmid env.preset_dir env.dim_spec
              level rcbbox
  let dim := cd.1
  let a := serial_median_args env rcbbox weight dotnum num_parts dindx partlower level s
  let m := env.Zoltan_RB_find_median a
  let s1 : SerialState :=
    { s with coord := a.coord, wgts := a.wgts, dotmark := m.dotmark, dotlist := m.dotlist,
             counters := Function.update
               (serial_counters env s.counters (serial_guess env s.treept partmid dim))
               0 m.counter0 }
  if m.ok = true then
    let treept := record_cut s.treept partmid dim m.valuehalf old_set root partlower
    let g := regroup_steps m.dotmark s.dindx dindx tmpdindx dotnum s.tmpdindx dotnum
    { ierr := d.ierr, partmid := partmid, dim := dim, level := cd.2,
      first_guess := a.first_guess, ok := true, valuehalf := m.valuehalf,
      weightlo := m.weightlo, weighthi := m.weighthi, set0 := g.1, set1 := g.2.1,
      st := { s1 with treept := treept, tmpdindx := g.2.2,
                      dindx := memcpy_dindx s.dindx g.2.2 dindx tmpdindx dotnum },
      log := serial_split_log env level partmid a.first_guess true }
  else
    { ierr := ZOLTAN_FATAL, partmid := partmid, dim := dim, level := cd.2,
      first_guess := a.first_guess, ok := false, valuehalf := m.valuehalf,
      weightlo := m.weightlo, weighthi := m.weighthi, set0 := 0, set1 := dotnum,
      st := s1, log := serial_split_log env level partmid a.first_guess false }

/-- What a call of `serial_rcb` returns: the status, the memory, and the ghost
log of the call. -/
structure SerialResult where
  ierr : Int
  st : SerialState
  log : List Event

/-- The function `serial_rcb`.  `dindx` and `tmpdindx` are the offsets of the
two pointer arguments inside the arrays `s.dindx` and `s.tmpdindx`. -/
def serial_rcb (env : SerialEnv) : Nat → Int → Int → rcb_box → ℚ → Nat → Int → Nat → Nat →
    Int → Nat → SerialState → Option SerialResult
  | 0, _, _, _, _, _, _, _, _, _, _, _ => none
  | fuel + 1, old_set, root, rcbbox, weight, dotnum, num_parts, dindx, tmpdindx, partlower,
      level, s =>
    if num_parts = 1 then
      some { ierr := ZOLTAN_OK,
             st := { s with dotpt := assign_parts s.dotpt s.dindx dindx dotnum partlower },
             log := [] }
    else
      let sp := serial_split env old_set root rcbbox weight dotnum num_parts dindx tmpdindx
                  partlower level s
      if sp.ok = false then
        some { ierr := ZOLTAN_FATAL, st := sp.st, log := sp.log }
      else
        -- root = partmid
        let r0 : Option SerialResult :=
          if sp.partmid - partlower > 0 ∧ sp.set1 ≠ 0 then
            serial_rcb env fuel 0 sp.partmid (tmpbox_set0 rcbbox sp.dim sp.valuehalf)
              sp.weightlo sp.set0 (sp.partmid - partlower) dindx tmpdindx partlower sp.level
              sp.st
          else
            some { ierr := sp.ierr, st := sp.st,
                   log := [Event.branch_skipped 0 (sp.partmid - partlower) sp.set0] }
        match r0 with
        | none => none
        | some r0 =>
          if (sp.partmid - partlower > 0 ∧ sp.set1 ≠ 0) ∧ r0.ierr < 0 then
            some { r0 with log := sp.log ++ r0.log }
          else if partlower + num_parts - sp.partmid > 0 ∧ sp.set0 ≠ dotnum then
            match serial_rcb env fuel 1 sp.partmid (tmpbox_set1 rcbbox sp.dim sp.valuehalf)
                sp.weighthi (dotnum - sp.set0) (partlower + num_parts - sp.partmid)
                (dindx + sp.set1) (tmpdindx + sp.set1) sp.partmid sp.level r0.st with
            | none => none
            | some r1 => some { r1 with log := sp.log ++ r0.log ++ r1.log }
          else
            some { r0 with
                   log := sp.log ++ r0.log ++
                     [Event.branch_skipped 1 (partlower + num_parts - sp.partmid)
                        (dotnum - sp.set0)] }

/-- The entries of `dindx[0..n)` whose mark is 0, in their order. -/
def marked_low (dotmark : Nat → Int) (dx : Nat → Nat) (dindx n : Nat) : List Nat :=
  ((List.range n).filter (fun i => decide (dotmark i = 0))).map (fun i => dx (dindx + i))

/-- The entries of `dindx[0..n)` whose mark is not 0, in their order. -/
def marked_high (dotmark : Nat → Int) (dx : Nat → Nat) (dindx n : Nat) : List Nat :=
  ((List.range n).filter (fun i => decide (dotmark i ≠ 0))).map (fun i => dx (dindx + i))

/-- The runs of `serial_rcb` as a relation between the arguments, the memory
on entry and the result: `leaf` is the case `num_parts == 1`, `fail` a failed
median search, `abort` the early exit after a failed call for set 0, and
`node` the remaining case, where `r0` and `r1` are the outcomes of the two
branches (a skipped branch leaves status and memory as they are). -/
inductive Run (env : SerialEnv) : Int → Int → rcb_box → ℚ → Nat → Int → Nat → Nat → Int →
    Nat → SerialState → SerialResult → Prop
  | leaf (old_set root : Int) (rcbbox : rcb_box) (weight : ℚ) (dotnum dindx tmpdindx : Nat)
      (partlower : Int) (level : Nat) (s : SerialState) :
      Run env old_set root rcbbox weight dotnum 1 dindx tmpdindx partlower level s
        { ierr := ZOLTAN_OK,
          st := { s with dotpt := assign_parts s.dotpt s.dindx dindx dotnum partlower },
          log := [] }
  | fail (old_set root : Int) (rcbbox : rcb_box) (weight : ℚ) (dotnum : Nat) (num_parts : Int)
      (dindx tmpdindx : Nat) (partlower : Int) (level : Nat) (s : SerialState) (sp : SplitOut)
      (hsp : sp = serial_split env old_set root rcbbox weight dotnum num_parts dindx tmpdindx
        partlower level s)
      (h1 : num_parts ≠ 1) (hok : sp.ok = false) :
      Run env old_set root rcbbox weight dotnum num_parts dindx tmpdindx partlower level s
        { ierr := ZOLTAN_FATAL, st := sp.st, log := sp.log }
  | abort (old_set root : Int) (rcbbox : rcb_box) (weight : ℚ) (dotnum : Nat) (num_parts : Int)
      (dindx tmpdindx : Nat) (partlower : Int) (level : Nat) (s : SerialState) (sp : SplitOut)
      (r0 : SerialResult)
      (hsp : sp = serial_split env old_set root rcbbox weight dotnum num_parts dindx tmpdindx
        partlower level s)
      (h1 : num_parts ≠ 1) (hok : sp.ok = true)
      (hc : sp.partmid - partlower > 0 ∧ sp.set1 ≠ 0)
      (hrun : Run env 0 sp.partmid (tmpbox_set0 rcbbox sp.dim sp.valuehalf) sp.weightlo sp.set0
        (sp.partmid - partlower) dindx tmpdindx partlower sp.level sp.st r0)
      (hneg : r0.ierr < 0) :
      Run env old_set root rcbbox weight dotnum num_parts dindx tmpdindx partlower level s
        { r0 with log := sp.log ++ r0.log }
  | node (old_set root : Int) (rcbbox : rcb_box) (weight : ℚ) (dotnum : Nat) (num_parts : Int)
      (dindx tmpdindx : Nat) (partlower : Int) (level : Nat) (s : SerialState) (sp : SplitOut)
      (r0 r1 : SerialResult)
      (hsp : sp = serial_split env old_set root rcbbox weight dotnum num_parts dindx tmpdindx
        partlower level s)
      (h1 : num_parts ≠ 1) (hok : sp.ok = true)
      (hl : sp.partmid - partlower > 0 ∧ sp.set1 ≠ 0 →
        Run env 0 sp.partmid (tmpbox_set0 rcbbox sp.dim sp.valuehalf) sp.weightlo sp.set0
          (sp.partmid - partlower) dindx tmpdindx partlower sp.level sp.st r0)
      (hl0 : ¬ (sp.partmid - partlower > 0 ∧ sp.set1 ≠ 0) →
        r0 = { ierr := sp.ierr, st := sp.st,
               log := [Event.branch_skipped 0 (sp.partmid - partlower) sp.set0] })
      (hcont : ¬ ((sp.partmid - partlower > 0 ∧ sp.set1 ≠ 0) ∧ r0.ierr < 0))
      (hh : partlower + num_parts - sp.partmid > 0 ∧ sp.set0 ≠ dotnum →
        Run env 1 sp.partmid (tmpbox_set1 rcbbox sp.dim sp.valuehalf) sp.weighthi
          (dotnum - sp.set0) (partlower + num_parts - sp.partmid) (dindx + sp.set1)
          (tmpdindx + sp.set1) sp.partmid sp.level r0.st r1)
      (hh0 : ¬ (partlower + num_parts - sp.partmid > 0 ∧ sp.set0 ≠ dotnum) →
        r1 = { ierr := r0.ierr, st := r0.st,
               log := [Event.branch_skipped 1 (partlower + num_parts - sp.partmid)
                        (dotnum - sp.set0)] }) :
      Run env old_set root rcbbox weight dotnum num_parts dindx tmpdindx partlower level s
        { r1 with log := sp.log ++ r0.log ++ r1.log }

/-- How a run of `serial_rcb` on `dindx[off .. off+n)` may change the dots and
the index array: coordinates and weights stay, `Part` changes only for dots
listed in the range, the range is permuted and the rest of `dindx` stays. -/
def FrameRel (off n : Nat) (s t : SerialState) : Prop :=
  (∀ d, (t.dotpt d).X = (s.dotpt d).X ∧ (t.dotpt d).Weight = (s.dotpt d).Weight ∧
    ((t.dotpt d).Part ≠ (s.dotpt d).Part → d ∈ slice s.dindx off n)) ∧
  (slice t.dindx off n).Perm (slice s.dindx off n) ∧
  (∀ j, ¬ (off ≤ j ∧ j < off + n) → t.dindx j = s.dindx j)

/-- The contract assumed of the divider: a set of two or more partitions is
split strictly inside, `partlower < partmid < partlower + num_parts`. -/
def DividerOK (env : SerialEnv) : Prop :=
  ∀ num_parts partlower : Int, 2 ≤ num_parts →
    partlower < (env.Zoltan_Divide_Parts num_parts partlower).partmid ∧
    (env.Zoltan_Divide_Parts num_parts partlower).partmid < partlower + num_parts

/-- Every median search succeeds. -/
def MedianOK (env : SerialEnv) : Prop :=
  ∀ a : MedianArgs, (env.Zoltan_RB_find_median a).ok = true

/-- A partition number lies in `[partlower, partlower + num_parts - 1]`. -/
def in_parts (partlower num_parts : Int) (p : Int) : Prop :=
  partlower ≤ p ∧ p ≤ partlower + num_parts - 1

instance (partlower num_parts p : Int) : Decidable (in_parts partlower num_parts p) := by
  unfold in_parts; infer_instance

/-- Sum of the weights of dimension `j` over the dots `0 .. ndots-1`. -/
def weight_sum (dotpt : Nat → Dot_Struct) (ndots j : Nat) : ℚ :=
  ((List.range ndots).map (fun d => (dotpt d).Weight j)).sum

/-- The number of positions `i < n` with `dotmark[i] == 0`. -/
def low_count (dotmark : Nat → Int) (n : Nat) : Nat :=
  ((List.range n).filter (fun i => decide (dotmark i = 0))).length

/-- The array `dindx` after the regrouping loop and the `memcpy` of
`serial_rcb`. -/
def regrouped (dotmark : Nat → Int) (dx : Nat → Nat) (dindx tmpdindx dotnum : Nat)
    (tmp : Nat → Nat) : Nat → Nat :=
  memcpy_dindx dx (regroup_steps dotmark dx dindx tmpdindx dotnum tmp dotnum).2.2
    dindx tmpdindx dotnum

/-! ## Cut-tree assembly -/

/-- One iteration (index `i`) of the assembly loop of `rcb_fn`:
`if (treept[i].parent > 0) treept[treept[i].parent - 1].left_leaf = i;
else if (treept[i].parent < 0) treept[-treept[i].parent - 1].right_leaf = i;`. -/
def assemble_step (t : Int → rcb_tree) (i : Int) : Int → rcb_tree :=
  if (t i).parent > 0 then
    Function.update t ((t i).parent - 1) { t ((t i).parent - 1) with left_leaf := i }
  else if (t i).parent < 0 then
    Function.update t (-(t i).parent - 1) { t (-(t i).parent - 1) with right_leaf := i }
  else t

/-- The first `k` iterations `i = 1, ..., k` of the assembly loop. -/
def assemble_steps (t : Int → rcb_tree) (k : Nat) : Int → rcb_tree :=
  (List.range k).foldl (fun a j => assemble_step a ((j : Int) + 1)) t

/-- The assembly pass of `rcb_fn` on one process (where the gather leaves the
array as it is): `treept[0].dim = 0;` and the loop `for (i = 1; i <
Num_Global_Parts; i++)`. -/
def assemble (t : Int → rcb_tree) (num_global_parts : Int) : Int → rcb_tree :=
  assemble_steps (Function.update t 0 { t 0 with dim := 0 }) (num_global_parts - 1).toNat

/-- Walk of the assembled tree from a link: a positive link is the index of a
node, whose low subtree is walked before its high subtree; a non-positive link
`-p` is the leaf partition `p`.  Returns the partitions in the order visited,
`none` when the fuel runs out. -/
def walk (t : Int → rcb_tree) : Nat → Int → Option (List Int)
  | 0, _ => none
  | fuel + 1, link =>
    if link > 0 then
      match walk t fuel (t link).left_leaf, walk t fuel (t link).right_leaf with
      | some a, some b => some (a ++ b)
      | _, _ => none
    else some [-link]

/-- The partition numbers `l, l + 1, ..., l + n - 1`. -/
def parts_list (l n : Int) : List Int :=
  (List.range n.toNat).map (fun (k : Nat) => l + (k : Int))

/-- The parent reference recorded for a cut below `root` on side `old_set`. -/
def parent_ref (old_set root : Int) : Int :=
  if old_set ≠ 0 then -(root + 1) else root + 1

/-- Shape of the parent references of the nodes `l < i < l + n` of a tree:
each is 0 (node not recorded), `ref` (the top cut of the range) or refers to a
node of the range; and no two nodes of the range carry the same non-zero
reference. -/
def TreeLocal (t : Int → rcb_tree) (l n ref : Int) : Prop :=
  (∀ i, l < i → i < l + n →
    (t i).parent = 0 ∨ (t i).parent = ref ∨
      ∃ q, l < q ∧ q < l + n ∧ ((t i).parent = q + 1 ∨ (t i).parent = -(q + 1))) ∧
  (∀ i j, l < i → i < l + n → l < j → j < l + n →
    (t i).parent = (t j).parent → (t i).parent ≠ 0 → i = j)

/-- The child links of `a` are those the assembly pass derives from the
parent references of `t` for the nodes `l < i < l + n`: a node with a positive
reference is the `left_leaf` of its parent, a node with a negative reference
the `right_leaf`, and a link no node of the range claims is as in `t`. -/
def Assembled (a t : Int → rcb_tree) (l n : Int) : Prop :=
  (∀ i, l < i → i < l + n → (t i).parent > 0 → (a ((t i).parent - 1)).left_leaf = i) ∧
  (∀ i, l < i → i < l + n → (t i).parent < 0 → (a (-(t i).parent - 1)).right_leaf = i) ∧
  (∀ q, l < q → q < l + n → (∀ i, l < i → i < l + n → (t i).parent ≠ q + 1) →
    (a q).left_leaf = (t q).left_leaf) ∧
  (∀ q, l < q → q < l + n → (∀ i, l < i → i < l + n → (t i).parent ≠ -(q + 1)) →
    (a q).right_leaf = (t q).right_leaf)

/-- No recursive call was skipped and no median search failed. -/
def clean_log (log : List Event) : Bool :=
  log.all (fun e => !e.isSkip && !e.isMedianFailure)

/-- Whether an event records a skipped recursive call for a side of two or
more partitions. -/
def Event.isWideSkip : Event → Bool
  | .branch_skipped _ new_nparts _ => decide (2 ≤ new_nparts)
  | _ => false

/-- No median search failed and no recursive call for a side of two or more
partitions was skipped (a skipped call for a side of one partition is
allowed). -/
def full_log (log : List Event) : Bool :=
  log.all (fun e => !e.isWideSkip && !e.isMedianFailure)

/-! ## Bounding boxes in `rcb_fn` -/

/-- The constant `MYHUGE` (`#define MYHUGE 1.0e30`). -/
def MYHUGE : ℚ := 10 ^ 30

/-- One iteration (axis `i`) of the loop of `Zoltan_RCB_box_merge`; the state
is the pair `(*box1, *box2)`. -/
def box_merge_step (st : rcb_box × rcb_box) (i : Int) : rcb_box × rcb_box :=
  let box1 := st.1
  let box2 := st.2
  let box2 : rcb_box :=
    if box1.lo i < box2.lo i then { box2 with lo := Function.update box2.lo i (box1.lo i) }
    else box2
  let box2 : rcb_box :=
    if box1.hi i > box2.hi i then { box2 with hi := Function.update box2.hi i (box1.hi i) }
    else box2
  (box1, box2)

/-- The function `Zoltan_RCB_box_merge` on the two buffers `in` and `inout`
(`len` and `dptr` are not used by it): the contents of both buffers on return. -/
def Zoltan_RCB_box_merge (box_in box_inout : rcb_box) : rcb_box × rcb_box :=
  ([0, 1, 2] : List Int).foldl box_merge_step (box_in, box_inout)

/-- The body of the inner loop (axis `j`) of the local-extent loop of `rcb_fn`
for a dot with coordinates `X`. -/
def extent_axis_step (X : Int → ℚ) (boxtmp : rcb_box) (j : Int) : rcb_box :=
  let boxtmp : rcb_box :=
    if X j < boxtmp.lo j then { boxtmp with lo := Function.update boxtmp.lo j (X j) }
    else boxtmp
  if X j > boxtmp.hi j then { boxtmp with hi := Function.update boxtmp.hi j (X j) }
  else boxtmp

/-- The box `boxtmp` as `rcb_fn` initialises it: `lo = MYHUGE`, `hi = -MYHUGE`. -/
def boxtmp_init : rcb_box := { lo := fun _ => MYHUGE, hi := fun _ => -MYHUGE }

/-- The local-extent loop of `rcb_fn` over the dots `0 .. dotnum-1`. -/
def local_extent (dotpt : Nat → Dot_Struct) (dotnum : Nat) : rcb_box :=
  (List.range dotnum).foldl
    (fun b i => ([0, 1, 2] : List Int).foldl (extent_axis_step (dotpt i).X) b) boxtmp_init

/-- Two boxes have the same six entries `lo[0..2]`, `hi[0..2]`. -/
def same_box (a b : rcb_box) : Prop :=
  (a.lo 0 = b.lo 0 ∧ a.lo 1 = b.lo 1 ∧ a.lo 2 = b.lo 2) ∧
  (a.hi 0 = b.hi 0 ∧ a.hi 1 = b.hi 1 ∧ a.hi 2 = b.hi 2)

instance (a b : rcb_box) : Decidable (same_box a b) := by
  unfold same_box; infer_instance

/-- The lines `if (preset_dir) { ierr = set_preset_dir(...); if (ierr < 0) goto
End; }` of `rcb_fn`: the status, `dim_spec`, and whether `rcb_fn` goes on
(`false` is the jump to `End`).  `ierr` is the status before these lines. -/
def rcb_fn_preset (ierr num_parts preset_dir : Int) (rcbbox : rcb_box)
    (malloc : Option (Nat → Int)) : Option (Int × Option (Nat → Int) × Bool) :=
  if preset_dir ≠ 0 then
    match set_preset_dir num_parts preset_dir rcbbox none malloc with
    | none => none
    | some r => some (r.ierr, r.dim_spec, decide (¬ r.ierr < 0))
  else some (ierr, none, true)

/-- The reduction of the boxes `bs` of a list of participants into `inout`,
one call of `Zoltan_RCB_box_merge` per participant. -/
def merge_all (bs : List rcb_box) (inout : rcb_box) : rcb_box :=
  bs.foldl (fun acc x => (Zoltan_RCB_box_merge x acc).2) inout

/-- A box lies within the range `[-MYHUGE, MYHUGE]` the extent loop starts
from: `lo ≤ MYHUGE` and `hi ≥ -MYHUGE` on the three axes. -/
def within_huge (b : rcb_box) : Prop :=
  (b.lo 0 ≤ MYHUGE ∧ b.lo 1 ≤ MYHUGE ∧ b.lo 2 ≤ MYHUGE) ∧
  (-MYHUGE ≤ b.hi 0 ∧ -MYHUGE ≤ b.hi 1 ∧ -MYHUGE ≤ b.hi 2)

/-! ## The parallel loop step (fragments) -/

/-- The lines `if (old_nprocs > 1) { if (!set) rcbbox->hi[dim] = valuehalf;
else rcbbox->lo[dim] = valuehalf; }` of `rcb_fn`. -/
def shrink_box (old_nprocs set : Int) (rcbbox : rcb_box) (dim : Int) (valuehalf : ℚ) :
    rcb_box :=
  if old_nprocs > 1 then
    if set = 0 then { rcbbox with hi := Function.update rcbbox.hi dim valuehalf }
    else { rcbbox with lo := Function.update rcbbox.lo dim valuehalf }
  else rcbbox

/-- The lines `if (partmid > 0 && partmid == fp) { treept[partmid].dim = dim; ...
treept[partmid].right_leaf = -partmid; }` of the parallel loop of `rcb_fn`. -/
def parallel_record (treept : Int → rcb_tree) (partmid fp dim : Int) (valuehalf : ℚ)
    (old_set root partlower : Int) : Int → rcb_tree :=
  if partmid > 0 ∧ partmid = fp then
    let t1 := Function.update treept partmid { treept partmid with dim := dim }
    let t2 := Function.update t1 partmid { t1 partmid with cut := valuehalf }
    let t3 := Function.update t2 partmid
      { t2 partmid with parent := if old_set ≠ 0 then -(root + 1) else root + 1 }
    let t4 := Function.update t3 partmid { t3 partmid with left_leaf := -partlower }
    Function.update t4 partmid { t4 partmid with right_leaf := -partmid }
  else treept

/-- The lines `if (old_nprocs > 1 && partmid > 0 && partmid != partlower +
old_nparts) { old_set = set; root = partmid; }` of `rcb_fn`: the new
`(old_set, root)`. -/
def parallel_next_root (old_nprocs partmid partlower old_nparts set old_set root : Int) :
    Int × Int :=
  if old_nprocs > 1 ∧ partmid > 0 ∧ partmid ≠ partlower + old_nparts then (set, partmid)
  else (old_set, root)

/-- The test `old_nparts > 1 && reuse && dim == treept[partmid].dim` of the
parallel loop of `rcb_fn`. -/
def parallel_guess (old_nparts reuse : Int) (treept : Int → rcb_tree) (partmid dim : Int) :
    Bool :=
  decide (old_nparts > 1 ∧ reuse ≠ 0 ∧ dim = (treept partmid).dim)

/-- The lines `if (old_nparts > 1 && reuse && dim == treept[partmid].dim) { if
(stats) counters[5]++; valuehalf = treept[partmid].cut; first_guess = 1; } else
first_guess = 0;` of the parallel loop of `rcb_fn`: the counters, `valuehalf`
and `first_guess` after them.  `valuehalf` is `none` while nothing has been
assigned to it. -/
def parallel_first_guess (old_nparts reuse stats : Int) (treept : Int → rcb_tree)
    (partmid dim : Int) (counters : Nat → Int) (valuehalf : Option ℚ) :
    (Nat → Int) × Option ℚ × Int :=
  if parallel_guess old_nparts reuse treept partmid dim = true then
    (if stats ≠ 0 then Function.update counters 5 (counters 5 + 1) else counters,
     some (treept partmid).cut, 1)
  else (counters, valuehalf, 0)

/-- A point lies inside or on the surface of a box (three axes). -/
def in_box (b : rcb_box) (p : Int → ℚ) : Prop :=
  (b.lo 0 ≤ p 0 ∧ p 0 ≤ b.hi 0) ∧ (b.lo 1 ≤ p 1 ∧ p 1 ≤ b.hi 1) ∧ (b.lo 2 ≤ p 2 ∧ p 2 ≤ b.hi 2)

instance (b : rcb_box) (p : Int → ℚ) : Decidable (in_box b p) := by
  unfold in_box; infer_instance

/-! ## The end of `rcb_fn` -/

/-- The value of `gen_tree` after the lines `if (reuse) { gen_tree = 1; ... }`
and `if (reuse_dir) { gen_tree = 1; ... }` of `rcb_fn`; nothing else assigns
to it. -/
def rcb_fn_gen_tree (reuse reuse_dir gen_tree : Int) : Int :=
  let gen_tree : Int := if reuse ≠ 0 then 1 else gen_tree
  if reuse_dir ≠ 0 then 1 else gen_tree

/-- The lines `if (gen_tree) { ... } else { treept[0].dim = -1; }` of
`rcb_fn`.  `displ` is the outcome of the `ZOLTAN_MALLOC` (`false` for a null
result), `gatherv_ierr` the status of `Zoltan_RB_Tree_Gatherv` and
`allgatherv` what `MPI_Allgatherv` leaves in `treept`; `ierr` and `treept` are
the status and the tree before these lines.  Returns the status, the tree, and
whether `rcb_fn` goes on (`false` is the jump to `End`). -/
def rcb_fn_tree_end (gen_tree : Int) (displ : Bool) (gatherv_ierr : Int)
    (allgatherv : (Int → rcb_tree) → (Int → rcb_tree)) (num_global_parts : Int)
    (ierr : Int) (treept : Int → rcb_tree) : Int × (Int → rcb_tree) × Bool :=
  if gen_tree ≠ 0 then
    if displ = false then (ZOLTAN_MEMERR, treept, false)
    else (gatherv_ierr, assemble (allgatherv treept) num_global_parts, true)
  else (ierr, Function.update treept 0 { treept 0 with dim := -1 }, true)

/-- Modelled from the spec: `Zoltan_RCB_Free_Structure`, which `rcb_fn` calls
but which is defined outside `rcb.c`.  The spec does not describe it; by the
comment at its call, `Free all memory used.` (against `Free only Dots and IDs;
keep other structures.` in the other branch), it releases the RCB data
structure with the cut tree in it.  The argument is the tree the structure
holds, the result the tree it holds afterwards: none. -/
def Zoltan_RCB_Free_Structure (_tree : Option (Int → rcb_tree)) : Option (Int → rcb_tree) :=
  none

/-- The lines after `End:` of `rcb_fn` that decide what outlives the call:
`if (!reuse && !gen_tree) { Zoltan_RCB_Free_Structure(zz); } else if (rcb !=
NULL) { ... }`, where the second branch frees the dots and the ids only.
`gen_tree` is the local variable, after the forcing.  The result is the cut
tree the structure holds when `rcb_fn` returns, `none` once released. -/
def rcb_fn_end (reuse gen_tree : Int) (treept : Int → rcb_tree) : Option (Int → rcb_tree) :=
  if reuse = 0 ∧ gen_tree = 0 then Zoltan_RCB_Free_Structure (some treept)
  else some treept

/-- The close of `rcb_fn`: the forcing of `gen_tree`, the lines
`if (gen_tree) { ... } else { treept[0].dim = -1; }`, and the lines after
`End:`, which are run also after a jump to `End`.  Returns the status and the
cut tree held when `rcb_fn` returns. -/
def rcb_fn_close (reuse reuse_dir gen_tree : Int) (displ : Bool) (gatherv_ierr : Int)
    (allgatherv : (Int → rcb_tree) → (Int → rcb_tree)) (num_global_parts : Int)
    (ierr : Int) (treept : Int → rcb_tree) : Int × Option (Int → rcb_tree) :=
  ((rcb_fn_tree_end (rcb_fn_gen_tree reuse reuse_dir gen_tree) displ gatherv_ierr allgatherv
      num_global_parts ierr treept).1,
    rcb_fn_end reuse (rcb_fn_gen_tree reuse reuse_dir gen_tree)
      (rcb_fn_tree_end (rcb_fn_gen_tree reuse reuse_dir gen_tree) displ gatherv_ierr allgatherv
        num_global_parts ierr treept).2.1)

/-! ## The node array of a bisection over several processes -/

/-- The loop `for (i = fp; i < (fp + np); i++) { treept[i].parent = 0;
treept[i].left_leaf = 0; }` of `rcb_fn`. -/
def rcb_fn_reset (treept : Int → rcb_tree) (fp np : Int) : Int → rcb_tree :=
  (List.range np.toNat).foldl
    (fun t (k : Nat) =>
      Function.update t (fp + (k : Int)) { t (fp + (k : Int)) with parent := 0, left_leaf := 0 })
    treept

/-- The values one iteration of the parallel loop of `rcb_fn` has in hand at
its recording lines. -/
structure ParallelCut where
  partmid : Int
  dim : Int
  valuehalf : ℚ
  old_set : Int
  root : Int
  partlower : Int

/-- The tree of the process whose first partition is `fp` after the iterations
`cuts` of the parallel loop: every iteration runs the recording lines
`if (partmid > 0 && partmid == fp) { ... }`. -/
def parallel_records (fp : Int) (cuts : List ParallelCut) (treept : Int → rcb_tree) :
    Int → rcb_tree :=
  cuts.foldl
    (fun t c => parallel_record t c.partmid fp c.dim c.valuehalf c.old_set c.root c.partlower)
    treept

/-- The node array `t` that `MPI_Allgatherv` leaves in `treept`, on the range
of partitions `l, ..., l + n - 1` that a set of processes holds when it has
`old_set` and `root` in hand; every process contributes the nodes of its own
partitions `fp, ..., fp + np - 1`.

* `single`: one partition; no process bisects further.
* `serial`: the range belongs to one process (`fp = l`, `np = n`), which after
  the reset loop and its iterations of the parallel loop calls `serial_rcb`
  with `old_set`, `root`, `num_parts = n` and `partlower = l`; the nodes
  strictly inside the range are those of its tree.
* `cut`: an iteration of the parallel loop in which `Zoltan_Divide_Machine`
  splits the range strictly inside at `m`; the process whose first partition
  is `m` records the node `m`, the processes of set 0 go on with the range
  `l, ..., m - 1` and those of set 1 with `m, ..., l + n - 1`
  (`if (set) partlower = partmid`), each with the `old_set` and `root` that
  the lines `if (old_nprocs > 1 && partmid > 0 && ...)` leave.

An iteration that only removes processes without partitions (`partmid = 0`, or
`partmid = partlower + old_nparts` for the processes of set 0) records
nothing, leaves `old_set` and `root` as they are and keeps the range, so it
needs no constructor. -/
inductive Bisected (t : Int → rcb_tree) : Int → Int → Int → Int → Prop
  | single (old_set root l : Int) : Bisected t old_set root l 1
  | serial (old_set root l n : Int) (env : SerialEnv) (hdiv : DividerOK env) (fuel : Nat)
      (rcbbox : rcb_box) (weight : ℚ) (dotnum dindx tmpdindx level : Nat) (s : SerialState)
      (r : SerialResult) (t0 : Int → rcb_tree) (cuts : List ParallelCut) (hn : 1 < n)
      (hentry : s.treept = parallel_records l cuts (rcb_fn_reset t0 l n))
      (hrun : serial_rcb env fuel old_set root rcbbox weight dotnum n dindx tmpdindx l level s =
        some r)
      (hgather : ∀ i, l < i → i < l + n → t i = r.st.treept i) :
      Bisected t old_set root l n
  | cut (old_set root l n m old_nprocs dim : Int) (valuehalf : ℚ) (t0 : Int → rcb_tree)
      (hprocs : old_nprocs > 1) (hm1 : l < m) (hm2 : m < l + n)
      (hrec : t m = parallel_record t0 m m dim valuehalf old_set root l m)
      (hlow : Bisected t (parallel_next_root old_nprocs m l n 0 old_set root).1
        (parallel_next_root old_nprocs m l n 0 old_set root).2 l (m - l))
      (hhigh : Bisected t (parallel_next_root old_nprocs m l n 1 old_set root).1
        (parallel_next_root old_nprocs m l n 1 old_set root).2 m (l + n - m)) :
      Bisected t old_set root l n

/-! ## The calls made in the course of a call of `serial_rcb` -/

/-- The arguments that vary between the calls of `serial_rcb`, and the memory
on entry. -/
structure SerialCall where
  old_set : Int
  root : Int
  rcbbox : rcb_box
  weight : ℚ
  dotnum : Nat
  num_parts : Int
  dindx : Nat
  tmpdindx : Nat
  partlower : Int
  level : Nat
  s : SerialState

/-- The straight-line part of a call (`serial_split` at its arguments). -/
def SerialCall.sp (env : SerialEnv) (c : SerialCall) : SplitOut :=
  serial_split env c.old_set c.root c.rcbbox c.weight c.dotnum c.num_parts c.dindx c.tmpdindx
    c.partlower c.level c.s

/-- The marks the median search of a call leaves in `dotmark`. -/
def SerialCall.marks (env : SerialEnv) (c : SerialCall) : Nat → Int :=
  (env.Zoltan_RB_find_median
    (serial_median_args env c.rcbbox c.weight c.dotnum c.num_parts c.dindx c.partlower c.level
      c.s)).dotmark

/-- A call returns `r`. -/
def SerialCall.Returns (env : SerialEnv) (c : SerialCall) (r : SerialResult) : Prop :=
  Run env c.old_set c.root c.rcbbox c.weight c.dotnum c.num_parts c.dindx c.tmpdindx
    c.partlower c.level c.s r

/-- The first test `new_nparts > 0 && set1 != 0` of a call. -/
def SerialCall.guard0 (env : SerialEnv) (c : SerialCall) : Prop :=
  (c.sp env).partmid - c.partlower > 0 ∧ (c.sp env).set1 ≠ 0

/-- The second test `new_nparts > 0 && set0 != dotnum` of a call. -/
def SerialCall.guard1 (env : SerialEnv) (c : SerialCall) : Prop :=
  c.partlower + c.num_parts - (c.sp env).partmid > 0 ∧ (c.sp env).set0 ≠ c.dotnum

/-- The recursive call for set 0 made by the call `c`. -/
def SerialCall.low (env : SerialEnv) (c : SerialCall) : SerialCall :=
  { old_set := 0, root := (c.sp env).partmid,
    rcbbox := tmpbox_set0 c.rcbbox (c.sp env).dim (c.sp env).valuehalf,
    weight := (c.sp env).weightlo, dotnum := (c.sp env).set0,
    num_parts := (c.sp env).partmid - c.partlower, dindx := c.dindx, tmpdindx := c.tmpdindx,
    partlower := c.partlower, level := (c.sp env).level, s := (c.sp env).st }

/-- The recursive call for set 1 made by the call `c`, on the memory `st` left
by what went before it. -/
def SerialCall.high (env : SerialEnv) (c : SerialCall) (st : SerialState) : SerialCall :=
  { old_set := 1, root := (c.sp env).partmid,
    rcbbox := tmpbox_set1 c.rcbbox (c.sp env).dim (c.sp env).valuehalf,
    weight := (c.sp env).weighthi, dotnum := c.dotnum - (c.sp env).set0,
    num_parts := c.partlower + c.num_parts - (c.sp env).partmid,
    dindx := c.dindx + (c.sp env).set1, tmpdindx := c.tmpdindx + (c.sp env).set1,
    partlower := (c.sp env).partmid, level := (c.sp env).level, s := st }

/-- The calls of `serial_rcb` made in the course of the call `c0`, with their
recursion depth below `c0`: `c0` itself at depth 0; the call for set 0 of a
call that passed its median search and its first test; the call for set 1 of a
call that passed its median search, did not stop after the call for set 0
(`r0` is what that call returned, or the state as it was when it was skipped)
and passed its second test. -/
inductive Reaches (env : SerialEnv) (c0 : SerialCall) : Nat → SerialCall → Prop
  | top : Reaches env c0 0 c0
  | low (k : Nat) (c : SerialCall) (h : Reaches env c0 k c) (h1 : c.num_parts ≠ 1)
      (hok : (c.sp env).ok = true) (hg : c.guard0 env) :
      Reaches env c0 (k + 1) (c.low env)
  | high (k : Nat) (c : SerialCall) (r0 : SerialResult) (h : Reaches env c0 k c)
      (h1 : c.num_parts ≠ 1) (hok : (c.sp env).ok = true)
      (hl : c.guard0 env → (c.low env).Returns env r0)
      (hl0 : ¬ c.guard0 env →
        r0 = { ierr := (c.sp env).ierr, st := (c.sp env).st,
               log := [Event.branch_skipped 0 ((c.sp env).partmid - c.partlower)
                        (c.sp env).set0] })
      (hcont : ¬ (c.guard0 env ∧ r0.ierr < 0)) (hg : c.guard1 env) :
      Reaches env c0 (k + 1) (c.high env r0.st)

/-- A divider that gives each side of a split of `n ≥ 2` partitions at least
one and at most `ceil(n/2)` partitions. -/
def DividerHalf (env : SerialEnv) : Prop :=
  ∀ num_parts partlower : Int, 2 ≤ num_parts →
    1 ≤ (env.Zoltan_Divide_Parts num_parts partlower).partmid - partlower ∧
    (env.Zoltan_Divide_Parts num_parts partlower).partmid - partlower ≤ (num_parts + 1) / 2 ∧
    1 ≤ partlower + num_parts - (env.Zoltan_Divide_Parts num_parts partlower).partmid ∧
    partlower + num_parts - (env.Zoltan_Divide_Parts num_parts partlower).partmid ≤
      (num_parts + 1) / 2

/-- The sequence `rcb_fn` holds in `dim_spec` after its call of
`set_preset_dir` (`dim_spec` is null before the call; `block` is the content
of the block `ZOLTAN_MALLOC` returns). -/
def preset_seq (nparts preset_dir : Int) (rcbbox : rcb_box) (block : Nat → Int) : Nat → Int :=
  match set_preset_dir nparts preset_dir rcbbox none (some block) with
  | some r => r.dim_spec.getD block
  | none => block

/-- The loop `for (i = 0; i < dotnum; i++) dindx[i] = i;` of `rcb_fn`, which
fills the index array before the call of `serial_rcb`. -/
def rcb_fn_dindx (dindx : Nat → Nat) (dotnum : Nat) : Nat → Nat :=
  (List.range dotnum).foldl (fun d i => Function.update d i i) dindx

/-! ## Concrete inputs used by the witnesses -/

/-- A divider in the style of Zoltan (`partmid = partlower + (num_parts-1)/2 + 1`,
status `ZOLTAN_OK`) and a median search that always succeeds and marks every
dot but the last one low. -/
def exEnv : SerialEnv :=
  { Zoltan_Divide_Parts := fun n l =>
      { ierr := 0, partmid := l + (n - 1) / 2 + 1, fractionlo := 1 / 2 },
    Zoltan_RB_find_median := fun a =>
      { ok := true, dotmark := fun i => if i + 1 < a.dotnum then 0 else 1, valuehalf := 0,
        weightlo := 0, weighthi := 0, counter0 := a.counter0, dotlist := a.dotlist },
    proc := 0, wgtflag := 1, lock_direction := 0, reuse := 0, stats := 0, gen_tree := 1,
    preset_dir := 0, rectilinear_blocks := 0, dim_spec := fun _ => 0 }

/-- Memory on entry: dot `i` at `(i, i, i)` with unit weights and `Part = -7`,
`dindx[i] = i`, every tree node unset with parent 0. -/
def exState : SerialState :=
  { dotpt := fun i => { X := fun _ => i, Weight := fun _ => 1, Part := -7 },
    dotmark := fun _ => 0, dotlist := fun _ => 0, dindx := fun i => i,
    tmpdindx := fun _ => 0, counters := fun _ => 0,
    treept := fun _ => { cut := 0, dim := -1, parent := 0, left_leaf := 0, right_leaf := 0 },
    coord := fun _ => 0, wgts := fun _ => 0 }

/-- A cut tree in the state `rcb_fn` starts from: every node unset, parent 0. -/
def exTree : Int → rcb_tree :=
  fun _ => { cut := 0, dim := -1, parent := 0, left_leaf := 0, right_leaf := 0 }

/-- The box `[0,1] x [0,3] x [0,3]`. -/
def exBox133 : rcb_box := { lo := fun _ => 0, hi := fun j => if j = 0 then 1 else 3 }

/-- The unit cube `[0,1] x [0,1] x [0,1]`. -/
def exBoxCube : rcb_box := { lo := fun _ => 0, hi := fun _ => 1 }

/-- The box `[0,1] x [0,1] x [0,4]`, widest along z. -/
def exBox114 : rcb_box := { lo := fun _ => 0, hi := fun j => if j = 2 then 4 else 1 }

/-- A divider as in `exEnv` and, with rectilinear tie-breaking on, a median
search that cuts at the coordinate of the middle dot and marks a dot low when
its coordinate is at or below the cut, so dots tied at the cut go to the low
side together; the weights returned are the sums over the two sides. -/
def exEnvTies : SerialEnv :=
  { Zoltan_Divide_Parts := fun n l =>
      { ierr := 0, partmid := l + (n - 1) / 2 + 1, fractionlo := 1 / 2 },
    Zoltan_RB_find_median := fun a =>
      { ok := true,
        dotmark := fun i => if a.coord i ≤ a.coord ((a.dotnum - 1) / 2) then 0 else 1,
        valuehalf := a.coord ((a.dotnum - 1) / 2),
        weightlo := (((List.range a.dotnum).filter
          (fun i => decide (a.coord i ≤ a.coord ((a.dotnum - 1) / 2)))).map a.wgts).sum,
        weighthi := (((List.range a.dotnum).filter
          (fun i => decide (¬ a.coord i ≤ a.coord ((a.dotnum - 1) / 2)))).map a.wgts).sum,
        counter0 := a.counter0, dotlist := a.dotlist },
    proc := 0, wgtflag := 1, lock_direction := 0, reuse := 0, stats := 0, gen_tree := 1,
    preset_dir := 0, rectilinear_blocks := 1, dim_spec := fun _ => 0 }

/-- Memory on entry: coincident dots, every dot at `(5, 0, 0)` with unit weight
and `Part = -7`. -/
def exStateTies : SerialState :=
  { exState with
    dotpt := fun _ =>
      { X := fun j => if j = 0 then 5 else 0, Weight := fun _ => 1, Part := -7 } }

/-- The box `{5} x {0} x {0}` of the coincident dots. -/
def exBoxTies : rcb_box :=
  { lo := fun j => if j = 0 then 5 else 0, hi := fun j => if j = 0 then 5 else 0 }

/-- As `exEnv`, with a median search that fails when it is given one dot. -/
def exEnvFail : SerialEnv :=
  { exEnv with
    Zoltan_RB_find_median := fun a =>
      { ok := decide (a.dotnum ≠ 1), dotmark := fun i => if i + 1 < a.dotnum then 0 else 1,
        valuehalf := 0, weightlo := 0, weighthi := 0, counter0 := a.counter0,
        dotlist := a.dotlist } }

/-- A box beyond `MYHUGE`: `lo = 2e30`, `hi = 3e30` on every axis. -/
def exBoxFar : rcb_box := { lo := fun _ => 2 * 10 ^ 30, hi := fun _ => 3 * 10 ^ 30 }

/-- As `exEnv`, with preset order 1 and the sequence `set_preset_dir` builds
for three partitions on the box `[0,1] x [0,3] x [0,3]`. -/
def exEnvPreset : SerialEnv :=
  { exEnv with preset_dir := 1, dim_spec := preset_seq 3 1 exBox133 (fun _ => -1) }

/-- The call of `serial_rcb` by `rcb_fn` on one process: three dots, three
partitions, `dindx[i] = i`. -/
def exCall : SerialCall :=
  { old_set := 1, root := 0, rcbbox := exBox133, weight := 3, dotnum := 3, num_parts := 3,
    dindx := 0, tmpdindx := 3, partlower := 0, level := 0, s := exState }

/-- The cut of the first iteration of the parallel loop for two processes and
four partitions: boundary 2, along y at 3/2, with `old_set = 1`, `root = 0`
and `partlower = 0` in hand. -/
def exCutTop : ParallelCut :=
  { partmid := 2, dim := 1, valuehalf := 3 / 2, old_set := 1, root := 0, partlower := 0 }

/-- Memory of the process holding the partitions 0 and 1 (`fp = 0`, `np = 2`)
when it calls `serial_rcb`. -/
def exStateLow : SerialState :=
  { exState with treept := parallel_records 0 [exCutTop] (rcb_fn_reset exTree 0 2) }

/-- Memory of the process holding the partitions 2 and 3 (`fp = 2`, `np = 2`)
when it calls `serial_rcb`; it has recorded the node 2. -/
def exStateHigh : SerialState :=
  { exState with treept := parallel_records 2 [exCutTop] (rcb_fn_reset exTree 2 2) }

/-- The call of `serial_rcb` by the process of set 0: `old_set = 0`,
`root = 2`, two dots, the partitions 0 and 1. -/
def exRunLow : Option SerialResult :=
  serial_rcb exEnv 2 0 2 exBox133 2 2 2 0 2 0 0 exStateLow

/-- The call of `serial_rcb` by the process of set 1: `old_set = 1`,
`root = 2`, two dots, the partitions 2 and 3. -/
def exRunHigh : Option SerialResult :=
  serial_rcb exEnv 2 1 2 exBox133 2 2 2 0 2 2 0 exStateHigh

/-- The node array after the gather: the nodes 0 and 1 from the first
process, the nodes 2 and 3 from the second. -/
def exGather : Int → rcb_tree :=
  fun i =>
    if i < 2 then ((exRunLow.map (fun r => r.st.treept)).getD exTree) i
    else ((exRunHigh.map (fun r => r.st.treept)).getD exTree) i

/-! ## Theorems -/

/-! ### Direction selection -/

/-- C7. Heuristic axis selection: with directions not locked and no preset
order, `cut_dimension` returns an axis among 0, 1, 2 whose extent is at least
the extent of every axis and strictly larger than the extent of every
lower-numbered axis (so it is the lowest axis attaining the maximum); the
level counter is returned unchanged. -/
theorem cut_dimension_heuristic (lock_direction preset_dir : Int) (treept : Int → rcb_tree)
    (partmid : Int) (dim_spec : Nat → Int) (level : Nat) (rcbbox : rcb_box)
    (hlock : lock_direction = 0) (hpreset : preset_dir = 0) :
    ((cut_dimension lock_direction treept partmid preset_dir dim_spec level rcbbox).1 = 0 ∨
      (cut_dimension lock_direction treept partmid preset_dir dim_spec level rcbbox).1 = 1 ∨
      (cut_dimension lock_direction treept partmid preset_dir dim_spec level rcbbox).1 = 2) ∧
    (∀ j : Int, j = 0 ∨ j = 1 ∨ j = 2 → extent rcbbox j ≤ extent rcbbox
      (cut_dimension lock_direction treept partmid preset_dir dim_spec level rcbbox).1) ∧
    (∀ j : Int, j = 0 ∨ j = 1 ∨ j = 2 →
      j < (cut_dimension lock_direction treept partmid preset_dir dim_spec level rcbbox).1 →
      extent rcbbox j < extent rcbbox
        (cut_dimension lock_direction treept partmid preset_dir dim_spec level rcbbox).1) ∧
    (cut_dimension lock_direction treept partmid preset_dir dim_spec level rcbbox).2 = level := by
  subst hlock hpreset
  refine ⟨?_, ?_, ?_, by simp [cut_dimension]⟩ <;>
  generalize hd0 : (cut_dimension 0 treept partmid 0 dim_spec level rcbbox).1 = d <;>
  have hd := hd0.symm <;>
  simp only [cut_dimension] at hd <;>
  clear hd0
  all_goals try unfold extent
  all_goals by_cases h10 : rcbbox.hi 1 - rcbbox.lo 1 > rcbbox.hi 0 - rcbbox.lo 0
  all_goals by_cases h21 : rcbbox.hi 2 - rcbbox.lo 2 > rcbbox.hi 1 - rcbbox.lo 1
  all_goals by_cases h20 : rcbbox.hi 2 - rcbbox.lo 2 > rcbbox.hi 0 - rcbbox.lo 0
  all_goals simp [h10, h21, h20] at hd
  all_goals subst hd
  all_goals first
    | decide
    | (rintro j (rfl | rfl | rfl) <;> linarith)
    | (rintro j (rfl | rfl | rfl) hj <;> linarith)

/-- A box of extents 1, 3, 3: the heuristic picks axis 1, the lowest axis of
largest extent. -/
theorem cut_dimension_heuristic_witness :
    ((0 : Int) = 0 ∧ (0 : Int) = 0) ∧
    (cut_dimension 0 exTree 1 0 (fun _ => 0) 0 exBox133).1 = 1 ∧
    (∀ j : Int, j = 0 ∨ j = 1 ∨ j = 2 → extent exBox133 j ≤ extent exBox133
      (cut_dimension 0 exTree 1 0 (fun _ => 0) 0 exBox133).1) :=
  ⟨⟨rfl, rfl⟩, by simp [cut_dimension, exBox133],
   (cut_dimension_heuristic 0 0 exTree 1 (fun _ => 0) 0 exBox133 rfl rfl).2.1⟩

/-! ### Bounding boxes -/

/-- C5. Bounding-box monotonicity.  At a split along `dim` with cut `v` the
box of the low child (set 0) is the parent box with `hi[dim] = v` and the box
of the high child (set 1) is the parent box with `lo[dim] = v`, in `serial_rcb`
and, for `old_nprocs > 1`, in the parallel step.  When `dim` is one of the
three axes and `lo[dim] ≤ v ≤ hi[dim]`, each child box is contained in the
parent box, and a point lies in both child boxes exactly when it lies in the
parent box and has coordinate `v` on axis `dim`. -/
theorem child_boxes_monotone (rcbbox : rcb_box) (dim : Int) (v : ℚ) (old_nprocs set : Int)
    (hdim : dim = 0 ∨ dim = 1 ∨ dim = 2) (hlo : rcbbox.lo dim ≤ v) (hhi : v ≤ rcbbox.hi dim)
    (hprocs : old_nprocs > 1) :
    ((tmpbox_set0 rcbbox dim v).lo = rcbbox.lo ∧ (tmpbox_set0 rcbbox dim v).hi dim = v ∧
      ∀ j, j ≠ dim → (tmpbox_set0 rcbbox dim v).hi j = rcbbox.hi j) ∧
    ((tmpbox_set1 rcbbox dim v).hi = rcbbox.hi ∧ (tmpbox_set1 rcbbox dim v).lo dim = v ∧
      ∀ j, j ≠ dim → (tmpbox_set1 rcbbox dim v).lo j = rcbbox.lo j) ∧
    (shrink_box old_nprocs set rcbbox dim v =
      if set = 0 then tmpbox_set0 rcbbox dim v else tmpbox_set1 rcbbox dim v) ∧
    (∀ p, in_box (tmpbox_set0 rcbbox dim v) p → in_box rcbbox p) ∧
    (∀ p, in_box (tmpbox_set1 rcbbox dim v) p → in_box rcbbox p) ∧
    (∀ p, (in_box (tmpbox_set0 rcbbox dim v) p ∧ in_box (tmpbox_set1 rcbbox dim v) p) ↔
      (in_box rcbbox p ∧ p dim = v)) := by
  refine ⟨⟨rfl, by simp [tmpbox_set0], fun j hj => by simp [tmpbox_set0, hj]⟩,
    ⟨rfl, by simp [tmpbox_set1], fun j hj => by simp [tmpbox_set1, hj]⟩, ?_, ?_, ?_, ?_⟩
  · simp only [shrink_box, hprocs, if_true]
    split <;> rfl
  · intro p hp
    rcases hdim with rfl | rfl | rfl <;>
      simp [in_box, tmpbox_set0, Function.update] at hp ⊢ <;>
      refine ⟨⟨?_, ?_⟩, ⟨?_, ?_⟩, ⟨?_, ?_⟩⟩ <;> linarith [hp.1.1, hp.1.2, hp.2.1.1, hp.2.1.2, hp.2.2.1, hp.2.2.2]
  · intro p hp
    rcases hdim with rfl | rfl | rfl <;>
      simp [in_box, tmpbox_set1, Function.update] at hp ⊢ <;>
      refine ⟨⟨?_, ?_⟩, ⟨?_, ?_⟩, ⟨?_, ?_⟩⟩ <;> linarith [hp.1.1, hp.1.2, hp.2.1.1, hp.2.1.2, hp.2.2.1, hp.2.2.2]
  · intro p
    rcases hdim with rfl | rfl | rfl <;>
      simp only [in_box, tmpbox_set0, tmpbox_set1, Function.update] <;>
      simp <;>
      constructor
    all_goals first
      | (rintro ⟨⟨⟨a1, a2⟩, ⟨a3, a4⟩, a5, a6⟩, ⟨⟨b1, b2⟩, ⟨b3, b4⟩, b5, b6⟩⟩
         refine ⟨⟨⟨?_, ?_⟩, ⟨?_, ?_⟩, ?_, ?_⟩, ?_⟩ <;> linarith)
      | (rintro ⟨⟨⟨a1, a2⟩, ⟨a3, a4⟩, a5, a6⟩, b⟩
         refine ⟨⟨⟨?_, ?_⟩, ⟨?_, ?_⟩, ?_, ?_⟩, ⟨⟨?_, ?_⟩, ⟨?_, ?_⟩, ?_, ?_⟩⟩ <;> linarith)

/-- The low child of `exBox133` cut at `y = 2`. -/
theorem child_boxes_monotone_witness :
    (((1 : Int) = 0 ∨ (1 : Int) = 1 ∨ (1 : Int) = 2) ∧ exBox133.lo 1 ≤ 2 ∧ (2 : ℚ) ≤ exBox133.hi 1 ∧
      (2 : Int) > 1) ∧
    (∀ p, in_box (tmpbox_set0 exBox133 1 2) p → in_box exBox133 p) :=
  ⟨⟨by decide, by simp [exBox133], by norm_num [exBox133], by decide⟩,
   (child_boxes_monotone exBox133 1 2 2 0 (by decide) (by simp [exBox133])
      (by norm_num [exBox133]) (by decide)).2.2.2.1⟩

/-! ### Arrays as maps: slices and loops -/

theorem slice_length {α : Type} (a : Nat → α) (off n : Nat) : (slice a off n).length = n := by
  simp [slice]

theorem slice_succ {α : Type} (a : Nat → α) (off n : Nat) :
    slice a off (n + 1) = slice a off n ++ [a (off + n)] := by
  simp [slice, List.range_succ]

theorem slice_cons {α : Type} (a : Nat → α) (off n : Nat) :
    slice a off (n + 1) = a off :: slice a (off + 1) n := by
  simp only [slice, List.range_succ_eq_map, List.map_cons, List.map_map, Nat.add_zero]
  congr 1
  apply List.map_congr_left
  intro i _
  simp only [Function.comp, Nat.succ_eq_add_one]
  congr 1
  omega

theorem slice_congr {α : Type} (a b : Nat → α) (off n : Nat)
    (h : ∀ i, i < n → a (off + i) = b (off + i)) : slice a off n = slice b off n := by
  apply List.map_congr_left
  intro i hi
  exact h i (List.mem_range.mp hi)

theorem slice_append {α : Type} (a : Nat → α) (off n m : Nat) :
    slice a off (n + m) = slice a off n ++ slice a (off + n) m := by
  induction m with
  | zero => simp [slice]
  | succ m ih =>
    rw [← Nat.add_assoc, slice_succ, ih, slice_succ, List.append_assoc, Nat.add_assoc]

theorem mem_slice {α : Type} (a : Nat → α) (off n : Nat) (x : α) :
    x ∈ slice a off n ↔ ∃ i, i < n ∧ a (off + i) = x := by
  simp [slice]

theorem marked_low_succ (dotmark : Nat → Int) (dx : Nat → Nat) (dindx n : Nat) :
    marked_low dotmark dx dindx (n + 1) =
      if dotmark n = 0 then marked_low dotmark dx dindx n ++ [dx (dindx + n)]
      else marked_low dotmark dx dindx n := by
  by_cases h : dotmark n = 0 <;> simp [marked_low, List.range_succ, List.filter_append, h]

theorem marked_high_succ (dotmark : Nat → Int) (dx : Nat → Nat) (dindx n : Nat) :
    marked_high dotmark dx dindx (n + 1) =
      if dotmark n = 0 then marked_high dotmark dx dindx n
      else marked_high dotmark dx dindx n ++ [dx (dindx + n)] := by
  by_cases h : dotmark n = 0 <;> simp [marked_high, List.range_succ, List.filter_append, h]

theorem marked_low_length_le (dotmark : Nat → Int) (dx : Nat → Nat) (dindx n : Nat) :
    (marked_low dotmark dx dindx n).length ≤ n := by
  induction n with
  | zero => simp [marked_low]
  | succ n ih =>
    rw [marked_low_succ]
    split
    · rw [List.length_append, List.length_singleton]; omega
    · omega

theorem marked_length_add (dotmark : Nat → Int) (dx : Nat → Nat) (dindx n : Nat) :
    (marked_low dotmark dx dindx n).length + (marked_high dotmark dx dindx n).length = n := by
  induction n with
  | zero => simp [marked_low, marked_high]
  | succ n ih =>
    rw [marked_low_succ, marked_high_succ]
    split <;> rw [List.length_append, List.length_singleton] <;> omega

theorem regroup_steps_succ (dotmark : Nat → Int) (dx : Nat → Nat)
    (dindx tmpdindx dotnum : Nat) (tmp : Nat → Nat) (n : Nat) :
    regroup_steps dotmark dx dindx tmpdindx dotnum tmp (n + 1) =
      (let st := regroup_steps dotmark dx dindx tmpdindx dotnum tmp n
       if dotmark n = 0 then
         (st.1 + 1, st.2.1, Function.update st.2.2 (tmpdindx + st.1) (dx (dindx + n)))
       else
         (st.1, st.2.1 - 1, Function.update st.2.2 (tmpdindx + (st.2.1 - 1)) (dx (dindx + n)))) := by
  simp [regroup_steps, List.range_succ, List.foldl_append]

/-- Invariant of the regrouping loop after `n ≤ dotnum` iterations. -/
theorem regroup_steps_inv (dotmark : Nat → Int) (dx : Nat → Nat)
    (dindx tmpdindx dotnum : Nat) (tmp : Nat → Nat) (n : Nat) (hn : n ≤ dotnum) :
    let st := regroup_steps dotmark dx dindx tmpdindx dotnum tmp n
    st.1 = (marked_low dotmark dx dindx n).length ∧
    st.2.1 + (marked_high dotmark dx dindx n).length = dotnum ∧
    slice st.2.2 tmpdindx st.1 = marked_low dotmark dx dindx n ∧
    slice st.2.2 (tmpdindx + st.2.1) (marked_high dotmark dx dindx n).length =
      (marked_high dotmark dx dindx n).reverse := by
  induction n with
  | zero => simp [regroup_steps, marked_low, marked_high, slice]
  | succ n ih =>
    have ih := ih (by omega)
    simp only at ih
    obtain ⟨h1, h2, h3, h4⟩ := ih
    have hlen := marked_length_add dotmark dx dindx n
    rw [regroup_steps_succ, marked_low_succ, marked_high_succ]
    generalize regroup_steps dotmark dx dindx tmpdindx dotnum tmp n = st at h1 h2 h3 h4
    obtain ⟨s0, s1, t⟩ := st
    simp only at h1 h2 h3 h4
    by_cases hm : dotmark n = 0
    · simp only [hm, if_true, List.length_append, List.length_singleton]
      refine ⟨by omega, h2, ?_, ?_⟩
      · rw [slice_succ, Function.update_same, ← h3]
        congr 1
        apply slice_congr
        intro i hi
        rw [Function.update_noteq]
        omega
      · rw [← h4]
        apply slice_congr
        intro i hi
        rw [Function.update_noteq]
        omega
    · simp only [hm, if_false, List.length_append, List.length_singleton]
      refine ⟨h1, by omega, ?_, ?_⟩
      · rw [← h3]
        apply slice_congr
        intro i hi
        rw [Function.update_noteq]
        omega
      · rw [slice_cons, Function.update_same, List.reverse_append, List.reverse_singleton,
          List.singleton_append, ← h4]
        congr 1
        have e : tmpdindx + (s1 - 1) + 1 = tmpdindx + s1 := by omega
        rw [e]
        apply slice_congr
        intro i hi
        rw [Function.update_noteq]
        omega

theorem memcpy_dindx_apply (dx tmp : Nat → Nat) (dindx tmpdindx n j : Nat) :
    memcpy_dindx dx tmp dindx tmpdindx n j =
      if dindx ≤ j ∧ j < dindx + n then tmp (tmpdindx + (j - dindx)) else dx j := by
  induction n with
  | zero =>
    have : ¬ (dindx ≤ j ∧ j < dindx + 0) := by omega
    rw [if_neg this]
    rfl
  | succ n ih =>
    have e : memcpy_dindx dx tmp dindx tmpdindx (n + 1) =
        Function.update (memcpy_dindx dx tmp dindx tmpdindx n) (dindx + n) (tmp (tmpdindx + n)) := by
      simp [memcpy_dindx, List.range_succ, List.foldl_append]
    rw [e]
    by_cases hj : j = dindx + n
    · subst hj
      rw [Function.update_same]
      have : dindx ≤ dindx + n ∧ dindx + n < dindx + (n + 1) := by omega
      rw [if_pos this]
      congr 2
      omega
    · rw [Function.update_noteq hj, ih]
      by_cases h : dindx ≤ j ∧ j < dindx + n
      · have h2 : dindx ≤ j ∧ j < dindx + (n + 1) := by omega
        rw [if_pos h, if_pos h2]
      · have h2 : ¬ (dindx ≤ j ∧ j < dindx + (n + 1)) := by omega
        rw [if_neg h, if_neg h2]

theorem slice_memcpy_dindx (dx tmp : Nat → Nat) (dindx tmpdindx n off len : Nat)
    (h : off + len ≤ n) :
    slice (memcpy_dindx dx tmp dindx tmpdindx n) (dindx + off) len =
      slice tmp (tmpdindx + off) len := by
  apply List.map_congr_left
  intro i hi
  have hi := List.mem_range.mp hi
  rw [memcpy_dindx_apply]
  have h1 : dindx ≤ dindx + off + i ∧ dindx + off + i < dindx + n := by omega
  rw [if_pos h1]
  congr 1
  omega

theorem marked_perm (dotmark : Nat → Int) (dx : Nat → Nat) (dindx n : Nat) :
    (marked_low dotmark dx dindx n ++ marked_high dotmark dx dindx n).Perm (slice dx dindx n) := by
  induction n with
  | zero => simp [marked_low, marked_high, slice]
  | succ n ih =>
    rw [marked_low_succ, marked_high_succ, slice_succ]
    split
    · rw [List.append_assoc]
      refine List.Perm.trans ?_ (List.Perm.append_right _ ih)
      rw [List.append_assoc]
      exact List.Perm.append_left _ List.perm_append_comm
    · rw [← List.append_assoc]
      exact List.Perm.append_right _ ih

/-! ### Regrouping -/

/-- What the regrouping loop followed by the `memcpy` computes. -/
theorem regroup_spec (dotmark : Nat → Int) (dx : Nat → Nat)
    (dindx tmpdindx dotnum : Nat) (tmp : Nat → Nat) :
    let g := regroup_steps dotmark dx dindx tmpdindx dotnum tmp dotnum
    let new := memcpy_dindx dx g.2.2 dindx tmpdindx dotnum
    let k := ((List.range dotnum).filter (fun i => decide (dotmark i = 0))).length
    g.1 = k ∧ g.2.1 = k ∧ k ≤ dotnum ∧
    slice new dindx k = marked_low dotmark dx dindx dotnum ∧
    slice new (dindx + k) (dotnum - k) = (marked_high dotmark dx dindx dotnum).reverse ∧
    (slice new dindx dotnum).Perm (slice dx dindx dotnum) ∧
    (∀ j, ¬ (dindx ≤ j ∧ j < dindx + dotnum) → new j = dx j) := by
  intro g new k
  have hk : k = (marked_low dotmark dx dindx dotnum).length := by simp [k, marked_low]
  have hinv := regroup_steps_inv dotmark dx dindx tmpdindx dotnum tmp dotnum (le_refl _)
  simp only at hinv
  obtain ⟨h1, h2, h3, h4⟩ := hinv
  have hlen := marked_length_add dotmark dx dindx dotnum
  have hg1 : g.1 = k := by rw [hk]; exact h1
  have hg2 : g.2.1 = k := by
    have : g.2.1 + (marked_high dotmark dx dindx dotnum).length = dotnum := h2
    omega
  have hkle : k ≤ dotnum := by omega
  have hlow : slice new dindx k = marked_low dotmark dx dindx dotnum := by
    have := slice_memcpy_dindx dx g.2.2 dindx tmpdindx dotnum 0 k (by omega)
    simp only [Nat.add_zero] at this
    rw [this, ← hg1]
    exact h3
  have hhigh : slice new (dindx + k) (dotnum - k) =
      (marked_high dotmark dx dindx dotnum).reverse := by
    rw [slice_memcpy_dindx dx g.2.2 dindx tmpdindx dotnum k (dotnum - k) (by omega)]
    have e : dotnum - k = (marked_high dotmark dx dindx dotnum).length := by omega
    rw [e, ← hg2]
    exact h4
  refine ⟨hg1, hg2, hkle, hlow, hhigh, ?_, ?_⟩
  · have e : dotnum = k + (dotnum - k) := by omega
    have hs : slice new dindx dotnum =
        marked_low dotmark dx dindx dotnum ++ (marked_high dotmark dx dindx dotnum).reverse := by
      conv_lhs => rw [e]
      rw [slice_append, hlow, hhigh]
    rw [hs]
    refine List.Perm.trans (List.Perm.append_left _ (List.reverse_perm _)) ?_
    exact marked_perm dotmark dx dindx dotnum
  · intro j hj
    show memcpy_dindx dx g.2.2 dindx tmpdindx dotnum j = dx j
    rw [memcpy_dindx_apply, if_neg hj]

/-- C6. Serial regrouping.  After the regrouping loop and the `memcpy` of
`serial_rcb`, both counters `set0` and `set1` equal the number `k` of 0-marked
positions; the new `dindx[0..k)` lists the entries whose mark is 0 (in their
old order) and the new `dindx[k..dotnum)` the entries whose mark is not 0 (in
reverse order); the new `dindx[0..dotnum)` is a permutation of the old one,
and no entry outside that range changes. -/
theorem serial_regrouping (dotmark : Nat → Int) (dx : Nat → Nat)
    (dindx tmpdindx dotnum : Nat) (tmp : Nat → Nat) :
    (regroup_steps dotmark dx dindx tmpdindx dotnum tmp dotnum).1 = low_count dotmark dotnum ∧
    (regroup_steps dotmark dx dindx tmpdindx dotnum tmp dotnum).2.1 = low_count dotmark dotnum ∧
    low_count dotmark dotnum ≤ dotnum ∧
    slice (regrouped dotmark dx dindx tmpdindx dotnum tmp) dindx (low_count dotmark dotnum) =
      marked_low dotmark dx dindx dotnum ∧
    slice (regrouped dotmark dx dindx tmpdindx dotnum tmp) (dindx + low_count dotmark dotnum)
        (dotnum - low_count dotmark dotnum) =
      (marked_high dotmark dx dindx dotnum).reverse ∧
    (slice (regrouped dotmark dx dindx tmpdindx dotnum tmp) dindx dotnum).Perm
      (slice dx dindx dotnum) ∧
    (∀ j, ¬ (dindx ≤ j ∧ j < dindx + dotnum) →
      regrouped dotmark dx dindx tmpdindx dotnum tmp j = dx j) :=
  regroup_spec dotmark dx dindx tmpdindx dotnum tmp

/-! ### Runs of `serial_rcb` -/

/-- Every result of the function `serial_rcb` is a run. -/
theorem serial_rcb_run (env : SerialEnv) (fuel : Nat) :
    ∀ (old_set root : Int) (rcbbox : rcb_box) (weight : ℚ) (dotnum : Nat) (num_parts : Int)
      (dindx tmpdindx : Nat) (partlower : Int) (level : Nat) (s : SerialState)
      (r : SerialResult),
      serial_rcb env fuel old_set root rcbbox weight dotnum num_parts dindx tmpdindx partlower
        level s = some r →
      Run env old_set root rcbbox weight dotnum num_parts dindx tmpdindx partlower level s r := by
  induction fuel with
  | zero => intro _ _ _ _ _ _ _ _ _ _ _ r h; simp [serial_rcb] at h
  | succ fuel ih =>
    intro old_set root rcbbox weight dotnum num_parts dindx tmpdindx partlower level s r h
    rw [serial_rcb] at h
    by_cases h1 : num_parts = 1
    · subst h1
      simp only [if_true] at h
      cases h
      exact Run.leaf _ _ _ _ _ _ _ _ _ _
    · simp only [h1, if_false] at h
      generalize hsp : serial_split env old_set root rcbbox weight dotnum num_parts dindx
        tmpdindx partlower level s = sp at h
      by_cases hok : sp.ok = false
      · simp only [hok, if_true] at h
        cases h
        exact Run.fail _ _ _ _ _ _ _ _ _ _ _ sp hsp.symm h1 hok
      · have hok2 : sp.ok = true := by simpa using hok
        simp only [hok2, Bool.true_eq_false, if_false] at h
        by_cases hc : sp.partmid - partlower > 0 ∧ sp.set1 ≠ 0
        · rw [if_pos hc] at h
          cases hr0 : serial_rcb env fuel 0 sp.partmid (tmpbox_set0 rcbbox sp.dim sp.valuehalf)
              sp.weightlo sp.set0 (sp.partmid - partlower) dindx tmpdindx partlower sp.level
              sp.st with
          | none => rw [hr0] at h; cases h
          | some r0 =>
            have hrun0 := ih _ _ _ _ _ _ _ _ _ _ _ _ hr0
            rw [hr0] at h
            simp only at h
            by_cases hneg : (sp.partmid - partlower > 0 ∧ sp.set1 ≠ 0) ∧ r0.ierr < 0
            · rw [if_pos hneg] at h
              cases h
              exact Run.abort _ _ _ _ _ _ _ _ _ _ _ sp r0 hsp.symm h1 hok2 hc hrun0 hneg.2
            · rw [if_neg hneg] at h
              by_cases hh : partlower + num_parts - sp.partmid > 0 ∧ sp.set0 ≠ dotnum
              · rw [if_pos hh] at h
                cases hr1 : serial_rcb env fuel 1 sp.partmid
                    (tmpbox_set1 rcbbox sp.dim sp.valuehalf) sp.weighthi (dotnum - sp.set0)
                    (partlower + num_parts - sp.partmid) (dindx + sp.set1) (tmpdindx + sp.set1)
                    sp.partmid sp.level r0.st with
                | none => rw [hr1] at h; cases h
                | some r1 =>
                  have hrun1 := ih _ _ _ _ _ _ _ _ _ _ _ _ hr1
                  rw [hr1] at h
                  cases h
                  exact Run.node _ _ _ _ _ _ _ _ _ _ _ sp r0 r1 hsp.symm h1 hok2
                    (fun _ => hrun0) (fun hn => absurd hc hn) hneg
                    (fun _ => hrun1) (fun hn => absurd hh hn)
              · rw [if_neg hh] at h
                cases h
                exact Run.node _ _ _ _ _ _ _ _ _ _ _ sp r0
                  { ierr := r0.ierr, st := r0.st,
                    log := [Event.branch_skipped 1 (partlower + num_parts - sp.partmid)
                              (dotnum - sp.set0)] }
                  hsp.symm h1 hok2
                  (fun _ => hrun0) (fun hn => absurd hc hn) hneg
                  (fun hn => absurd hn hh) (fun _ => rfl)
        · rw [if_neg hc] at h
          simp only at h
          have hneg : ¬ ((sp.partmid - partlower > 0 ∧ sp.set1 ≠ 0) ∧ sp.ierr < 0) :=
            fun hn => hc hn.1
          rw [if_neg hneg] at h
          by_cases hh : partlower + num_parts - sp.partmid > 0 ∧ sp.set0 ≠ dotnum
          · rw [if_pos hh] at h
            cases hr1 : serial_rcb env fuel 1 sp.partmid
                (tmpbox_set1 rcbbox sp.dim sp.valuehalf) sp.weighthi (dotnum - sp.set0)
                (partlower + num_parts - sp.partmid) (dindx + sp.set1) (tmpdindx + sp.set1)
                sp.partmid sp.level sp.st with
            | none => rw [hr1] at h; cases h
            | some r1 =>
              have hrun1 := ih _ _ _ _ _ _ _ _ _ _ _ _ hr1
              rw [hr1] at h
              cases h
              exact Run.node _ _ _ _ _ _ _ _ _ _ _ sp
                { ierr := sp.ierr, st := sp.st,
                  log := [Event.branch_skipped 0 (sp.partmid - partlower) sp.set0] }
                r1 hsp.symm h1 hok2
                (fun hn => absurd hn hc) (fun _ => rfl) (fun hn => hc hn.1)
                (fun _ => hrun1) (fun hn => absurd hh hn)
          · rw [if_neg hh] at h
            cases h
            exact Run.node _ _ _ _ _ _ _ _ _ _ _ sp
              { ierr := sp.ierr, st := sp.st,
                log := [Event.branch_skipped 0 (sp.partmid - partlower) sp.set0] }
              { ierr := sp.ierr, st := sp.st,
                log := [Event.branch_skipped 1 (partlower + num_parts - sp.partmid)
                          (dotnum - sp.set0)] }
              hsp.symm h1 hok2
              (fun hn => absurd hn hc) (fun _ => rfl) (fun hn => hc hn.1)
              (fun hn => absurd hn hh) (fun _ => rfl)

/-! ### Facts about the straight-line part of `serial_rcb` -/

theorem serial_split_partmid (env : SerialEnv) (old_set root : Int) (rcbbox : rcb_box)
    (weight : ℚ) (dotnum : Nat) (num_parts : Int) (dindx tmpdindx : Nat) (partlower : Int)
    (level : Nat) (s : SerialState) :
    (serial_split env old_set root rcbbox weight dotnum num_parts dindx tmpdindx partlower
      level s).partmid = (env.Zoltan_Divide_Parts num_parts partlower).partmid := by
  simp only [serial_split]
  split <;> rfl

theorem serial_split_dotpt (env : SerialEnv) (old_set root : Int) (rcbbox : rcb_box)
    (weight : ℚ) (dotnum : Nat) (num_parts : Int) (dindx tmpdindx : Nat) (partlower : Int)
    (level : Nat) (s : SerialState) :
    (serial_split env old_set root rcbbox weight dotnum num_parts dindx tmpdindx partlower
      level s).st.dotpt = s.dotpt := by
  simp only [serial_split]
  split <;> rfl

theorem serial_split_treept (env : SerialEnv) (old_set root : Int) (rcbbox : rcb_box)
    (weight : ℚ) (dotnum : Nat) (num_parts : Int) (dindx tmpdindx : Nat) (partlower : Int)
    (level : Nat) (s : SerialState) (sp : SplitOut)
    (hsp : sp = serial_split env old_set root rcbbox weight dotnum num_parts dindx tmpdindx
      partlower level s) :
    sp.st.treept =
      if sp.ok = true then
        record_cut s.treept sp.partmid sp.dim sp.valuehalf old_set root partlower
      else s.treept := by
  subst hsp
  simp only [serial_split]
  split <;> simp

theorem serial_split_dindx (env : SerialEnv) (old_set root : Int) (rcbbox : rcb_box)
    (weight : ℚ) (dotnum : Nat) (num_parts : Int) (dindx tmpdindx : Nat) (partlower : Int)
    (level : Nat) (s : SerialState) (sp : SplitOut)
    (hsp : sp = serial_split env old_set root rcbbox weight dotnum num_parts dindx tmpdindx
      partlower level s) :
    sp.set0 ≤ dotnum ∧ (sp.ok = true → sp.set1 = sp.set0) ∧
    (slice sp.st.dindx dindx dotnum).Perm (slice s.dindx dindx dotnum) ∧
    (∀ j, ¬ (dindx ≤ j ∧ j < dindx + dotnum) → sp.st.dindx j = s.dindx j) := by
  subst hsp
  simp only [serial_split]
  split
  · have h := regroup_spec
      (env.Zoltan_RB_find_median
        (serial_median_args env rcbbox weight dotnum num_parts dindx partlower level s)).dotmark
      s.dindx dindx tmpdindx dotnum s.tmpdindx
    simp only at h
    obtain ⟨h1, h2, h3, _, _, h6, h7⟩ := h
    refine ⟨?_, ?_, h6, h7⟩
    · simp only; omega
    · intro _; simp only; omega
  · exact ⟨Nat.zero_le _, fun h => by simp at h, List.Perm.refl _, fun _ _ => rfl⟩

/-! ### Frame of a run: dots and index array -/

theorem assign_parts_succ (dotpt : Nat → Dot_Struct) (dx : Nat → Nat) (dindx n : Nat)
    (pl : Int) :
    assign_parts dotpt dx dindx (n + 1) pl =
      Function.update (assign_parts dotpt dx dindx n pl) (dx (dindx + n))
        { assign_parts dotpt dx dindx n pl (dx (dindx + n)) with Part := pl } := by
  simp [assign_parts, List.range_succ, List.foldl_append]

theorem assign_parts_apply (dotpt : Nat → Dot_Struct) (dx : Nat → Nat) (dindx n : Nat)
    (pl : Int) (d : Nat) :
    assign_parts dotpt dx dindx n pl d =
      if d ∈ slice dx dindx n then { dotpt d with Part := pl } else dotpt d := by
  induction n with
  | zero => simp [assign_parts, slice]
  | succ n ih =>
    rw [assign_parts_succ, slice_succ]
    by_cases hd : d = dx (dindx + n)
    · subst hd
      rw [Function.update_same, ih]
      have : dx (dindx + n) ∈ slice dx dindx n ++ [dx (dindx + n)] := by simp
      rw [if_pos this]
      split <;> rfl
    · rw [Function.update_noteq hd, ih]
      have : d ∈ slice dx dindx n ++ [dx (dindx + n)] ↔ d ∈ slice dx dindx n := by
        simp [hd]
      simp only [this]

theorem mem_slice_widen {α : Type} (a : Nat → α) (off n o2 m : Nat) (x : α)
    (h1 : off ≤ o2) (h2 : o2 + m ≤ off + n) (hx : x ∈ slice a o2 m) : x ∈ slice a off n := by
  rw [mem_slice] at hx ⊢
  obtain ⟨i, hi, hxi⟩ := hx
  refine ⟨o2 - off + i, by omega, ?_⟩
  rw [← hxi]
  congr 1
  omega

theorem perm_slice_widen (a b : Nat → Nat) (off n o2 m : Nat)
    (h1 : off ≤ o2) (h2 : o2 + m ≤ off + n)
    (hperm : (slice b o2 m).Perm (slice a o2 m))
    (hfr : ∀ j, ¬ (o2 ≤ j ∧ j < o2 + m) → b j = a j) :
    (slice b off n).Perm (slice a off n) := by
  have e : n = (o2 - off) + (m + (off + n - (o2 + m))) := by omega
  have e2 : off + (o2 - off) = o2 := by omega
  rw [e, slice_append, slice_append, slice_append, slice_append, e2]
  have hA : slice b off (o2 - off) = slice a off (o2 - off) := by
    apply slice_congr
    intro i hi
    apply hfr
    omega
  have hC : slice b (o2 + m) (off + n - (o2 + m)) = slice a (o2 + m) (off + n - (o2 + m)) := by
    apply slice_congr
    intro i hi
    apply hfr
    omega
  rw [hA, hC]
  exact List.Perm.append_left _ (List.Perm.append_right _ hperm)

theorem FrameRel.refl (off n : Nat) (s : SerialState) : FrameRel off n s s :=
  ⟨fun _ => ⟨rfl, rfl, fun h => absurd rfl h⟩, List.Perm.refl _, fun _ _ => rfl⟩

theorem FrameRel.of_eq (off n : Nat) (s t : SerialState) (hd : t.dotpt = s.dotpt)
    (hperm : (slice t.dindx off n).Perm (slice s.dindx off n))
    (hfr : ∀ j, ¬ (off ≤ j ∧ j < off + n) → t.dindx j = s.dindx j) : FrameRel off n s t :=
  ⟨fun d => by rw [hd]; exact ⟨rfl, rfl, fun h => absurd rfl h⟩, hperm, hfr⟩

theorem FrameRel.trans {off n : Nat} {s t u : SerialState} (h1 : FrameRel off n s t)
    (h2 : FrameRel off n t u) : FrameRel off n s u := by
  obtain ⟨a1, p1, f1⟩ := h1
  obtain ⟨a2, p2, f2⟩ := h2
  refine ⟨fun d => ?_, p2.trans p1, fun j hj => (f2 j hj).trans (f1 j hj)⟩
  refine ⟨(a2 d).1.trans (a1 d).1, (a2 d).2.1.trans (a1 d).2.1, fun hne => ?_⟩
  by_cases hc : (t.dotpt d).Part = (s.dotpt d).Part
  · have : (u.dotpt d).Part ≠ (t.dotpt d).Part := by rw [hc]; exact hne
    exact (p1.mem_iff).mp ((a2 d).2.2 this)
  · exact (a1 d).2.2 hc

theorem FrameRel.widen {off n o2 m : Nat} {s t : SerialState} (h : FrameRel o2 m s t)
    (h1 : off ≤ o2) (h2 : o2 + m ≤ off + n) : FrameRel off n s t := by
  obtain ⟨a, p, f⟩ := h
  refine ⟨fun d => ⟨(a d).1, (a d).2.1, fun hne => ?_⟩, ?_, fun j hj => f j (by omega)⟩
  · exact mem_slice_widen _ _ _ _ _ _ h1 h2 ((a d).2.2 hne)
  · exact perm_slice_widen _ _ _ _ _ _ h1 h2 p f

/-- A run changes the dots and the index array only as `FrameRel` allows. -/
theorem run_frame (env : SerialEnv) {old_set root : Int} {rcbbox : rcb_box} {weight : ℚ}
    {dotnum : Nat} {num_parts : Int} {dindx tmpdindx : Nat} {partlower : Int} {level : Nat}
    {s : SerialState} {r : SerialResult}
    (h : Run env old_set root rcbbox weight dotnum num_parts dindx tmpdindx partlower level s r) :
    FrameRel dindx dotnum s r.st := by
  induction h with
  | leaf old_set root rcbbox weight dotnum dindx tmpdindx partlower level s =>
    refine ⟨fun d => ?_, List.Perm.refl _, fun _ _ => rfl⟩
    simp only [assign_parts_apply]
    by_cases hd : d ∈ slice s.dindx dindx dotnum
    · rw [if_pos hd]; exact ⟨rfl, rfl, fun _ => hd⟩
    · rw [if_neg hd]; exact ⟨rfl, rfl, fun hne => absurd rfl hne⟩
  | fail old_set root rcbbox weight dotnum num_parts dindx tmpdindx partlower level s sp hsp
      h1 hok =>
    have hd := serial_split_dindx env _ _ _ _ _ _ _ _ _ _ _ sp hsp
    exact FrameRel.of_eq _ _ _ _ (by rw [hsp, serial_split_dotpt]) hd.2.2.1 hd.2.2.2
  | abort old_set root rcbbox weight dotnum num_parts dindx tmpdindx partlower level s sp r0
      hsp h1 hok hc hrun hneg ih =>
    have hd := serial_split_dindx env _ _ _ _ _ _ _ _ _ _ _ sp hsp
    have hs : FrameRel dindx dotnum s sp.st :=
      FrameRel.of_eq _ _ _ _ (by rw [hsp, serial_split_dotpt]) hd.2.2.1 hd.2.2.2
    exact hs.trans (ih.widen (le_refl _) (by omega))
  | node old_set root rcbbox weight dotnum num_parts dindx tmpdindx partlower level s sp r0 r1
      hsp h1 hok hl hl0 hcont hh hh0 ihl ihh =>
    have hd := serial_split_dindx env _ _ _ _ _ _ _ _ _ _ _ sp hsp
    have hset := hd.2.1 hok
    have hs : FrameRel dindx dotnum s sp.st :=
      FrameRel.of_eq _ _ _ _ (by rw [hsp, serial_split_dotpt]) hd.2.2.1 hd.2.2.2
    have h0 : FrameRel dindx dotnum sp.st r0.st := by
      by_cases hc : sp.partmid - partlower > 0 ∧ sp.set1 ≠ 0
      · exact (ihl hc).widen (le_refl _) (by omega)
      · rw [hl0 hc]; exact FrameRel.refl _ _ _
    have h1 : FrameRel dindx dotnum r0.st r1.st := by
      by_cases hc : partlower + num_parts - sp.partmid > 0 ∧ sp.set0 ≠ dotnum
      · exact (ihh hc).widen (by omega) (by omega)
      · rw [hh0 hc]; exact FrameRel.refl _ _ _
    exact hs.trans (h0.trans h1)

/-! ### Termination -/

/-- With a divider that splits strictly inside, `serial_rcb` returns once the
fuel is at least the number of partitions. -/
theorem serial_rcb_total (env : SerialEnv) (hdiv : DividerOK env) (fuel : Nat) :
    ∀ (old_set root : Int) (rcbbox : rcb_box) (weight : ℚ) (dotnum : Nat) (num_parts : Int)
      (dindx tmpdindx : Nat) (partlower : Int) (level : Nat) (s : SerialState),
      1 ≤ num_parts → num_parts ≤ fuel →
      ∃ r, serial_rcb env fuel old_set root rcbbox weight dotnum num_parts dindx tmpdindx
        partlower level s = some r := by
  induction fuel with
  | zero => intro _ _ _ _ _ num_parts _ _ _ _ _ h1 h2; simp at h2; omega
  | succ fuel ih =>
    intro old_set root rcbbox weight dotnum num_parts dindx tmpdindx partlower level s hn hf
    rw [serial_rcb]
    by_cases h1 : num_parts = 1
    · rw [if_pos h1]; exact ⟨_, rfl⟩
    · rw [if_neg h1]
      simp only
      have hpm := serial_split_partmid env old_set root rcbbox weight dotnum num_parts dindx
        tmpdindx partlower level s
      have hd := hdiv num_parts partlower (by omega)
      rw [← hpm] at hd
      generalize serial_split env old_set root rcbbox weight dotnum num_parts dindx
        tmpdindx partlower level s = sp at hd
      have hf2 : num_parts ≤ (fuel : Int) + 1 := by exact_mod_cast hf
      by_cases hok : sp.ok = false
      · rw [if_pos hok]; exact ⟨_, rfl⟩
      · rw [if_neg hok]
        obtain ⟨rl, hrl⟩ := ih 0 sp.partmid (tmpbox_set0 rcbbox sp.dim sp.valuehalf)
          sp.weightlo sp.set0 (sp.partmid - partlower) dindx tmpdindx partlower sp.level sp.st
          (by omega) (by omega)
        have hhigh : ∀ st : SerialState, ∃ r1,
            serial_rcb env fuel 1 sp.partmid (tmpbox_set1 rcbbox sp.dim sp.valuehalf)
              sp.weighthi (dotnum - sp.set0) (partlower + num_parts - sp.partmid)
              (dindx + sp.set1) (tmpdindx + sp.set1) sp.partmid sp.level st = some r1 :=
          fun st => ih 1 sp.partmid _ _ _ _ _ _ _ _ st (by omega) (by omega)
        by_cases hc : sp.partmid - partlower > 0 ∧ sp.set1 ≠ 0
        · rw [if_pos hc, hrl]
          simp only
          by_cases hneg : (sp.partmid - partlower > 0 ∧ sp.set1 ≠ 0) ∧ rl.ierr < 0
          · rw [if_pos hneg]; exact ⟨_, rfl⟩
          · rw [if_neg hneg]
            by_cases hh : partlower + num_parts - sp.partmid > 0 ∧ sp.set0 ≠ dotnum
            · rw [if_pos hh]
              obtain ⟨r1, hr1⟩ := hhigh rl.st
              rw [hr1]; exact ⟨_, rfl⟩
            · rw [if_neg hh]; exact ⟨_, rfl⟩
        · rw [if_neg hc]
          simp only
          have hneg : ¬ ((sp.partmid - partlower > 0 ∧ sp.set1 ≠ 0) ∧ sp.ierr < 0) :=
            fun hn => hc hn.1
          rw [if_neg hneg]
          by_cases hh : partlower + num_parts - sp.partmid > 0 ∧ sp.set0 ≠ dotnum
          · rw [if_pos hh]
            obtain ⟨r1, hr1⟩ := hhigh sp.st
            rw [hr1]; exact ⟨_, rfl⟩
          · rw [if_neg hh]; exact ⟨_, rfl⟩

/-! ### Partition coverage -/

theorem serial_split_ok (env : SerialEnv) (old_set root : Int) (rcbbox : rcb_box)
    (weight : ℚ) (dotnum : Nat) (num_parts : Int) (dindx tmpdindx : Nat) (partlower : Int)
    (level : Nat) (s : SerialState) :
    (serial_split env old_set root rcbbox weight dotnum num_parts dindx tmpdindx partlower
      level s).ok =
    (env.Zoltan_RB_find_median
      (serial_median_args env rcbbox weight dotnum num_parts dindx partlower level s)).ok := by
  simp only [serial_split]
  split
  · rename_i h; rw [h]
  · rename_i h; simp only [Bool.not_eq_true] at h; rw [h]

/-- Coverage by a run whose median searches succeed and whose divider splits
strictly inside: the status is non-negative when there is a dot, every `Part`
is either untouched or in range, and every listed dot ends in range. -/
theorem run_cover (env : SerialEnv) (hmed : MedianOK env) (hdiv : DividerOK env)
    {old_set root : Int} {rcbbox : rcb_box} {weight : ℚ}
    {dotnum : Nat} {num_parts : Int} {dindx tmpdindx : Nat} {partlower : Int} {level : Nat}
    {s : SerialState} {r : SerialResult}
    (h : Run env old_set root rcbbox weight dotnum num_parts dindx tmpdindx partlower level s r)
    (hn : 1 ≤ num_parts) :
    (1 ≤ dotnum → 0 ≤ r.ierr) ∧
    (∀ d, (r.st.dotpt d).Part = (s.dotpt d).Part ∨
      in_parts partlower num_parts (r.st.dotpt d).Part) ∧
    (∀ d, d ∈ slice s.dindx dindx dotnum → in_parts partlower num_parts (r.st.dotpt d).Part) := by
  induction h with
  | leaf old_set root rcbbox weight dotnum dindx tmpdindx partlower level s =>
    refine ⟨fun _ => by simp [ZOLTAN_OK], fun d => ?_, fun d hd => ?_⟩
    · simp only [assign_parts_apply]
      by_cases hd : d ∈ slice s.dindx dindx dotnum
      · rw [if_pos hd]; right; simp [in_parts]
      · rw [if_neg hd]; left; rfl
    · simp only [assign_parts_apply]
      rw [if_pos hd]; simp [in_parts]
  | fail old_set root rcbbox weight dotnum num_parts dindx tmpdindx partlower level s sp hsp
      h1 hok =>
    rw [hsp, serial_split_ok, hmed _] at hok
    cases hok
  | abort old_set root rcbbox weight dotnum num_parts dindx tmpdindx partlower level s sp r0
      hsp h1 hok hc hrun hneg ih =>
    have hd := serial_split_dindx env _ _ _ _ _ _ _ _ _ _ _ sp hsp
    have hset := hd.2.1 hok
    have := (ih (by omega)).1 (by omega)
    omega
  | node old_set root rcbbox weight dotnum num_parts dindx tmpdindx partlower level s sp r0 r1
      hsp h1 hok hl hl0 hcont hh hh0 ihl ihh =>
    have hd := serial_split_dindx env _ _ _ _ _ _ _ _ _ _ _ sp hsp
    have hset := hd.2.1 hok
    have hle := hd.1
    have hpm : sp.partmid = (env.Zoltan_Divide_Parts num_parts partlower).partmid := by
      rw [hsp, serial_split_partmid]
    have hdv := hdiv num_parts partlower (by omega)
    rw [← hpm] at hdv
    have hdot : sp.st.dotpt = s.dotpt := by rw [hsp, serial_split_dotpt]
    -- the low branch
    have hlow : (1 ≤ sp.set0 → 0 ≤ r0.ierr) ∧
        (∀ d, (r0.st.dotpt d).Part = (s.dotpt d).Part ∨
          in_parts partlower (sp.partmid - partlower) (r0.st.dotpt d).Part) ∧
        (∀ d, d ∈ slice sp.st.dindx dindx sp.set0 →
          in_parts partlower (sp.partmid - partlower) (r0.st.dotpt d).Part) ∧
        (∀ j, ¬ (dindx ≤ j ∧ j < dindx + sp.set0) → r0.st.dindx j = sp.st.dindx j) := by
      by_cases hc : sp.partmid - partlower > 0 ∧ sp.set1 ≠ 0
      · have i := ihl hc (by omega)
        rw [hdot] at i
        exact ⟨i.1, i.2.1, i.2.2, (run_frame env (hl hc)).2.2⟩
      · have h0 : sp.set0 = 0 := by
          by_contra hne
          exact hc ⟨by omega, by omega⟩
        rw [hl0 hc, h0]
        refine ⟨fun h => by omega, fun d => Or.inl (by rw [hdot]), fun d hd => ?_, fun _ _ => rfl⟩
        simp [slice] at hd
    -- the high branch
    have hhigh : (1 ≤ dotnum - sp.set0 → 0 ≤ r1.ierr) ∧ (dotnum = sp.set0 → r1.ierr = r0.ierr) ∧
        (∀ d, (r1.st.dotpt d).Part = (r0.st.dotpt d).Part ∨
          in_parts sp.partmid (partlower + num_parts - sp.partmid) (r1.st.dotpt d).Part) ∧
        (∀ d, d ∈ slice r0.st.dindx (dindx + sp.set0) (dotnum - sp.set0) →
          in_parts sp.partmid (partlower + num_parts - sp.partmid) (r1.st.dotpt d).Part) := by
      by_cases hc : partlower + num_parts - sp.partmid > 0 ∧ sp.set0 ≠ dotnum
      · have i := ihh hc (by omega)
        rw [hset] at i
        exact ⟨i.1, fun h => absurd h.symm hc.2, i.2.1, i.2.2⟩
      · have h0 : sp.set0 = dotnum := by
          by_contra hne
          exact hc ⟨by omega, hne⟩
        rw [hh0 hc, h0]
        refine ⟨fun h => by omega, fun _ => rfl, fun d => Or.inl rfl, fun d hd => ?_⟩
        simp [slice] at hd
    obtain ⟨l1, l2, l3, l4⟩ := hlow
    obtain ⟨g1, g1b, g2, g3⟩ := hhigh
    have wlow : ∀ p, in_parts partlower (sp.partmid - partlower) p →
        in_parts partlower num_parts p := by
      intro p hp; unfold in_parts at hp ⊢; omega
    have whigh : ∀ p, in_parts sp.partmid (partlower + num_parts - sp.partmid) p →
        in_parts partlower num_parts p := by
      intro p hp; unfold in_parts at hp ⊢; omega
    refine ⟨fun hdn => ?_, fun d => ?_, fun d hdm => ?_⟩
    · show 0 ≤ r1.ierr
      by_cases hz : 1 ≤ dotnum - sp.set0
      · exact g1 hz
      · rw [g1b (by omega)]; exact l1 (by omega)
    · show (r1.st.dotpt d).Part = (s.dotpt d).Part ∨ in_parts partlower num_parts (r1.st.dotpt d).Part
      rcases g2 d with e | e
      · rw [e]
        rcases l2 d with e2 | e2
        · exact Or.inl e2
        · exact Or.inr (wlow _ e2)
      · exact Or.inr (whigh _ e)
    · show in_parts partlower num_parts (r1.st.dotpt d).Part
      have hm : d ∈ slice sp.st.dindx dindx dotnum := (hd.2.2.1.mem_iff).mpr hdm
      have e : dotnum = sp.set0 + (dotnum - sp.set0) := by omega
      rw [e, slice_append, List.mem_append] at hm
      rcases hm with hm | hm
      · rcases g2 d with e | e
        · rw [e]; exact wlow _ (l3 d hm)
        · exact whigh _ e
      · have : slice r0.st.dindx (dindx + sp.set0) (dotnum - sp.set0) =
            slice sp.st.dindx (dindx + sp.set0) (dotnum - sp.set0) := by
          apply slice_congr
          intro i hi
          apply l4
          omega
        rw [← this] at hm
        exact whigh _ (g3 d hm)

theorem exEnv_divider : DividerOK exEnv := by
  intro n l hn
  simp only [exEnv]
  omega

theorem exEnv_median : MedianOK exEnv := fun _ => rfl

/-- C1. Partition coverage in the serial phase.  If every median search
succeeds and the divider always returns `partlower < partmid < partlower +
num_parts`, then every call of `serial_rcb` with `num_parts ≥ 1` returns (fuel
`num_parts` suffices) and on return every dot indexed by `dindx[0..dotnum)`,
in the array as it was on entry and as it is on return, has `Part` in
`[partlower, partlower + num_parts - 1]`. -/
theorem serial_rcb_coverage (env : SerialEnv) (hmed : MedianOK env) (hdiv : DividerOK env)
    (fuel : Nat) (old_set root : Int) (rcbbox : rcb_box) (weight : ℚ) (dotnum : Nat)
    (num_parts : Int) (dindx tmpdindx : Nat) (partlower : Int) (level : Nat) (s : SerialState)
    (hn : 1 ≤ num_parts) (hfuel : num_parts ≤ fuel) :
    ∃ r, serial_rcb env fuel old_set root rcbbox weight dotnum num_parts dindx tmpdindx
        partlower level s = some r ∧
      (∀ i, i < dotnum →
        in_parts partlower num_parts (r.st.dotpt (s.dindx (dindx + i))).Part) ∧
      (∀ i, i < dotnum →
        in_parts partlower num_parts (r.st.dotpt (r.st.dindx (dindx + i))).Part) := by
  obtain ⟨r, hr⟩ := serial_rcb_total env hdiv fuel old_set root rcbbox weight dotnum num_parts
    dindx tmpdindx partlower level s hn hfuel
  have hrun := serial_rcb_run env fuel _ _ _ _ _ _ _ _ _ _ _ _ hr
  have hcov := (run_cover env hmed hdiv hrun hn).2.2
  have hfr := run_frame env hrun
  refine ⟨r, hr, fun i hi => ?_, fun i hi => ?_⟩
  · exact hcov _ ((mem_slice _ _ _ _).mpr ⟨i, hi, rfl⟩)
  · apply hcov
    exact (hfr.2.1.mem_iff).mp ((mem_slice _ _ _ _).mpr ⟨i, hi, rfl⟩)

/-- Three dots, three partitions: dots 0, 1, 2 end in partitions 0, 1, 2. -/
theorem serial_rcb_coverage_witness :
    MedianOK exEnv ∧ DividerOK exEnv ∧ (1 : Int) ≤ 3 ∧ (3 : Int) ≤ (3 : Nat) ∧
    (∃ r, serial_rcb exEnv 3 1 0 exBox133 3 3 3 0 3 0 0 exState = some r ∧
      (∀ i, i < 3 → in_parts 0 3 (r.st.dotpt (exState.dindx (0 + i))).Part) ∧
      (∀ i, i < 3 → in_parts 0 3 (r.st.dotpt (r.st.dindx (0 + i))).Part)) ∧
    (serial_rcb exEnv 3 1 0 exBox133 3 3 3 0 3 0 0 exState).map
      (fun r => ((r.st.dotpt 0).Part, (r.st.dotpt 1).Part, (r.st.dotpt 2).Part)) =
      some (0, 1, 2) :=
  ⟨exEnv_median, exEnv_divider, by decide, by decide,
   serial_rcb_coverage exEnv exEnv_median exEnv_divider 3 1 0 exBox133 3 3 3 0 3 0 0 exState
     (by decide) (by decide),
   by decide⟩

/-! ### Weight conservation -/

theorem weight_sum_congr (a b : Nat → Dot_Struct) (h : ∀ d, (b d).Weight = (a d).Weight)
    (ndots j : Nat) : weight_sum b ndots j = weight_sum a ndots j := by
  unfold weight_sum
  congr 1
  apply List.map_congr_left
  intro d _
  rw [h d]

/-- C4. Weight conservation in the serial phase.  Whatever the collaborators
do, a call of `serial_rcb` that returns has changed no coordinate and no
weight of any dot, and has changed `Part` only for dots listed in
`dindx[0..dotnum)`; so every per-dimension sum of dot weights is the same
before and after.  (With a divider that splits strictly inside, the call
returns once the fuel reaches `num_parts`.) -/
theorem serial_rcb_conserves_weight (env : SerialEnv) (fuel : Nat) (old_set root : Int)
    (rcbbox : rcb_box) (weight : ℚ) (dotnum : Nat) (num_parts : Int) (dindx tmpdindx : Nat)
    (partlower : Int) (level : Nat) (s : SerialState) :
    (∀ r, serial_rcb env fuel old_set root rcbbox weight dotnum num_parts dindx tmpdindx
        partlower level s = some r →
      (∀ d, (r.st.dotpt d).X = (s.dotpt d).X ∧ (r.st.dotpt d).Weight = (s.dotpt d).Weight ∧
        ((r.st.dotpt d).Part ≠ (s.dotpt d).Part → ∃ i, i < dotnum ∧ s.dindx (dindx + i) = d)) ∧
      (∀ ndots j, weight_sum r.st.dotpt ndots j = weight_sum s.dotpt ndots j)) ∧
    (DividerOK env → 1 ≤ num_parts → num_parts ≤ fuel →
      ∃ r, serial_rcb env fuel old_set root rcbbox weight dotnum num_parts dindx tmpdindx
        partlower level s = some r) := by
  refine ⟨fun r hr => ?_, fun hdiv hn hf => serial_rcb_total env hdiv fuel _ _ _ _ _ _ _ _ _ _ _ hn hf⟩
  have hfr := run_frame env (serial_rcb_run env fuel _ _ _ _ _ _ _ _ _ _ _ _ hr)
  refine ⟨fun d => ⟨(hfr.1 d).1, (hfr.1 d).2.1, fun hne => ?_⟩, fun ndots j => ?_⟩
  · exact (mem_slice _ _ _ _).mp ((hfr.1 d).2.2 hne)
  · exact weight_sum_congr _ _ (fun d => (hfr.1 d).2.1) ndots j

/-- Three unit-weight dots, three partitions: the weights still sum to 3. -/
theorem serial_rcb_conserves_weight_witness :
    (∃ r, serial_rcb exEnv 3 1 0 exBox133 3 3 3 0 3 0 0 exState = some r ∧
      weight_sum r.st.dotpt 3 0 = weight_sum exState.dotpt 3 0) ∧
    weight_sum exState.dotpt 3 0 = 3 := by
  obtain ⟨r, hr⟩ := (serial_rcb_conserves_weight exEnv 3 1 0 exBox133 3 3 3 0 3 0 0 exState).2
    exEnv_divider (by decide) (by decide)
  exact ⟨⟨r, hr, ((serial_rcb_conserves_weight exEnv 3 1 0 exBox133 3 3 3 0 3 0 0 exState).1
    r hr).2 3 0⟩, by simp [weight_sum, exState, List.range_succ]; norm_num⟩

/-! ### Signed parent reference -/

theorem record_cut_same (treept : Int → rcb_tree) (partmid dim : Int) (valuehalf : ℚ)
    (old_set root partlower : Int) :
    record_cut treept partmid dim valuehalf old_set root partlower partmid =
      { dim := dim, cut := valuehalf,
        parent := if old_set ≠ 0 then -(root + 1) else root + 1,
        left_leaf := -partlower, right_leaf := -partmid } := by
  simp [record_cut]

theorem record_cut_other (treept : Int → rcb_tree) (partmid dim : Int) (valuehalf : ℚ)
    (old_set root partlower p : Int) (hp : p ≠ partmid) :
    record_cut treept partmid dim valuehalf old_set root partlower p = treept p := by
  simp [record_cut, hp]

theorem parallel_record_same (treept : Int → rcb_tree) (partmid fp dim : Int) (valuehalf : ℚ)
    (old_set root partlower : Int) (h : partmid > 0 ∧ partmid = fp) :
    parallel_record treept partmid fp dim valuehalf old_set root partlower partmid =
      { dim := dim, cut := valuehalf,
        parent := if old_set ≠ 0 then -(root + 1) else root + 1,
        left_leaf := -partlower, right_leaf := -partmid } := by
  obtain ⟨h1, h2⟩ := h
  subst h2
  unfold parallel_record
  rw [if_pos ⟨h1, rfl⟩]
  simp

/-- C10 as stated fails: in the run of `exEnv` on three dots and three
partitions the node at partition 1 is recorded by the call for set 0 (the low
side) of the cut at partition 2, and its parent reference is `+3`, not
negative; the node at partition 2, recorded with `old_set = 1`, has parent
reference `-1`, not positive. -/
theorem parent_reference_sign_counterexample :
    (serial_rcb exEnv 3 1 0 exBox133 3 3 3 0 3 0 0 exState).map
      (fun r => ((r.st.treept 2).parent, (r.st.treept 1).parent)) = some (-1, 3) ∧
    ¬ ((record_cut exTree 1 0 0 0 2 0 1).parent < 0) ∧
    ¬ ((record_cut exTree 2 0 0 1 0 0 2).parent > 0) := by
  refine ⟨by decide, by decide, by decide⟩

/-- C10, amended.  Whenever a cut-tree node is recorded, by `serial_rcb` (after
a successful median search) or by the parallel step (under its guard `partmid >
0 && partmid == fp`), with `root ≥ 0`: its parent reference is `root + 1`,
positive, if the group being split is the low-side child (`old_set = 0`) of the
previous cut, and `-(root + 1)`, negative, if it is the high-side child
(`old_set ≠ 0`). -/
theorem parent_reference_sign (env : SerialEnv) (old_set root : Int) (rcbbox : rcb_box)
    (weight : ℚ) (dotnum : Nat) (num_parts : Int) (dindx tmpdindx : Nat) (partlower : Int)
    (level : Nat) (s : SerialState) (treept : Int → rcb_tree) (partmid fp dim : Int)
    (valuehalf : ℚ) (hroot : 0 ≤ root) :
    ((serial_split env old_set root rcbbox weight dotnum num_parts dindx tmpdindx partlower
        level s).ok = true →
      (old_set = 0 →
        ((serial_split env old_set root rcbbox weight dotnum num_parts dindx tmpdindx
          partlower level s).st.treept
          (serial_split env old_set root rcbbox weight dotnum num_parts dindx tmpdindx
            partlower level s).partmid).parent = root + 1) ∧
      (old_set ≠ 0 →
        ((serial_split env old_set root rcbbox weight dotnum num_parts dindx tmpdindx
          partlower level s).st.treept
          (serial_split env old_set root rcbbox weight dotnum num_parts dindx tmpdindx
            partlower level s).partmid).parent = -(root + 1))) ∧
    (partmid > 0 ∧ partmid = fp →
      (old_set = 0 →
        (parallel_record treept partmid fp dim valuehalf old_set root partlower
          partmid).parent = root + 1) ∧
      (old_set ≠ 0 →
        (parallel_record treept partmid fp dim valuehalf old_set root partlower
          partmid).parent = -(root + 1))) ∧
    0 < root + 1 ∧ -(root + 1) < 0 := by
  refine ⟨fun hok => ?_, fun hg => ?_, by omega, by omega⟩
  · rw [serial_split_treept env old_set root rcbbox weight dotnum num_parts dindx tmpdindx
      partlower level s _ rfl, if_pos hok, record_cut_same]
    exact ⟨fun h => by simp [h], fun h => by simp [h]⟩
  · rw [parallel_record_same _ _ _ _ _ _ _ _ hg]
    exact ⟨fun h => by simp [h], fun h => by simp [h]⟩

/-- The first cut of `exEnv` on `exState`: recorded with `old_set = 1` and
`root = 0`, parent reference `-1`. -/
theorem parent_reference_sign_witness :
    (0 : Int) ≤ 0 ∧
    (serial_split exEnv 1 0 exBox133 3 3 3 0 3 0 0 exState).ok = true ∧
    ((serial_split exEnv 1 0 exBox133 3 3 3 0 3 0 0 exState).st.treept
      (serial_split exEnv 1 0 exBox133 3 3 3 0 3 0 0 exState).partmid).parent = -(0 + 1) :=
  ⟨by decide, rfl,
   ((parent_reference_sign exEnv 1 0 exBox133 3 3 3 0 3 0 0 exState exTree 1 1 0 0
      (by decide)).1 rfl).2 (by decide)⟩

/-! ### Preset direction sequence -/

/-- C8 at a failing input.  Preset code 1 (documented order x, y, z), two
partitions, the box `[0,1] x [0,1] x [0,4]`: the counting loop gives zero cuts
to x and y and one cut to z, yet the sequence written is `[0]` (a cut of x),
not `[2]`; the last `else` of the `j == 2` block assigns `dim = 0`. -/
theorem set_preset_dir_order_xyz_failure :
    (preset_count_loop 2 (preset_count_init 2 exBox114)).map
      (fun c => (c.level, c.ix 0, c.ix 1, c.ix 2)) = some (1, 0, 0, 1) ∧
    (set_preset_dir 2 1 exBox114 none (some (fun _ => -1))).map
      (fun r => (r.ierr, r.level, r.dim_spec.map (fun a => slice a 0 r.level))) =
      some (0, 1, some [0]) := by
  constructor
  · norm_num [preset_count_loop, preset_count_init, preset_count_step, exBox114]
  · norm_num [set_preset_dir, preset_count_loop, preset_count_init, preset_count_step,
      exBox114, slice, ZOLTAN_OK, List.range_succ]
    norm_num [preset_fill_step, Function.update]

theorem preset_count_step_tmp (c : PresetCount) :
    (preset_count_step c).tmp_nparts = (c.tmp_nparts + 1) / 2 := by
  unfold preset_count_step
  split
  · rfl
  · split <;> rfl

theorem preset_count_step_level (c : PresetCount) :
    (preset_count_step c).level = c.level + 1 := by
  unfold preset_count_step
  split
  · rfl
  · split <;> rfl

/-- The counting loop stops, and the number of levels it adds is the least
`L` with `tmp_nparts ≤ 2 ^ L`. -/
theorem preset_count_loop_spec (fuel : Nat) :
    ∀ c : PresetCount, c.tmp_nparts ≤ fuel →
      ∃ c2, preset_count_loop fuel c = some c2 ∧ (c.tmp_nparts ≤ 1 → c2 = c) ∧
        c.level ≤ c2.level ∧
        (1 ≤ c.tmp_nparts →
          c.tmp_nparts ≤ 2 ^ (c2.level - c.level) ∧
          ∀ L : Nat, c.tmp_nparts ≤ 2 ^ L → c2.level - c.level ≤ L) := by
  induction fuel with
  | zero =>
    intro c hc
    have h : ¬ c.tmp_nparts > 1 := by
      have : c.tmp_nparts ≤ 0 := by exact_mod_cast hc
      omega
    refine ⟨c, by simp [preset_count_loop, h], fun _ => rfl, le_refl _, fun h1 => ?_⟩
    have : c.tmp_nparts ≤ 0 := by exact_mod_cast hc
    omega
  | succ fuel ih =>
    intro c hc
    have hc2 : c.tmp_nparts ≤ (fuel : Int) + 1 := by exact_mod_cast hc
    by_cases h : c.tmp_nparts > 1
    · have hstep : (preset_count_step c).tmp_nparts ≤ fuel := by
        rw [preset_count_step_tmp]; omega
      obtain ⟨c2, h1, _, h3, h4⟩ := ih (preset_count_step c) hstep
      rw [preset_count_step_tmp, preset_count_step_level] at *
      refine ⟨c2, by simp [preset_count_loop, h, h1], fun h0 => by omega, by omega, fun _ => ?_⟩
      obtain ⟨h5, h6⟩ := h4 (by omega)
      have e : c2.level - c.level = (c2.level - (c.level + 1)) + 1 := by omega
      rw [e]
      generalize c2.level - (c.level + 1) = d at h5 h6 ⊢
      refine ⟨?_, fun L hL => ?_⟩
      · rw [pow_succ]
        generalize (2 : Int) ^ d = P at h5 ⊢
        omega
      · cases L with
        | zero => simp at hL; omega
        | succ L0 =>
          have := h6 L0 (by
            rw [pow_succ] at hL
            generalize (2 : Int) ^ L0 = P at hL ⊢
            omega)
          omega
    · refine ⟨c, by simp [preset_count_loop, h], fun _ => rfl, le_refl _, fun h1 => ?_⟩
      have e : c.tmp_nparts = 1 := by omega
      rw [e]
      refine ⟨by simp, fun L _ => by omega⟩

theorem preset_fill_step_untouched (preset_dir : Int) (f : PresetFill) (i k : Nat)
    (h : k ≠ i) : (preset_fill_step preset_dir f i).dim_spec k = f.dim_spec k := by
  simp [preset_fill_step, Function.update, h]

theorem preset_fill_untouched (preset_dir : Int) (n : Nat) :
    ∀ (f : PresetFill) (k : Nat), n ≤ k →
      ((List.range n).foldl (preset_fill_step preset_dir) f).dim_spec k = f.dim_spec k := by
  induction n with
  | zero => intro f k _; rfl
  | succ n ih =>
    intro f k hk
    rw [List.range_succ, List.foldl_append]
    simp only [List.foldl_cons, List.foldl_nil]
    rw [preset_fill_step_untouched _ _ _ _ (by omega), ih f k (by omega)]

/-- C9. Preset sequence length.  When its allocation succeeds `set_preset_dir`
returns; for `nparts ≥ 1` the number `level` of entries it allocates and
writes is the least `L` with `2 ^ L ≥ nparts`, and the block is untouched from
index `level` on; for `nparts ≤ 1` it allocates nothing and leaves `*dim_spec`
as it was. -/
theorem set_preset_dir_length (nparts preset_dir : Int) (rcbbox : rcb_box)
    (dim_spec_in : Option (Nat → Int)) (block : Nat → Int) :
    ∃ r, set_preset_dir nparts preset_dir rcbbox dim_spec_in (some block) = some r ∧
      (1 ≤ nparts → nparts ≤ 2 ^ r.level ∧ ∀ L : Nat, nparts ≤ 2 ^ L → r.level ≤ L) ∧
      (nparts ≤ 1 → r.level = 0 ∧ r.dim_spec = dim_spec_in) ∧
      (1 < nparts → ∃ a, r.dim_spec = some a ∧ ∀ k, r.level ≤ k → a k = block k) := by
  have hfuel : (preset_count_init nparts rcbbox).tmp_nparts ≤ (nparts.toNat : Int) := by
    simp only [preset_count_init]
    omega
  obtain ⟨c, h1, h2, h3, h4⟩ := preset_count_loop_spec nparts.toNat _ hfuel
  have hl0 : (preset_count_init nparts rcbbox).level = 0 := rfl
  have ht0 : (preset_count_init nparts rcbbox).tmp_nparts = nparts := rfl
  rw [hl0, ht0] at h4
  rw [ht0] at h2
  simp only [Nat.sub_zero] at h4
  unfold set_preset_dir
  simp only [h1]
  by_cases hlev : c.level > 0
  · rw [if_pos hlev]
    refine ⟨_, rfl, fun hn => h4 hn, fun hn => ?_, fun _ => ⟨_, rfl, fun k hk => ?_⟩⟩
    · have := h2 hn
      rw [this, hl0] at hlev
      omega
    · exact preset_fill_untouched _ _ _ _ hk
  · rw [if_neg hlev]
    have hz : c.level = 0 := by omega
    refine ⟨_, rfl, fun hn => by simpa [hz] using h4 hn, fun _ => ⟨rfl, rfl⟩, fun hn => ?_⟩
    have := (h4 (by omega)).1
    rw [hz] at this
    simp at this
    omega

/-! ### Parent references of the recorded nodes -/

theorem parent_ref_cases (old_set root : Int) :
    parent_ref old_set root = root + 1 ∨ parent_ref old_set root = -(root + 1) := by
  unfold parent_ref
  split
  · exact Or.inr rfl
  · exact Or.inl rfl

theorem record_cut_parent (treept : Int → rcb_tree) (partmid dim : Int) (valuehalf : ℚ)
    (old_set root partlower : Int) :
    (record_cut treept partmid dim valuehalf old_set root partlower partmid).parent =
      parent_ref old_set root := by
  rw [record_cut_same]; rfl

theorem TreeLocal.of_zero (t : Int → rcb_tree) (l n ref : Int)
    (h : ∀ i, l < i → i < l + n → (t i).parent = 0) : TreeLocal t l n ref :=
  ⟨fun i h1 h2 => Or.inl (h i h1 h2), fun i _ h1 h2 _ _ _ hne => absurd (h i h1 h2) hne⟩

theorem TreeLocal.congr {t u : Int → rcb_tree} {l n ref : Int} (h : TreeLocal t l n ref)
    (he : ∀ i, l < i → i < l + n → u i = t i) : TreeLocal u l n ref := by
  refine ⟨fun i h1 h2 => ?_, fun i j h1 h2 h3 h4 => ?_⟩
  · rw [he i h1 h2]; exact h.1 i h1 h2
  · rw [he i h1 h2, he j h3 h4]; exact h.2 i j h1 h2 h3 h4

/-- Gluing: the top node `m` of a range, with the shapes of the two sub-ranges
below it. -/
theorem TreeLocal.combine (t : Int → rcb_tree) (l n m ref root : Int) (hl : 0 ≤ l)
    (hroot : 0 ≤ root) (hout : ¬ (l < root ∧ root < l + n)) (hm1 : l < m) (hm2 : m < l + n)
    (href : ref = root + 1 ∨ ref = -(root + 1)) (htop : (t m).parent = ref)
    (hlow : TreeLocal t l (m - l) (m + 1)) (hhigh : TreeLocal t m (l + n - m) (-(m + 1))) :
    TreeLocal t l n ref := by
  have lowshape : ∀ i, l < i → i < m → (t i).parent = 0 ∨ (t i).parent = m + 1 ∨
      ∃ q, l < q ∧ q < m ∧ ((t i).parent = q + 1 ∨ (t i).parent = -(q + 1)) := by
    intro i h1 h2
    rcases hlow.1 i h1 (by omega) with h | h | ⟨q, q1, q2, h⟩
    · exact Or.inl h
    · exact Or.inr (Or.inl h)
    · exact Or.inr (Or.inr ⟨q, q1, by omega, h⟩)
  have highshape : ∀ i, m < i → i < l + n → (t i).parent = 0 ∨ (t i).parent = -(m + 1) ∨
      ∃ q, m < q ∧ q < l + n ∧ ((t i).parent = q + 1 ∨ (t i).parent = -(q + 1)) := by
    intro i h1 h2
    rcases hhigh.1 i h1 (by omega) with h | h | ⟨q, q1, q2, h⟩
    · exact Or.inl h
    · exact Or.inr (Or.inl h)
    · exact Or.inr (Or.inr ⟨q, q1, by omega, h⟩)
  constructor
  · intro i h1 h2
    rcases lt_trichotomy i m with hi | hi | hi
    · rcases lowshape i h1 hi with h | h | ⟨q, q1, q2, h⟩
      · exact Or.inl h
      · exact Or.inr (Or.inr ⟨m, hm1, hm2, Or.inl h⟩)
      · exact Or.inr (Or.inr ⟨q, q1, by omega, h⟩)
    · subst hi; exact Or.inr (Or.inl htop)
    · rcases highshape i hi h2 with h | h | ⟨q, q1, q2, h⟩
      · exact Or.inl h
      · exact Or.inr (Or.inr ⟨m, hm1, hm2, Or.inr h⟩)
      · exact Or.inr (Or.inr ⟨q, by omega, q2, h⟩)
  · intro i j h1 h2 h3 h4 heq hne
    rcases lt_trichotomy i m with hi | hi | hi <;> rcases lt_trichotomy j m with hj | hj | hj
    · exact hlow.2 i j h1 (by omega) h3 (by omega) heq hne
    · subst hj
      rw [htop] at heq
      rcases lowshape i h1 hi with h | h | ⟨q, q1, q2, h⟩
      · exact absurd h hne
      · rcases href with e | e <;> omega
      · rcases href with e | e <;> rcases h with h | h <;> omega
    · rcases lowshape i h1 hi with h | h | ⟨q, q1, q2, h⟩
      · exact absurd h hne
      · rcases highshape j hj h4 with g | g | ⟨p, p1, p2, g⟩
        · omega
        · omega
        · rcases g with g | g <;> omega
      · rcases highshape j hj h4 with g | g | ⟨p, p1, p2, g⟩
        · omega
        · rcases h with h | h <;> omega
        · rcases h with h | h <;> rcases g with g | g <;> omega
    · subst hi
      rw [htop] at heq
      rcases lowshape j h3 hj with h | h | ⟨q, q1, q2, h⟩
      · rw [htop] at hne; omega
      · rcases href with e | e <;> omega
      · rcases href with e | e <;> rcases h with h | h <;> omega
    · omega
    · subst hi
      rw [htop] at heq
      rcases highshape j hj h4 with h | h | ⟨q, q1, q2, h⟩
      · rw [htop] at hne; omega
      · rcases href with e | e <;> omega
      · rcases href with e | e <;> rcases h with h | h <;> omega
    · rcases lowshape j h3 hj with h | h | ⟨q, q1, q2, h⟩
      · omega
      · rcases highshape i hi h2 with g | g | ⟨p, p1, p2, g⟩
        · exact absurd g hne
        · omega
        · rcases g with g | g <;> omega
      · rcases highshape i hi h2 with g | g | ⟨p, p1, p2, g⟩
        · exact absurd g hne
        · rcases h with h | h <;> omega
        · rcases h with h | h <;> rcases g with g | g <;> omega
    · subst hj
      rw [htop] at heq
      rcases highshape i hi h2 with h | h | ⟨q, q1, q2, h⟩
      · exact absurd h hne
      · rcases href with e | e <;> omega
      · rcases href with e | e <;> rcases h with h | h <;> omega
    · exact hhigh.2 i j hi (by omega) hj (by omega) heq hne

theorem parent_ref_zero (root : Int) : parent_ref 0 root = root + 1 := by
  simp [parent_ref]

theorem parent_ref_one (root : Int) : parent_ref 1 root = -(root + 1) := by
  simp [parent_ref]

/-- What a run does to the tree: it writes only nodes strictly inside its
range of partitions, and on a range whose parent references were 0 on entry
the references it leaves have the shape `TreeLocal`. -/
theorem run_tree (env : SerialEnv) (hdiv : DividerOK env)
    {old_set root : Int} {rcbbox : rcb_box} {weight : ℚ}
    {dotnum : Nat} {num_parts : Int} {dindx tmpdindx : Nat} {partlower : Int} {level : Nat}
    {s : SerialState} {r : SerialResult}
    (h : Run env old_set root rcbbox weight dotnum num_parts dindx tmpdindx partlower level s r)
    (hn : 1 ≤ num_parts) :
    (∀ p, ¬ (partlower < p ∧ p < partlower + num_parts) → r.st.treept p = s.treept p) ∧
    (0 ≤ partlower → 0 ≤ root → ¬ (partlower < root ∧ root < partlower + num_parts) →
      (∀ i, partlower < i → i < partlower + num_parts → (s.treept i).parent = 0) →
      TreeLocal r.st.treept partlower num_parts (parent_ref old_set root)) := by
  induction h with
  | leaf old_set root rcbbox weight dotnum dindx tmpdindx partlower level s =>
    exact ⟨fun _ _ => rfl, fun _ _ _ hz => TreeLocal.of_zero _ _ _ _ hz⟩
  | fail old_set root rcbbox weight dotnum num_parts dindx tmpdindx partlower level s sp hsp
      h1 hok =>
    have ht := serial_split_treept env _ _ _ _ _ _ _ _ _ _ _ sp hsp
    rw [hok] at ht
    simp only [Bool.false_eq_true, if_false] at ht
    refine ⟨fun _ _ => by rw [ht], fun _ _ _ hz => TreeLocal.of_zero _ _ _ _ ?_⟩
    intro i h1 h2
    show (sp.st.treept i).parent = 0
    rw [ht]; exact hz i h1 h2
  | abort old_set root rcbbox weight dotnum num_parts dindx tmpdindx partlower level s sp r0
      hsp h1 hok hc hrun hneg ih =>
    have ht := serial_split_treept env _ _ _ _ _ _ _ _ _ _ _ sp hsp
    rw [if_pos hok] at ht
    have hpm : sp.partmid = (env.Zoltan_Divide_Parts num_parts partlower).partmid := by
      rw [hsp, serial_split_partmid]
    have hdv := hdiv num_parts partlower (by omega)
    rw [← hpm] at hdv
    obtain ⟨f0, l0⟩ := ih (by omega)
    have frame : ∀ p, ¬ (partlower < p ∧ p < partlower + num_parts) →
        r0.st.treept p = s.treept p := by
      intro p hp
      rw [f0 p (by omega), ht, record_cut_other _ _ _ _ _ _ _ _ (by omega)]
    refine ⟨frame, fun hl hroot hout hz => ?_⟩
    show TreeLocal r0.st.treept partlower num_parts (parent_ref old_set root)
    apply TreeLocal.combine _ _ _ sp.partmid _ root hl hroot hout hdv.1 hdv.2
      (parent_ref_cases _ _)
    · rw [f0 _ (by omega), ht, record_cut_parent]
    · rw [← parent_ref_zero]
      apply l0 hl (by omega) (by omega)
      intro i h1 h2
      rw [ht, record_cut_other _ _ _ _ _ _ _ _ (by omega)]
      exact hz i h1 (by omega)
    · apply TreeLocal.of_zero
      intro i h1 h2
      rw [f0 i (by omega), ht, record_cut_other _ _ _ _ _ _ _ _ (by omega)]
      exact hz i (by omega) (by omega)
  | node old_set root rcbbox weight dotnum num_parts dindx tmpdindx partlower level s sp r0 r1
      hsp h1 hok hl hl0 hcont hh hh0 ihl ihh =>
    have ht := serial_split_treept env _ _ _ _ _ _ _ _ _ _ _ sp hsp
    rw [if_pos hok] at ht
    have hpm : sp.partmid = (env.Zoltan_Divide_Parts num_parts partlower).partmid := by
      rw [hsp, serial_split_partmid]
    have hdv := hdiv num_parts partlower (by omega)
    rw [← hpm] at hdv
    -- the low branch
    have low : (∀ p, ¬ (partlower < p ∧ p < sp.partmid) → r0.st.treept p = sp.st.treept p) ∧
        (0 ≤ partlower →
          (∀ i, partlower < i → i < sp.partmid → (sp.st.treept i).parent = 0) →
          TreeLocal r0.st.treept partlower (sp.partmid - partlower) (sp.partmid + 1)) := by
      by_cases hc : sp.partmid - partlower > 0 ∧ sp.set1 ≠ 0
      · obtain ⟨f, l⟩ := ihl hc (by omega)
        refine ⟨fun p hp => f p (by omega), fun hl hz => ?_⟩
        rw [← parent_ref_zero]
        exact l hl (by omega) (by omega) (fun i h1 h2 => hz i h1 (by omega))
      · rw [hl0 hc]
        exact ⟨fun _ _ => rfl, fun _ hz =>
          TreeLocal.of_zero _ _ _ _ (fun i h1 h2 => hz i h1 (by omega))⟩
    -- the high branch
    have high : (∀ p, ¬ (sp.partmid < p ∧ p < partlower + num_parts) →
          r1.st.treept p = r0.st.treept p) ∧
        (0 ≤ partlower →
          (∀ i, sp.partmid < i → i < partlower + num_parts → (r0.st.treept i).parent = 0) →
          TreeLocal r1.st.treept sp.partmid (partlower + num_parts - sp.partmid)
            (-(sp.partmid + 1))) := by
      by_cases hc : partlower + num_parts - sp.partmid > 0 ∧ sp.set0 ≠ dotnum
      · obtain ⟨f, l⟩ := ihh hc (by omega)
        refine ⟨fun p hp => f p (by omega), fun hl hz => ?_⟩
        rw [← parent_ref_one]
        exact l (by omega) (by omega) (by omega) (fun i h1 h2 => hz i h1 (by omega))
      · rw [hh0 hc]
        exact ⟨fun _ _ => rfl, fun _ hz =>
          TreeLocal.of_zero _ _ _ _ (fun i h1 h2 => hz i h1 (by omega))⟩
    obtain ⟨f0, l0⟩ := low
    obtain ⟨f1, l1⟩ := high
    have frame : ∀ p, ¬ (partlower < p ∧ p < partlower + num_parts) →
        r1.st.treept p = s.treept p := by
      intro p hp
      rw [f1 p (by omega), f0 p (by omega), ht, record_cut_other _ _ _ _ _ _ _ _ (by omega)]
    refine ⟨frame, fun hl hroot hout hz => ?_⟩
    show TreeLocal r1.st.treept partlower num_parts (parent_ref old_set root)
    apply TreeLocal.combine _ _ _ sp.partmid _ root hl hroot hout hdv.1 hdv.2
      (parent_ref_cases _ _)
    · rw [f1 _ (by omega), f0 _ (by omega), ht, record_cut_parent]
    · refine (l0 hl ?_).congr (fun i h1 h2 => f1 i (by omega))
      intro i h1 h2
      rw [ht, record_cut_other _ _ _ _ _ _ _ _ (by omega)]
      exact hz i h1 (by omega)
    · apply l1 hl
      intro i h1 h2
      rw [f0 i (by omega), ht, record_cut_other _ _ _ _ _ _ _ _ (by omega)]
      exact hz i (by omega) h2

/-! ### The assembly pass -/

theorem assemble_steps_succ (t : Int → rcb_tree) (k : Nat) :
    assemble_steps t (k + 1) = assemble_step (assemble_steps t k) ((k : Int) + 1) := by
  simp [assemble_steps, List.range_succ, List.foldl_append]

theorem assemble_step_parent (a : Int → rcb_tree) (i p : Int) :
    (assemble_step a i p).parent = (a p).parent := by
  unfold assemble_step
  split
  · by_cases h : p = (a i).parent - 1
    · subst h; rw [Function.update_same]
    · rw [Function.update_noteq h]
  · split
    · by_cases h : p = -(a i).parent - 1
      · subst h; rw [Function.update_same]
      · rw [Function.update_noteq h]
    · rfl

theorem assemble_step_left (a : Int → rcb_tree) (i q : Int) :
    (assemble_step a i q).left_leaf =
      if (a i).parent > 0 ∧ (a i).parent - 1 = q then i else (a q).left_leaf := by
  by_cases h1 : (a i).parent > 0
  · have e : assemble_step a i =
        Function.update a ((a i).parent - 1) { a ((a i).parent - 1) with left_leaf := i } := by
      unfold assemble_step; rw [if_pos h1]
    rw [e]
    by_cases h : q = (a i).parent - 1
    · subst h; rw [Function.update_same, if_pos ⟨h1, rfl⟩]
    · rw [Function.update_noteq h, if_neg (fun hc => h hc.2.symm)]
  · rw [if_neg (fun hc => h1 hc.1)]
    by_cases h2 : (a i).parent < 0
    · have e : assemble_step a i =
          Function.update a (-(a i).parent - 1)
            { a (-(a i).parent - 1) with right_leaf := i } := by
        unfold assemble_step; rw [if_neg h1, if_pos h2]
      rw [e]
      by_cases h : q = -(a i).parent - 1
      · subst h; rw [Function.update_same]
      · rw [Function.update_noteq h]
    · have e : assemble_step a i = a := by
        unfold assemble_step; rw [if_neg h1, if_neg h2]
      rw [e]

theorem assemble_step_right (a : Int → rcb_tree) (i q : Int) :
    (assemble_step a i q).right_leaf =
      if (a i).parent < 0 ∧ -(a i).parent - 1 = q then i else (a q).right_leaf := by
  by_cases h1 : (a i).parent > 0
  · have e : assemble_step a i =
        Function.update a ((a i).parent - 1) { a ((a i).parent - 1) with left_leaf := i } := by
      unfold assemble_step; rw [if_pos h1]
    rw [e, if_neg (fun hc => by omega)]
    by_cases h : q = (a i).parent - 1
    · subst h; rw [Function.update_same]
    · rw [Function.update_noteq h]
  · by_cases h2 : (a i).parent < 0
    · have e : assemble_step a i =
          Function.update a (-(a i).parent - 1)
            { a (-(a i).parent - 1) with right_leaf := i } := by
        unfold assemble_step; rw [if_neg h1, if_pos h2]
      rw [e]
      by_cases h : q = -(a i).parent - 1
      · subst h; rw [Function.update_same, if_pos ⟨h2, rfl⟩]
      · rw [Function.update_noteq h, if_neg (fun hc => h hc.2.symm)]
    · have e : assemble_step a i = a := by
        unfold assemble_step; rw [if_neg h1, if_neg h2]
      rw [e, if_neg (fun hc => h2 hc.1)]

theorem assemble_steps_parent (t : Int → rcb_tree) (k : Nat) (p : Int) :
    (assemble_steps t k p).parent = (t p).parent := by
  induction k with
  | zero => rfl
  | succ k ih => rw [assemble_steps_succ, assemble_step_parent, ih]

/-- Invariant of the assembly loop after the iterations `i = 1..k`, when the
non-zero parent references of the nodes `1..k` are pairwise distinct. -/
theorem assemble_steps_links (t : Int → rcb_tree) (k : Nat)
    (huniq : ∀ i j : Int, 1 ≤ i → i ≤ k → 1 ≤ j → j ≤ k →
      (t i).parent = (t j).parent → (t i).parent ≠ 0 → i = j) :
    (∀ i : Int, 1 ≤ i → i ≤ k → (t i).parent > 0 →
      (assemble_steps t k ((t i).parent - 1)).left_leaf = i) ∧
    (∀ i : Int, 1 ≤ i → i ≤ k → (t i).parent < 0 →
      (assemble_steps t k (-(t i).parent - 1)).right_leaf = i) ∧
    (∀ q : Int, (∀ i : Int, 1 ≤ i → i ≤ k → (t i).parent ≠ q + 1) →
      (assemble_steps t k q).left_leaf = (t q).left_leaf) ∧
    (∀ q : Int, (∀ i : Int, 1 ≤ i → i ≤ k → (t i).parent ≠ -(q + 1)) →
      (assemble_steps t k q).right_leaf = (t q).right_leaf) := by
  induction k with
  | zero =>
    refine ⟨fun i h1 h2 => ?_, fun i h1 h2 => ?_, fun _ _ => rfl, fun _ _ => rfl⟩ <;>
      (simp at h2; omega)
  | succ k ih =>
    have hcast : ((k + 1 : Nat) : Int) = (k : Int) + 1 := by push_cast; rfl
    obtain ⟨a1, a2, a3, a4⟩ := ih (fun i j h1 h2 h3 h4 =>
      huniq i j h1 (by rw [hcast]; omega) h3 (by rw [hcast]; omega))
    have hp : (assemble_steps t k ((k : Int) + 1)).parent = (t ((k : Int) + 1)).parent :=
      assemble_steps_parent _ _ _
    refine ⟨fun i h1 h2 hpos => ?_, fun i h1 h2 hneg => ?_, fun q hq => ?_, fun q hq => ?_⟩
    · rw [assemble_steps_succ, assemble_step_left, hp]
      rw [hcast] at h2
      by_cases hi : i = (k : Int) + 1
      · subst hi; rw [if_pos ⟨hpos, rfl⟩]
      · have hne : ¬ ((t ((k : Int) + 1)).parent > 0 ∧
            (t ((k : Int) + 1)).parent - 1 = (t i).parent - 1) := by
          rintro ⟨_, he⟩
          have := huniq i ((k : Int) + 1) h1 (by rw [hcast]; omega) (by omega)
            (by rw [hcast]) (by omega) (by omega)
          exact hi this
        rw [if_neg hne]
        exact a1 i h1 (by omega) hpos
    · rw [assemble_steps_succ, assemble_step_right, hp]
      rw [hcast] at h2
      by_cases hi : i = (k : Int) + 1
      · subst hi; rw [if_pos ⟨hneg, rfl⟩]
      · have hne : ¬ ((t ((k : Int) + 1)).parent < 0 ∧
            -(t ((k : Int) + 1)).parent - 1 = -(t i).parent - 1) := by
          rintro ⟨_, he⟩
          have := huniq i ((k : Int) + 1) h1 (by rw [hcast]; omega) (by omega)
            (by rw [hcast]) (by omega) (by omega)
          exact hi this
        rw [if_neg hne]
        exact a2 i h1 (by omega) hneg
    · rw [assemble_steps_succ, assemble_step_left, hp]
      have hne : ¬ ((t ((k : Int) + 1)).parent > 0 ∧ (t ((k : Int) + 1)).parent - 1 = q) := by
        rintro ⟨_, he⟩
        exact hq ((k : Int) + 1) (by omega) (by rw [hcast]) (by omega)
      rw [if_neg hne]
      exact a3 q (fun i h1 h2 => hq i h1 (by rw [hcast]; omega))
    · rw [assemble_steps_succ, assemble_step_right, hp]
      have hne : ¬ ((t ((k : Int) + 1)).parent < 0 ∧ -(t ((k : Int) + 1)).parent - 1 = q) := by
        rintro ⟨_, he⟩
        exact hq ((k : Int) + 1) (by omega) (by rw [hcast]) (by omega)
      rw [if_neg hne]
      exact a4 q (fun i h1 h2 => hq i h1 (by rw [hcast]; omega))

theorem assemble_parent (t : Int → rcb_tree) (n p : Int) :
    (assemble t n p).parent = (t p).parent := by
  unfold assemble
  rw [assemble_steps_parent]
  by_cases h : p = 0
  · subst h; rw [Function.update_same]
  · rw [Function.update_noteq h]

/-- The assembly pass produces the links `Assembled` describes, when the
non-zero parent references of the nodes `1..n-1` are pairwise distinct. -/
theorem assemble_assembled (t : Int → rcb_tree) (n ref : Int) (h : TreeLocal t 0 n ref) :
    Assembled (assemble t n) t 0 n := by
  have hu0 : ∀ p, (Function.update t 0 { t 0 with dim := 0 } p).parent = (t p).parent ∧
      (Function.update t 0 { t 0 with dim := 0 } p).left_leaf = (t p).left_leaf ∧
      (Function.update t 0 { t 0 with dim := 0 } p).right_leaf = (t p).right_leaf := by
    intro p
    by_cases hp : p = 0
    · subst hp; rw [Function.update_same]; exact ⟨rfl, rfl, rfl⟩
    · rw [Function.update_noteq hp]; exact ⟨rfl, rfl, rfl⟩
  have hk : ∀ i : Int, (1 ≤ i ∧ i ≤ ((n - 1).toNat : Int)) ↔ (0 < i ∧ i < 0 + n) := by
    intro i; omega
  obtain ⟨a1, a2, a3, a4⟩ := assemble_steps_links (Function.update t 0 { t 0 with dim := 0 })
    (n - 1).toNat (by
      intro i j h1 h2 h3 h4 he hne
      rw [(hu0 i).1] at he hne
      rw [(hu0 j).1] at he
      exact h.2 i j ((hk i).mp ⟨h1, h2⟩).1 ((hk i).mp ⟨h1, h2⟩).2 ((hk j).mp ⟨h3, h4⟩).1
        ((hk j).mp ⟨h3, h4⟩).2 he hne)
  unfold assemble
  refine ⟨fun i h1 h2 hpos => ?_, fun i h1 h2 hneg => ?_, fun q _ _ hq => ?_,
    fun q _ _ hq => ?_⟩
  · have := a1 i ((hk i).mpr ⟨h1, h2⟩).1 ((hk i).mpr ⟨h1, h2⟩).2 (by rw [(hu0 i).1]; exact hpos)
    rw [(hu0 i).1] at this
    exact this
  · have := a2 i ((hk i).mpr ⟨h1, h2⟩).1 ((hk i).mpr ⟨h1, h2⟩).2 (by rw [(hu0 i).1]; exact hneg)
    rw [(hu0 i).1] at this
    exact this
  · rw [a3 q (fun i h1 h2 => by
      rw [(hu0 i).1]; exact hq i ((hk i).mp ⟨h1, h2⟩).1 ((hk i).mp ⟨h1, h2⟩).2), (hu0 q).2.1]
  · rw [a4 q (fun i h1 h2 => by
      rw [(hu0 i).1]; exact hq i ((hk i).mp ⟨h1, h2⟩).1 ((hk i).mp ⟨h1, h2⟩).2), (hu0 q).2.2]

/-! ### Walking the assembled tree -/

theorem parts_list_one (l : Int) : parts_list l 1 = [l] := by
  simp [parts_list, List.range_succ]

theorem parts_list_append (l n m : Int) (h1 : l ≤ m) (h2 : m ≤ l + n) :
    parts_list l (m - l) ++ parts_list m (l + n - m) = parts_list l n := by
  unfold parts_list
  have e : n.toNat = (m - l).toNat + (l + n - m).toNat := by omega
  rw [e, List.range_add, List.map_append, List.map_map]
  congr 1
  apply List.map_congr_left
  intro k _
  simp only [Function.comp]
  push_cast
  omega

theorem walk_leaf (a : Int → rcb_tree) (fuel : Nat) (l : Int) (hf : 1 ≤ fuel) (hl : 0 ≤ l) :
    walk a fuel (-l) = some [l] := by
  cases fuel with
  | zero => omega
  | succ f =>
    rw [walk, if_neg (by omega)]
    simp

theorem walk_node (a : Int → rcb_tree) (f : Nat) (m : Int) (x y : List Int) (hm : 0 < m)
    (hx : walk a f (a m).left_leaf = some x) (hy : walk a f (a m).right_leaf = some y) :
    walk a (f + 1) m = some (x ++ y) := by
  rw [walk, if_pos hm, hx, hy]

theorem Assembled.restrict_low {a t : Int → rcb_tree} {l n : Int} (h : Assembled a t l n)
    (m ref root : Int) (hl : 0 ≤ l) (hroot : 0 ≤ root) (hout : ¬ (l < root ∧ root < l + n))
    (hm1 : l < m) (hm2 : m < l + n) (href : ref = root + 1 ∨ ref = -(root + 1))
    (htop : (t m).parent = ref) (hhigh : TreeLocal t m (l + n - m) (-(m + 1))) :
    Assembled a t l (m - l) := by
  obtain ⟨a1, a2, a3, a4⟩ := h
  have highshape : ∀ i, m < i → i < l + n → (t i).parent = 0 ∨ (t i).parent = -(m + 1) ∨
      ∃ q, m < q ∧ q < l + n ∧ ((t i).parent = q + 1 ∨ (t i).parent = -(q + 1)) := by
    intro i h1 h2
    rcases hhigh.1 i h1 (by omega) with h | h | ⟨q, q1, q2, h⟩
    · exact Or.inl h
    · exact Or.inr (Or.inl h)
    · exact Or.inr (Or.inr ⟨q, q1, by omega, h⟩)
  refine ⟨fun i h1 h2 => a1 i h1 (by omega), fun i h1 h2 => a2 i h1 (by omega),
    fun q h1 h2 hq => a3 q h1 (by omega) (fun i i1 i2 => ?_),
    fun q h1 h2 hq => a4 q h1 (by omega) (fun i i1 i2 => ?_)⟩
  · rcases lt_trichotomy i m with hi | hi | hi
    · exact hq i i1 (by omega)
    · subst hi; rw [htop]; rcases href with e | e <;> omega
    · rcases highshape i hi i2 with g | g | ⟨p, p1, p2, g⟩
      · omega
      · omega
      · rcases g with g | g <;> omega
  · rcases lt_trichotomy i m with hi | hi | hi
    · exact hq i i1 (by omega)
    · subst hi; rw [htop]; rcases href with e | e <;> omega
    · rcases highshape i hi i2 with g | g | ⟨p, p1, p2, g⟩
      · omega
      · omega
      · rcases g with g | g <;> omega

theorem Assembled.restrict_high {a t : Int → rcb_tree} {l n : Int} (h : Assembled a t l n)
    (m ref root : Int) (hl : 0 ≤ l) (hroot : 0 ≤ root) (hout : ¬ (l < root ∧ root < l + n))
    (hm1 : l < m) (hm2 : m < l + n) (href : ref = root + 1 ∨ ref = -(root + 1))
    (htop : (t m).parent = ref) (hlow : TreeLocal t l (m - l) (m + 1)) :
    Assembled a t m (l + n - m) := by
  obtain ⟨a1, a2, a3, a4⟩ := h
  have lowshape : ∀ i, l < i → i < m → (t i).parent = 0 ∨ (t i).parent = m + 1 ∨
      ∃ q, l < q ∧ q < m ∧ ((t i).parent = q + 1 ∨ (t i).parent = -(q + 1)) := by
    intro i h1 h2
    rcases hlow.1 i h1 (by omega) with h | h | ⟨q, q1, q2, h⟩
    · exact Or.inl h
    · exact Or.inr (Or.inl h)
    · exact Or.inr (Or.inr ⟨q, q1, by omega, h⟩)
  refine ⟨fun i h1 h2 => a1 i (by omega) (by omega), fun i h1 h2 => a2 i (by omega) (by omega),
    fun q h1 h2 hq => a3 q (by omega) (by omega) (fun i i1 i2 => ?_),
    fun q h1 h2 hq => a4 q (by omega) (by omega) (fun i i1 i2 => ?_)⟩
  · rcases lt_trichotomy i m with hi | hi | hi
    · rcases lowshape i i1 hi with g | g | ⟨p, p1, p2, g⟩
      · omega
      · omega
      · rcases g with g | g <;> omega
    · subst hi; rw [htop]; rcases href with e | e <;> omega
    · exact hq i hi (by omega)
  · rcases lt_trichotomy i m with hi | hi | hi
    · rcases lowshape i i1 hi with g | g | ⟨p, p1, p2, g⟩
      · omega
      · omega
      · rcases g with g | g <;> omega
    · subst hi; rw [htop]; rcases href with e | e <;> omega
    · exact hq i hi (by omega)

/-- Walking from the top node `m` of a range: the walk of the low sub-range
followed by the walk of the high sub-range. -/
theorem walk_split (a t : Int → rcb_tree) (l n m ref root : Int) (f : Nat) (hl : 0 ≤ l)
    (hroot : 0 ≤ root) (hout : ¬ (l < root ∧ root < l + n)) (hm1 : l < m) (hm2 : m < l + n)
    (href : ref = root + 1 ∨ ref = -(root + 1)) (htop : (t m).parent = ref)
    (hleft : (t m).left_leaf = -l) (hright : (t m).right_leaf = -m)
    (hlow : TreeLocal t l (m - l) (m + 1)) (hhigh : TreeLocal t m (l + n - m) (-(m + 1)))
    (hasm : Assembled a t l n)
    (wlow : ∀ link, (m - l = 1 ∧ link = -l) ∨
        (l < link ∧ link < l + (m - l) ∧ (t link).parent = m + 1) →
      walk a f link = some (parts_list l (m - l)))
    (toplow : 2 ≤ m - l → ∃ k, l < k ∧ k < l + (m - l) ∧ (t k).parent = m + 1)
    (whigh : ∀ link, (l + n - m = 1 ∧ link = -m) ∨
        (m < link ∧ link < m + (l + n - m) ∧ (t link).parent = -(m + 1)) →
      walk a f link = some (parts_list m (l + n - m)))
    (tophigh : 2 ≤ l + n - m → ∃ k, m < k ∧ k < m + (l + n - m) ∧ (t k).parent = -(m + 1))
    (link : Int) (h1 : l < link) (h2 : link < l + n) (hp : (t link).parent = ref) :
    walk a (f + 1) link = some (parts_list l n) := by
  have hloc := TreeLocal.combine t l n m ref root hl hroot hout hm1 hm2 href htop hlow hhigh
  have hlink : link = m := by
    apply hloc.2 link m h1 h2 hm1 hm2 (by rw [hp, htop])
    rw [hp]; rcases href with e | e <;> omega
  subst hlink
  have noleft : link - l = 1 → ∀ i, l < i → i < l + n → (t i).parent ≠ link + 1 := by
    clear wlow whigh toplow tophigh
    intro hone i i1 i2
    rcases lt_trichotomy i link with hi | hi | hi
    · omega
    · rw [hi, htop]; rcases href with e | e <;> omega
    · rcases hhigh.1 i hi (by omega) with g | g | ⟨p, p1, p2, g⟩
      · omega
      · omega
      · rcases g with g | g <;> omega
  have noright : l + n - link = 1 → ∀ i, l < i → i < l + n → (t i).parent ≠ -(link + 1) := by
    clear wlow whigh toplow tophigh
    intro hone i i1 i2
    rcases lt_trichotomy i link with hi | hi | hi
    · rcases hlow.1 i i1 (by omega) with g | g | ⟨p, p1, p2, g⟩
      · omega
      · omega
      · rcases g with g | g <;> omega
    · rw [hi, htop]; rcases href with e | e <;> omega
    · omega
  rw [← parts_list_append l n link (le_of_lt hm1) (le_of_lt hm2)]
  apply walk_node _ _ _ _ _ (lt_of_le_of_lt hl hm1)
  · by_cases hone : link - l = 1
    · apply wlow
      left
      refine ⟨hone, ?_⟩
      rw [hasm.2.2.1 link h1 h2 (noleft hone), hleft]
    · have h2le : 2 ≤ link - l := by
        clear wlow whigh toplow tophigh noleft noright
        omega
      obtain ⟨k, k1, k2, k3⟩ := toplow h2le
      apply wlow
      right
      have hk2 : k < l + n := by
        clear wlow whigh toplow tophigh noleft noright
        omega
      have hpos : (t k).parent > 0 := by
        clear wlow whigh toplow tophigh noleft noright
        omega
      have := hasm.1 k k1 hk2 hpos
      rw [k3] at this
      simp only [Int.add_sub_cancel] at this
      rw [this]
      exact ⟨k1, k2, k3⟩
  · by_cases hone : l + n - link = 1
    · apply whigh
      left
      refine ⟨hone, ?_⟩
      rw [hasm.2.2.2 link h1 h2 (noright hone), hright]
    · have h2le : 2 ≤ l + n - link := by
        clear wlow whigh toplow tophigh noleft noright
        omega
      obtain ⟨k, k1, k2, k3⟩ := tophigh h2le
      apply whigh
      right
      have hk : l < k ∧ k < l + n ∧ (t k).parent < 0 := by
        clear wlow whigh toplow tophigh noleft noright
        omega
      have := hasm.2.1 k hk.1 hk.2.1 hk.2.2
      rw [k3] at this
      have e : -(-(link + 1)) - 1 = link := by
        clear wlow whigh toplow tophigh noleft noright
        omega
      rw [e] at this
      rw [this]
      exact ⟨k1, k2, k3⟩

theorem clean_log_append (a b : List Event) :
    clean_log (a ++ b) = true ↔ clean_log a = true ∧ clean_log b = true := by
  simp [clean_log, List.all_append]

theorem serial_split_log_failed (env : SerialEnv) (old_set root : Int) (rcbbox : rcb_box)
    (weight : ℚ) (dotnum : Nat) (num_parts : Int) (dindx tmpdindx : Nat) (partlower : Int)
    (level : Nat) (s : SerialState) (sp : SplitOut)
    (hsp : sp = serial_split env old_set root rcbbox weight dotnum num_parts dindx tmpdindx
      partlower level s) (hok : sp.ok = false) : clean_log sp.log = false := by
  subst hsp
  revert hok
  simp only [serial_split]
  split
  · intro h; cases h
  · intro _
    simp [serial_split_log, clean_log, Event.isMedianFailure, Event.isSkip]

theorem serial_split_leaves (env : SerialEnv) (old_set root : Int) (rcbbox : rcb_box)
    (weight : ℚ) (dotnum : Nat) (num_parts : Int) (dindx tmpdindx : Nat) (partlower : Int)
    (level : Nat) (s : SerialState) (sp : SplitOut)
    (hsp : sp = serial_split env old_set root rcbbox weight dotnum num_parts dindx tmpdindx
      partlower level s) (hok : sp.ok = true) :
    (sp.st.treept sp.partmid).parent = parent_ref old_set root ∧
    (sp.st.treept sp.partmid).left_leaf = -partlower ∧
    (sp.st.treept sp.partmid).right_leaf = -sp.partmid := by
  rw [serial_split_treept env _ _ _ _ _ _ _ _ _ _ _ sp hsp, if_pos hok, record_cut_same]
  exact ⟨rfl, rfl, rfl⟩

/-- A run without skipped branch and without failed median search, on a range
whose parent references were 0: its status is non-negative, a range of two or
more partitions has a top node, and in every tree assembled from its nodes
the walk from the link of the range lists the partitions of the range in
increasing order. -/
theorem run_walk (env : SerialEnv) (hdiv : DividerOK env)
    {old_set root : Int} {rcbbox : rcb_box} {weight : ℚ}
    {dotnum : Nat} {num_parts : Int} {dindx tmpdindx : Nat} {partlower : Int} {level : Nat}
    {s : SerialState} {r : SerialResult}
    (h : Run env old_set root rcbbox weight dotnum num_parts dindx tmpdindx partlower level s r)
    (hn : 1 ≤ num_parts) (hl : 0 ≤ partlower) (hroot : 0 ≤ root)
    (hout : ¬ (partlower < root ∧ root < partlower + num_parts))
    (hz : ∀ i, partlower < i → i < partlower + num_parts → (s.treept i).parent = 0)
    (hclean : clean_log r.log = true) :
    0 ≤ r.ierr ∧
    (2 ≤ num_parts → ∃ k, partlower < k ∧ k < partlower + num_parts ∧
      (r.st.treept k).parent = parent_ref old_set root) ∧
    (∀ t a : Int → rcb_tree,
      (∀ p, partlower < p → p < partlower + num_parts → t p = r.st.treept p) →
      Assembled a t partlower num_parts →
      ∀ (fuel : Nat) (link : Int), num_parts ≤ fuel →
        ((num_parts = 1 ∧ link = -partlower) ∨
          (partlower < link ∧ link < partlower + num_parts ∧
            (t link).parent = parent_ref old_set root)) →
        walk a fuel link = some (parts_list partlower num_parts)) := by
  induction h with
  | leaf old_set root rcbbox weight dotnum dindx tmpdindx partlower level s =>
    refine ⟨by simp [ZOLTAN_OK], fun h2 => by omega, fun t a _ _ fuel link hf hlink => ?_⟩
    rcases hlink with ⟨_, e⟩ | ⟨h1, h2, _⟩
    · rw [e, parts_list_one]
      exact walk_leaf a fuel partlower (by exact_mod_cast hf) hl
    · omega
  | fail old_set root rcbbox weight dotnum num_parts dindx tmpdindx partlower level s sp hsp
      h1 hok =>
    have := serial_split_log_failed env _ _ _ _ _ _ _ _ _ _ _ sp hsp hok
    rw [this] at hclean
    cases hclean
  | abort old_set root rcbbox weight dotnum num_parts dindx tmpdindx partlower level s sp r0
      hsp h1 hok hc hrun hneg ih =>
    have ht := serial_split_treept env _ _ _ _ _ _ _ _ _ _ _ sp hsp
    rw [if_pos hok] at ht
    have hpm : sp.partmid = (env.Zoltan_Divide_Parts num_parts partlower).partmid := by
      rw [hsp, serial_split_partmid]
    have hdv := hdiv num_parts partlower (by omega)
    rw [← hpm] at hdv
    have hcl := (clean_log_append _ _).mp hclean
    have := (ih (by omega) hl (by omega) (by omega) (fun i i1 i2 => by
      rw [ht, record_cut_other _ _ _ _ _ _ _ _ (by omega)]
      exact hz i i1 (by omega)) hcl.2).1
    omega
  | node old_set root rcbbox weight dotnum num_parts dindx tmpdindx partlower level s sp r0 r1
      hsp h1 hok hl0 hl00 hcont hh hh0 ihl ihh =>
    have ht := serial_split_treept env _ _ _ _ _ _ _ _ _ _ _ sp hsp
    rw [if_pos hok] at ht
    have hlv := serial_split_leaves env _ _ _ _ _ _ _ _ _ _ _ sp hsp hok
    have hpm : sp.partmid = (env.Zoltan_Divide_Parts num_parts partlower).partmid := by
      rw [hsp, serial_split_partmid]
    have hdv := hdiv num_parts partlower (by omega)
    rw [← hpm] at hdv
    have hcl : clean_log sp.log = true ∧ clean_log r0.log = true ∧ clean_log r1.log = true := by
      have h1 := (clean_log_append _ _).mp hclean
      have h2 := (clean_log_append _ _).mp h1.1
      exact ⟨h2.1, h2.2, h1.2⟩
    have hclow : sp.partmid - partlower > 0 ∧ sp.set1 ≠ 0 := by
      by_contra hc
      have := hcl.2.1
      rw [hl00 hc] at this
      simp [clean_log, Event.isSkip] at this
    have hchigh : partlower + num_parts - sp.partmid > 0 ∧ sp.set0 ≠ dotnum := by
      by_contra hc
      have := hcl.2.2
      rw [hh0 hc] at this
      simp [clean_log, Event.isSkip] at this
    have hz0 : ∀ i, partlower < i → i < partlower + (sp.partmid - partlower) →
        (sp.st.treept i).parent = 0 := by
      intro i i1 i2
      rw [ht, record_cut_other _ _ _ _ _ _ _ _ (by omega)]
      exact hz i i1 (by omega)
    obtain ⟨f0, l0⟩ := run_tree env hdiv (hl0 hclow) (by omega)
    have hz1 : ∀ i, sp.partmid < i → i < sp.partmid + (partlower + num_parts - sp.partmid) →
        (r0.st.treept i).parent = 0 := by
      intro i i1 i2
      rw [f0 i (by omega), ht, record_cut_other _ _ _ _ _ _ _ _ (by omega)]
      exact hz i (by omega) (by omega)
    obtain ⟨f1, l1⟩ := run_tree env hdiv (hh hchigh) (by omega)
    have L0 := l0 hl (by omega) (by omega) hz0
    have L1 := l1 (by omega) (by omega) (by omega) hz1
    rw [parent_ref_zero] at L0
    rw [parent_ref_one] at L1
    obtain ⟨_, top0, w0⟩ := ihl hclow (by omega) hl (by omega) (by omega) hz0 hcl.2.1
    obtain ⟨e1, top1, w1⟩ := ihh hchigh (by omega) (by omega) (by omega) (by omega) hz1 hcl.2.2
    rw [parent_ref_zero] at top0 w0
    rw [parent_ref_one] at top1 w1
    have htopnode : r1.st.treept sp.partmid = sp.st.treept sp.partmid := by
      rw [f1 _ (by omega), f0 _ (by omega)]
    refine ⟨e1, fun _ => ⟨sp.partmid, hdv.1, hdv.2, ?_⟩, fun t a hagree hasm fuel link hf hlink => ?_⟩
    · show (r1.st.treept sp.partmid).parent = _
      rw [htopnode]; exact hlv.1
    · have hagree1 : ∀ p, partlower < p → p < partlower + num_parts → t p = r1.st.treept p :=
        hagree
      cases fuel with
      | zero => simp at hf; omega
      | succ f =>
        have hf2 : num_parts ≤ (f : Int) + 1 := by exact_mod_cast hf
        rcases hlink with ⟨e, _⟩ | ⟨k1, k2, k3⟩
        · exact absurd e h1
        · have htm : t sp.partmid = sp.st.treept sp.partmid := by
            rw [hagree1 _ hdv.1 hdv.2, htopnode]
          have hlow : ∀ p, partlower < p → p < partlower + (sp.partmid - partlower) →
              t p = r0.st.treept p := by
            intro p p1 p2
            rw [hagree1 p p1 (by omega), f1 p (by omega)]
          have hhigh : ∀ p, sp.partmid < p →
              p < sp.partmid + (partlower + num_parts - sp.partmid) → t p = r1.st.treept p := by
            intro p p1 p2
            exact hagree1 p (by omega) (by omega)
          have TL0 : TreeLocal t partlower (sp.partmid - partlower) (sp.partmid + 1) :=
            L0.congr hlow
          have TL1 : TreeLocal t sp.partmid (partlower + num_parts - sp.partmid)
              (-(sp.partmid + 1)) := L1.congr hhigh
          have htp : (t sp.partmid).parent = parent_ref old_set root := by rw [htm]; exact hlv.1
          have A0 := hasm.restrict_low sp.partmid _ root hl hroot hout hdv.1 hdv.2
            (parent_ref_cases _ _) htp TL1
          have A1 := hasm.restrict_high sp.partmid _ root hl hroot hout hdv.1 hdv.2
            (parent_ref_cases _ _) htp TL0
          apply walk_split a t partlower num_parts sp.partmid _ root f hl hroot hout hdv.1 hdv.2
            (parent_ref_cases _ _) htp (by rw [htm]; exact hlv.2.1) (by rw [htm]; exact hlv.2.2)
            TL0 TL1 hasm
          · exact fun lk hlk => w0 t a hlow A0 f lk (by omega) hlk
          · intro h2
            obtain ⟨k, q1, q2, q3⟩ := top0 h2
            exact ⟨k, q1, q2, by rw [hlow k q1 q2]; exact q3⟩
          · exact fun lk hlk => w1 t a hhigh A1 f lk (by omega) hlk
          · intro h2
            obtain ⟨k, q1, q2, q3⟩ := top1 h2
            exact ⟨k, q1, q2, by rw [hhigh k q1 q2]; exact q3⟩
          · exact k1
          · exact k2
          · exact k3

theorem parts_list_mem (l n p : Int) : p ∈ parts_list l n ↔ l ≤ p ∧ p < l + n := by
  simp only [parts_list, List.mem_map, List.mem_range]
  constructor
  · rintro ⟨k, hk, rfl⟩
    omega
  · intro h
    exact ⟨(p - l).toNat, by omega, by omega⟩

theorem parts_list_nodup (l n : Int) : (parts_list l n).Nodup := by
  unfold parts_list
  apply List.Nodup.map _ (List.nodup_range _)
  intro a b h
  simp only at h
  omega

/-! ### The reassembly rule -/

/-- The assembly loop after the iterations `i = 1..k`: the last node that
names a link has it. -/
theorem assemble_steps_last (t : Int → rcb_tree) (k : Nat) :
    (∀ i : Int, 1 ≤ i → i ≤ k → (t i).parent > 0 →
      (∀ j : Int, i < j → j ≤ k → (t j).parent ≠ (t i).parent) →
      (assemble_steps t k ((t i).parent - 1)).left_leaf = i) ∧
    (∀ i : Int, 1 ≤ i → i ≤ k → (t i).parent < 0 →
      (∀ j : Int, i < j → j ≤ k → (t j).parent ≠ (t i).parent) →
      (assemble_steps t k (-(t i).parent - 1)).right_leaf = i) := by
  induction k with
  | zero =>
    refine ⟨fun i h1 h2 => ?_, fun i h1 h2 => ?_⟩ <;> (simp at h2; omega)
  | succ k ih =>
    have hcast : ((k + 1 : Nat) : Int) = (k : Int) + 1 := by push_cast; rfl
    obtain ⟨a1, a2⟩ := ih
    have hp : (assemble_steps t k ((k : Int) + 1)).parent = (t ((k : Int) + 1)).parent :=
      assemble_steps_parent _ _ _
    refine ⟨fun i h1 h2 hpos hlast => ?_, fun i h1 h2 hneg hlast => ?_⟩
    · rw [assemble_steps_succ, assemble_step_left, hp]
      rw [hcast] at h2
      by_cases hi : i = (k : Int) + 1
      · subst hi; rw [if_pos ⟨hpos, rfl⟩]
      · have hne : ¬ ((t ((k : Int) + 1)).parent > 0 ∧
            (t ((k : Int) + 1)).parent - 1 = (t i).parent - 1) := by
          rintro ⟨_, he⟩
          exact hlast ((k : Int) + 1) (by omega) (by rw [hcast]) (by omega)
        rw [if_neg hne]
        exact a1 i h1 (by omega) hpos (fun j j1 j2 => hlast j j1 (by rw [hcast]; omega))
    · rw [assemble_steps_succ, assemble_step_right, hp]
      rw [hcast] at h2
      by_cases hi : i = (k : Int) + 1
      · subst hi; rw [if_pos ⟨hneg, rfl⟩]
      · have hne : ¬ ((t ((k : Int) + 1)).parent < 0 ∧
            -(t ((k : Int) + 1)).parent - 1 = -(t i).parent - 1) := by
          rintro ⟨_, he⟩
          exact hlast ((k : Int) + 1) (by omega) (by rw [hcast]) (by omega)
        rw [if_neg hne]
        exact a2 i h1 (by omega) hneg (fun j j1 j2 => hlast j j1 (by rw [hcast]; omega))

theorem assemble_step_zero (t : Int → rcb_tree) (i : Int) (h : (t i).parent = 0) :
    assemble_step t i = t := by
  unfold assemble_step
  rw [if_neg (by omega), if_neg (by omega)]

theorem update_dim_fields (t : Int → rcb_tree) (p : Int) :
    (Function.update t 0 { t 0 with dim := 0 } p).parent = (t p).parent ∧
    (Function.update t 0 { t 0 with dim := 0 } p).left_leaf = (t p).left_leaf ∧
    (Function.update t 0 { t 0 with dim := 0 } p).right_leaf = (t p).right_leaf := by
  by_cases hp : p = 0
  · subst hp; rw [Function.update_same]; exact ⟨rfl, rfl, rfl⟩
  · rw [Function.update_noteq hp]; exact ⟨rfl, rfl, rfl⟩

/-- What the assembly pass does with the links, for any tree. -/
theorem assemble_rule (t : Int → rcb_tree) (n : Int) :
    (∀ i : Int, 1 ≤ i → i < n → (t i).parent > 0 →
      (∀ j : Int, i < j → j < n → (t j).parent ≠ (t i).parent) →
      (assemble t n ((t i).parent - 1)).left_leaf = i) ∧
    (∀ i : Int, 1 ≤ i → i < n → (t i).parent < 0 →
      (∀ j : Int, i < j → j < n → (t j).parent ≠ (t i).parent) →
      (assemble t n (-(t i).parent - 1)).right_leaf = i) := by
  obtain ⟨a1, a2⟩ := assemble_steps_last (Function.update t 0 { t 0 with dim := 0 })
    (n - 1).toNat
  unfold assemble
  refine ⟨fun i h1 h2 hpos hlast => ?_, fun i h1 h2 hneg hlast => ?_⟩
  · have := a1 i h1 (by omega) (by rw [(update_dim_fields t i).1]; exact hpos)
      (fun j j1 j2 => by
        rw [(update_dim_fields t j).1, (update_dim_fields t i).1]
        exact hlast j j1 (by omega))
    rw [(update_dim_fields t i).1] at this
    exact this
  · have := a2 i h1 (by omega) (by rw [(update_dim_fields t i).1]; exact hneg)
      (fun j j1 j2 => by
        rw [(update_dim_fields t j).1, (update_dim_fields t i).1]
        exact hlast j j1 (by omega))
    rw [(update_dim_fields t i).1] at this
    exact this

/-- The links no node of `1..n-1` names are left as they were. -/
theorem assemble_untouched (t : Int → rcb_tree) (n q : Int) :
    ((∀ i : Int, 1 ≤ i → i < n → (t i).parent ≠ q + 1) →
      (assemble t n q).left_leaf = (t q).left_leaf) ∧
    ((∀ i : Int, 1 ≤ i → i < n → (t i).parent ≠ -(q + 1)) →
      (assemble t n q).right_leaf = (t q).right_leaf) := by
  have key : ∀ k : Nat, (k : Int) ≤ (n - 1).toNat →
      ((∀ i : Int, 1 ≤ i → i < n → (t i).parent ≠ q + 1) →
        (assemble_steps (Function.update t 0 { t 0 with dim := 0 }) k q).left_leaf =
          (t q).left_leaf) ∧
      ((∀ i : Int, 1 ≤ i → i < n → (t i).parent ≠ -(q + 1)) →
        (assemble_steps (Function.update t 0 { t 0 with dim := 0 }) k q).right_leaf =
          (t q).right_leaf) := by
    intro k
    induction k with
    | zero =>
      intro _
      exact ⟨fun _ => (update_dim_fields t q).2.1, fun _ => (update_dim_fields t q).2.2⟩
    | succ k ih =>
      intro hk
      have hcast : ((k + 1 : Nat) : Int) = (k : Int) + 1 := by push_cast; rfl
      rw [hcast] at hk
      obtain ⟨b1, b2⟩ := ih (by omega)
      have hp : (assemble_steps (Function.update t 0 { t 0 with dim := 0 }) k
          ((k : Int) + 1)).parent = (t ((k : Int) + 1)).parent := by
        rw [assemble_steps_parent, (update_dim_fields t _).1]
      refine ⟨fun hq => ?_, fun hq => ?_⟩
      · rw [assemble_steps_succ, assemble_step_left, hp, if_neg, b1 hq]
        rintro ⟨_, he⟩
        exact hq ((k : Int) + 1) (by omega) (by omega) (by omega)
      · rw [assemble_steps_succ, assemble_step_right, hp, if_neg, b2 hq]
        rintro ⟨_, he⟩
        exact hq ((k : Int) + 1) (by omega) (by omega) (by omega)
  exact key (n - 1).toNat (le_refl _)

/-- C11 as stated fails: in the tree `exEnv` builds for three dots and three
partitions node 1 has the positive parent reference 3; the assembly pass sets
the `left_leaf` of node 2 to 1 and leaves its `right_leaf` at `-2`, whereas
the claim has the `right_leaf` of node 2 set to 1. -/
theorem reassembly_rule_counterexample :
    (serial_rcb exEnv 3 1 0 exBox133 3 3 3 0 3 0 0 exState).map
      (fun r => ((r.st.treept 1).parent, (assemble r.st.treept 3 2).right_leaf,
        (assemble r.st.treept 3 2).left_leaf)) = some (3, -2, 1) ∧
    (-2 : Int) ≠ 1 :=
  ⟨by decide, by decide⟩

/-- C11, amended.  In one iteration `i` of the assembly loop a node with a
positive parent reference `p` makes `i` the `left_leaf` (low side) of node
`p - 1`, a node with a negative `p` makes `i` the `right_leaf` (high side) of
node `-p - 1`, no other link and no parent reference changes, and a node with
parent reference 0 causes no write.  Over the whole pass `i = 1..n-1`: the
link a node names holds that node unless a later node names it too, and a link
no node names is left as it was. -/
theorem reassembly_rule (t : Int → rcb_tree) (n : Int) :
    (∀ i q : Int, (assemble_step t i q).left_leaf =
      if (t i).parent > 0 ∧ (t i).parent - 1 = q then i else (t q).left_leaf) ∧
    (∀ i q : Int, (assemble_step t i q).right_leaf =
      if (t i).parent < 0 ∧ -(t i).parent - 1 = q then i else (t q).right_leaf) ∧
    (∀ i q : Int, (assemble_step t i q).parent = (t q).parent) ∧
    (∀ i : Int, (t i).parent = 0 → assemble_step t i = t) ∧
    (∀ i : Int, 1 ≤ i → i < n → (t i).parent > 0 →
      (∀ j : Int, i < j → j < n → (t j).parent ≠ (t i).parent) →
      (assemble t n ((t i).parent - 1)).left_leaf = i) ∧
    (∀ i : Int, 1 ≤ i → i < n → (t i).parent < 0 →
      (∀ j : Int, i < j → j < n → (t j).parent ≠ (t i).parent) →
      (assemble t n (-(t i).parent - 1)).right_leaf = i) ∧
    (∀ q : Int, (∀ i : Int, 1 ≤ i → i < n → (t i).parent ≠ q + 1) →
      (assemble t n q).left_leaf = (t q).left_leaf) ∧
    (∀ q : Int, (∀ i : Int, 1 ≤ i → i < n → (t i).parent ≠ -(q + 1)) →
      (assemble t n q).right_leaf = (t q).right_leaf) :=
  ⟨assemble_step_left t, assemble_step_right t, assemble_step_parent t,
   assemble_step_zero t, (assemble_rule t n).1, (assemble_rule t n).2,
   fun q => (assemble_untouched t n q).1, fun q => (assemble_untouched t n q).2⟩

/-- A tree of three nodes where node 1 names node 2 with the positive
reference 3: after the pass node 1 is the `left_leaf` of node 2. -/
theorem reassembly_rule_witness :
    ((1 : Int) ≤ 1 ∧ (1 : Int) < 3 ∧
      ((record_cut exTree 1 0 0 0 2 0) 1).parent > 0 ∧
      ∀ j : Int, 1 < j → j < 3 →
        ((record_cut exTree 1 0 0 0 2 0) j).parent ≠ ((record_cut exTree 1 0 0 0 2 0) 1).parent) ∧
    (assemble (record_cut exTree 1 0 0 0 2 0) 3
      (((record_cut exTree 1 0 0 0 2 0) 1).parent - 1)).left_leaf = 1 :=
  ⟨⟨by decide, by decide, by decide, fun j h1 h2 => by
      have : j = 2 := by omega
      subst this
      decide⟩,
   (reassembly_rule (record_cut exTree 1 0 0 0 2 0) 3).2.2.2.2.1 1 (by decide) (by decide)
     (by decide) (fun j h1 h2 => by
      have : j = 2 := by omega
      subst this
      decide)⟩

/-! ### The skip rule of `serial_rcb` -/

theorem serial_split_sets (env : SerialEnv) (old_set root : Int) (rcbbox : rcb_box)
    (weight : ℚ) (dotnum : Nat) (num_parts : Int) (dindx tmpdindx : Nat) (partlower : Int)
    (level : Nat) (s : SerialState) (sp : SplitOut)
    (hsp : sp = serial_split env old_set root rcbbox weight dotnum num_parts dindx tmpdindx
      partlower level s) (hok : sp.ok = true) :
    sp.set0 = low_count (env.Zoltan_RB_find_median
      (serial_median_args env rcbbox weight dotnum num_parts dindx partlower level s)).dotmark
      dotnum ∧
    sp.set1 = sp.set0 ∧
    sp.st.dindx = regrouped (env.Zoltan_RB_find_median
      (serial_median_args env rcbbox weight dotnum num_parts dindx partlower level s)).dotmark
      s.dindx dindx tmpdindx dotnum s.tmpdindx ∧
    sp.st.dotmark = (env.Zoltan_RB_find_median
      (serial_median_args env rcbbox weight dotnum num_parts dindx partlower level s)).dotmark := by
  subst hsp
  revert hok
  simp only [serial_split]
  split
  · intro _
    have h := regroup_spec
      (env.Zoltan_RB_find_median
        (serial_median_args env rcbbox weight dotnum num_parts dindx partlower level s)).dotmark
      s.dindx dindx tmpdindx dotnum s.tmpdindx
    simp only at h
    obtain ⟨h1, h2, _⟩ := h
    exact ⟨h1, h2.trans h1.symm, rfl, rfl⟩
  · intro h; cases h

/-- Inversion of one level of `serial_rcb` after a successful median search. -/
theorem serial_rcb_inv (env : SerialEnv) (fuel : Nat) (old_set root : Int) (rcbbox : rcb_box)
    (weight : ℚ) (dotnum : Nat) (num_parts : Int) (dindx tmpdindx : Nat) (partlower : Int)
    (level : Nat) (s : SerialState) (r : SerialResult) (sp : SplitOut)
    (hsp : sp = serial_split env old_set root rcbbox weight dotnum num_parts dindx tmpdindx
      partlower level s) (h1 : num_parts ≠ 1) (hok : sp.ok = true)
    (hr : serial_rcb env (fuel + 1) old_set root rcbbox weight dotnum num_parts dindx tmpdindx
      partlower level s = some r) :
    ∃ r0 : SerialResult,
      (sp.partmid - partlower > 0 ∧ sp.set1 ≠ 0 →
        serial_rcb env fuel 0 sp.partmid (tmpbox_set0 rcbbox sp.dim sp.valuehalf) sp.weightlo
          sp.set0 (sp.partmid - partlower) dindx tmpdindx partlower sp.level sp.st = some r0) ∧
      (¬ (sp.partmid - partlower > 0 ∧ sp.set1 ≠ 0) →
        r0 = { ierr := sp.ierr, st := sp.st,
               log := [Event.branch_skipped 0 (sp.partmid - partlower) sp.set0] }) ∧
      ((sp.partmid - partlower > 0 ∧ sp.set1 ≠ 0) ∧ r0.ierr < 0 →
        r = { r0 with log := sp.log ++ r0.log }) ∧
      (¬ ((sp.partmid - partlower > 0 ∧ sp.set1 ≠ 0) ∧ r0.ierr < 0) →
        (partlower + num_parts - sp.partmid > 0 ∧ sp.set0 ≠ dotnum →
          ∃ r1, serial_rcb env fuel 1 sp.partmid (tmpbox_set1 rcbbox sp.dim sp.valuehalf)
              sp.weighthi (dotnum - sp.set0) (partlower + num_parts - sp.partmid)
              (dindx + sp.set1) (tmpdindx + sp.set1) sp.partmid sp.level r0.st = some r1 ∧
            r = { r1 with log := sp.log ++ r0.log ++ r1.log }) ∧
        (¬ (partlower + num_parts - sp.partmid > 0 ∧ sp.set0 ≠ dotnum) →
          r = { r0 with
                log := sp.log ++ r0.log ++
                  [Event.branch_skipped 1 (partlower + num_parts - sp.partmid)
                    (dotnum - sp.set0)] })) := by
  rw [serial_rcb, if_neg h1] at hr
  simp only at hr
  rw [← hsp] at hr
  have hokf : ¬ sp.ok = false := by rw [hok]; simp
  rw [if_neg hokf] at hr
  by_cases hc : sp.partmid - partlower > 0 ∧ sp.set1 ≠ 0
  · rw [if_pos hc] at hr
    cases hr0 : serial_rcb env fuel 0 sp.partmid (tmpbox_set0 rcbbox sp.dim sp.valuehalf)
        sp.weightlo sp.set0 (sp.partmid - partlower) dindx tmpdindx partlower sp.level
        sp.st with
    | none => rw [hr0] at hr; cases hr
    | some r0 =>
      rw [hr0] at hr
      simp only at hr
      refine ⟨r0, fun _ => rfl, fun hn => absurd hc hn, ?_, ?_⟩
      · intro hneg
        rw [if_pos hneg] at hr
        cases hr; rfl
      · intro hneg
        rw [if_neg hneg] at hr
        refine ⟨fun hh => ?_, fun hh => ?_⟩
        · rw [if_pos hh] at hr
          cases hr1 : serial_rcb env fuel 1 sp.partmid
              (tmpbox_set1 rcbbox sp.dim sp.valuehalf) sp.weighthi (dotnum - sp.set0)
              (partlower + num_parts - sp.partmid) (dindx + sp.set1) (tmpdindx + sp.set1)
              sp.partmid sp.level r0.st with
          | none => rw [hr1] at hr; cases hr
          | some r1 =>
            rw [hr1] at hr
            cases hr
            exact ⟨r1, rfl, rfl⟩
        · rw [if_neg hh] at hr
          cases hr; rfl
  · rw [if_neg hc] at hr
    simp only at hr
    have hneg : ¬ ((sp.partmid - partlower > 0 ∧ sp.set1 ≠ 0) ∧ sp.ierr < 0) :=
      fun hn => hc hn.1
    rw [if_neg hneg] at hr
    refine ⟨{ ierr := sp.ierr, st := sp.st,
              log := [Event.branch_skipped 0 (sp.partmid - partlower) sp.set0] },
      fun hn => absurd hn hc, fun _ => rfl, fun hn => absurd hn.1 hc, fun _ => ?_⟩
    refine ⟨fun hh => ?_, fun hh => ?_⟩
    · rw [if_pos hh] at hr
      cases hr1 : serial_rcb env fuel 1 sp.partmid
          (tmpbox_set1 rcbbox sp.dim sp.valuehalf) sp.weighthi (dotnum - sp.set0)
          (partlower + num_parts - sp.partmid) (dindx + sp.set1) (tmpdindx + sp.set1)
          sp.partmid sp.level sp.st with
      | none => rw [hr1] at hr; cases hr
      | some r1 =>
        rw [hr1] at hr
        cases hr
        exact ⟨r1, rfl, rfl⟩
    · rw [if_neg hh] at hr
      cases hr; rfl

/-- C12 as stated fails: one dot and three partitions with `exEnv`.  After the
first split (boundary 2) the low side has a share of two partitions but no
dot, and its recursive call is skipped. -/
theorem serial_skip_rule_counterexample :
    (serial_rcb exEnv 3 1 0 exBox133 1 1 3 0 1 0 0 exState).map (fun r => r.log) =
      some [Event.find_median 2 0 true, Event.branch_skipped 0 2 0] ∧
    (serial_split exEnv 1 0 exBox133 1 1 3 0 1 0 0 exState).partmid - 0 = 2 ∧
    (2 : Int) ≥ 1 :=
  ⟨by decide, by decide, by decide⟩

/-- C12, amended.  After a split in `serial_rcb` (median search succeeded)
both counters equal the number of 0-marked dots; the recursive call for set 0
is made exactly when its share `partmid - partlower` is positive and `set1 ≠
0` (it holds a dot), and is skipped otherwise; unless that call returned a
negative status, the call for set 1 is made exactly when its share `partlower
+ num_parts - partmid` is positive and `set0 ≠ dotnum` (it holds a dot), and
is skipped otherwise. -/
theorem serial_skip_rule (env : SerialEnv) (fuel : Nat) (old_set root : Int)
    (rcbbox : rcb_box) (weight : ℚ) (dotnum : Nat) (num_parts : Int) (dindx tmpdindx : Nat)
    (partlower : Int) (level : Nat) (s : SerialState) (r : SerialResult) (sp : SplitOut)
    (hsp : sp = serial_split env old_set root rcbbox weight dotnum num_parts dindx tmpdindx
      partlower level s) (h1 : num_parts ≠ 1) (hok : sp.ok = true)
    (hr : serial_rcb env (fuel + 1) old_set root rcbbox weight dotnum num_parts dindx tmpdindx
      partlower level s = some r) :
    (sp.set1 = sp.set0 ∧
      sp.set0 = low_count (env.Zoltan_RB_find_median
        (serial_median_args env rcbbox weight dotnum num_parts dindx partlower level s)).dotmark
        dotnum) ∧
    ∃ r0 : SerialResult,
      (sp.partmid - partlower > 0 ∧ sp.set1 ≠ 0 →
        serial_rcb env fuel 0 sp.partmid (tmpbox_set0 rcbbox sp.dim sp.valuehalf) sp.weightlo
          sp.set0 (sp.partmid - partlower) dindx tmpdindx partlower sp.level sp.st = some r0) ∧
      (¬ (sp.partmid - partlower > 0 ∧ sp.set1 ≠ 0) →
        r0 = { ierr := sp.ierr, st := sp.st,
               log := [Event.branch_skipped 0 (sp.partmid - partlower) sp.set0] }) ∧
      ((sp.partmid - partlower > 0 ∧ sp.set1 ≠ 0) ∧ r0.ierr < 0 →
        r = { r0 with log := sp.log ++ r0.log }) ∧
      (¬ ((sp.partmid - partlower > 0 ∧ sp.set1 ≠ 0) ∧ r0.ierr < 0) →
        (partlower + num_parts - sp.partmid > 0 ∧ sp.set0 ≠ dotnum →
          ∃ r1, serial_rcb env fuel 1 sp.partmid (tmpbox_set1 rcbbox sp.dim sp.valuehalf)
              sp.weighthi (dotnum - sp.set0) (partlower + num_parts - sp.partmid)
              (dindx + sp.set1) (tmpdindx + sp.set1) sp.partmid sp.level r0.st = some r1 ∧
            r = { r1 with log := sp.log ++ r0.log ++ r1.log }) ∧
        (¬ (partlower + num_parts - sp.partmid > 0 ∧ sp.set0 ≠ dotnum) →
          r = { r0 with
                log := sp.log ++ r0.log ++
                  [Event.branch_skipped 1 (partlower + num_parts - sp.partmid)
                    (dotnum - sp.set0)] })) :=
  ⟨⟨(serial_split_sets env _ _ _ _ _ _ _ _ _ _ _ sp hsp hok).2.1,
    (serial_split_sets env _ _ _ _ _ _ _ _ _ _ _ sp hsp hok).1⟩,
   serial_rcb_inv env fuel _ _ _ _ _ _ _ _ _ _ _ r sp hsp h1 hok hr⟩

/-- The run of `exEnv` on three dots and three partitions: the first split
puts two dots low, and both recursive calls are made. -/
theorem serial_skip_rule_witness :
    ((3 : Int) ≠ 1 ∧ (serial_split exEnv 1 0 exBox133 3 3 3 0 3 0 0 exState).ok = true ∧
      (serial_split exEnv 1 0 exBox133 3 3 3 0 3 0 0 exState).set0 = 2) ∧
    ∃ r, serial_rcb exEnv (2 + 1) 1 0 exBox133 3 3 3 0 3 0 0 exState = some r ∧
      (serial_split exEnv 1 0 exBox133 3 3 3 0 3 0 0 exState).set1 =
        (serial_split exEnv 1 0 exBox133 3 3 3 0 3 0 0 exState).set0 := by
  obtain ⟨r, hr⟩ := serial_rcb_total exEnv exEnv_divider (2 + 1) 1 0 exBox133 3 3 3 0 3 0 0
    exState (by decide) (by decide)
  exact ⟨⟨by decide, rfl, by decide⟩, r, hr,
    (serial_skip_rule exEnv 2 1 0 exBox133 3 3 3 0 3 0 0 exState r _ rfl (by decide) rfl
      hr).1.1⟩

/-! ### Degenerate splits -/

theorem low_count_succ (m : Nat → Int) (n : Nat) :
    low_count m (n + 1) = if m n = 0 then low_count m n + 1 else low_count m n := by
  by_cases h : m n = 0 <;> simp [low_count, List.range_succ, List.filter_append, h]

theorem low_count_all (m : Nat → Int) (n : Nat) (h : ∀ i, i < n → m i = 0) :
    low_count m n = n := by
  induction n with
  | zero => rfl
  | succ n ih =>
    rw [low_count_succ, if_pos (h n (by omega)), ih (fun i hi => h i (by omega))]

theorem low_count_none (m : Nat → Int) (n : Nat) (h : ∀ i, i < n → m i ≠ 0) :
    low_count m n = 0 := by
  induction n with
  | zero => rfl
  | succ n ih =>
    rw [low_count_succ, if_neg (h n (by omega)), ih (fun i hi => h i (by omega))]

/-- A split into two partitions that marks every dot on one side: the call
returns `ZOLTAN_OK` and every listed dot gets the partition of that side. -/
theorem one_sided_split (env : SerialEnv) (fuel : Nat) (old_set root : Int)
    (rcbbox : rcb_box) (weight : ℚ) (dotnum : Nat) (dindx tmpdindx : Nat) (partlower : Int)
    (level : Nat) (s : SerialState)
    (hpm : (env.Zoltan_Divide_Parts 2 partlower).partmid = partlower + 1)
    (hok : (env.Zoltan_RB_find_median
      (serial_median_args env rcbbox weight dotnum 2 dindx partlower level s)).ok = true)
    (hdots : 1 ≤ dotnum) :
    ((∀ i, i < dotnum → (env.Zoltan_RB_find_median
        (serial_median_args env rcbbox weight dotnum 2 dindx partlower level s)).dotmark i = 0) →
      ∃ r, serial_rcb env (fuel + 2) old_set root rcbbox weight dotnum 2 dindx tmpdindx
          partlower level s = some r ∧ r.ierr = ZOLTAN_OK ∧
        ∀ i, i < dotnum → (r.st.dotpt (s.dindx (dindx + i))).Part = partlower) ∧
    ((∀ i, i < dotnum → (env.Zoltan_RB_find_median
        (serial_median_args env rcbbox weight dotnum 2 dindx partlower level s)).dotmark i ≠ 0) →
      ∃ r, serial_rcb env (fuel + 2) old_set root rcbbox weight dotnum 2 dindx tmpdindx
          partlower level s = some r ∧ r.ierr = ZOLTAN_OK ∧
        ∀ i, i < dotnum → (r.st.dotpt (s.dindx (dindx + i))).Part = partlower + 1) := by
  have h21 : (2 : Int) ≠ 1 := by decide
  obtain ⟨sp, hsp⟩ : ∃ sp, sp = serial_split env old_set root rcbbox weight dotnum 2 dindx
      tmpdindx partlower level s := ⟨_, rfl⟩
  have hok2 : sp.ok = true := by rw [hsp, serial_split_ok]; exact hok
  have hokf : ¬ sp.ok = false := by rw [hok2]; simp
  obtain ⟨hs0, hs1, _, _⟩ := serial_split_sets env _ _ _ _ _ _ _ _ _ _ _ sp hsp hok2
  have hd := serial_split_dindx env _ _ _ _ _ _ _ _ _ _ _ sp hsp
  have hpart : sp.partmid = partlower + 1 := by rw [hsp, serial_split_partmid, hpm]
  have hdot : sp.st.dotpt = s.dotpt := by rw [hsp, serial_split_dotpt]
  have inslice : ∀ i, i < dotnum → s.dindx (dindx + i) ∈ slice sp.st.dindx dindx dotnum :=
    fun i hi => (hd.2.2.1.mem_iff).mpr ((mem_slice _ _ _ _).mpr ⟨i, hi, rfl⟩)
  have e1 : sp.partmid - partlower = 1 := by omega
  have e2 : partlower + 2 - sp.partmid = 1 := by omega
  constructor
  · intro hall
    have hset0 : sp.set0 = dotnum := by rw [hs0]; exact low_count_all _ _ hall
    have hc : sp.partmid - partlower > 0 ∧ sp.set1 ≠ 0 := ⟨by omega, by omega⟩
    rw [serial_rcb, if_neg h21]
    simp only
    rw [← hsp, if_neg hokf, if_pos hc, e1, serial_rcb, if_pos rfl]
    simp only
    rw [if_neg (by simp [ZOLTAN_OK]), if_neg (fun h => h.2 hset0)]
    refine ⟨_, rfl, rfl, fun i hi => ?_⟩
    simp only
    rw [assign_parts_apply, hset0, if_pos (inslice i hi)]
  · intro hnone
    have hset0 : sp.set0 = 0 := by rw [hs0]; exact low_count_none _ _ hnone
    have hc : ¬ (sp.partmid - partlower > 0 ∧ sp.set1 ≠ 0) := fun h => h.2 (by omega)
    have hh : partlower + 2 - sp.partmid > 0 ∧ sp.set0 ≠ dotnum := ⟨by omega, by omega⟩
    rw [serial_rcb, if_neg h21]
    simp only
    rw [← hsp, if_neg hokf, if_neg hc]
    simp only
    rw [if_neg (fun h => hc h.1), if_pos hh, e2, serial_rcb, if_pos rfl]
    refine ⟨_, rfl, rfl, fun i hi => ?_⟩
    simp only
    have hs1z : sp.set1 = 0 := by omega
    rw [assign_parts_apply, hs1z, hset0, Nat.add_zero, Nat.sub_zero, if_pos (inslice i hi), hpart]

theorem fill_coord_fst (dotpt : Nat → Dot_Struct) (dx : Nat → Nat) (dindx n : Nat) (dim : Int)
    (cw : (Nat → ℚ) × (Nat → ℚ)) :
    ∀ i : Nat, i < n → (fill_coord dotpt dx dindx n dim cw).1 i = (dotpt (dx (dindx + i))).X dim := by
  induction n with
  | zero => intro i hi; exact absurd hi (Nat.not_lt_zero i)
  | succ n ih =>
    intro i hi
    have e : fill_coord dotpt dx dindx (n + 1) dim cw =
        (Function.update (fill_coord dotpt dx dindx n dim cw).1 n
            ((dotpt (dx (dindx + n))).X dim),
          Function.update (fill_coord dotpt dx dindx n dim cw).2 n
            ((dotpt (dx (dindx + n))).Weight 0)) := by
      simp [fill_coord, List.range_succ, List.foldl_append]
    rw [e]
    by_cases hin : i = n
    · subst hin
      simp only [Function.update_same]
    · simp only [Function.update_noteq hin]
      exact ih i (by omega)

/-- The median search of `exEnvTies` on coincident dots marks every dot low. -/
theorem exEnvTies_marks (n : Nat) (hn : 1 ≤ n) (i : Nat) (hi : i < n) :
    (exEnvTies.Zoltan_RB_find_median
      (serial_median_args exEnvTies exBoxTies n n 2 0 0 0 exStateTies)).dotmark i = 0 := by
  have hc : ∀ k : Nat, k < n →
      (serial_median_args exEnvTies exBoxTies n n 2 0 0 0 exStateTies).coord k =
        (exStateTies.dotpt 0).X
          (cut_dimension exEnvTies.lock_direction exStateTies.treept
            (exEnvTies.Zoltan_Divide_Parts 2 0).partmid exEnvTies.preset_dir exEnvTies.dim_spec
            0 exBoxTies).1 := by
    intro k hk
    simp only [serial_median_args]
    rw [fill_coord_fst _ _ _ _ _ _ k hk]
    rfl
  have hd : (serial_median_args exEnvTies exBoxTies n n 2 0 0 0 exStateTies).dotnum = n := rfl
  show (if (serial_median_args exEnvTies exBoxTies n n 2 0 0 0 exStateTies).coord i ≤
      (serial_median_args exEnvTies exBoxTies n n 2 0 0 0 exStateTies).coord
        (((serial_median_args exEnvTies exBoxTies n n 2 0 0 0 exStateTies).dotnum - 1) / 2)
      then (0 : Int) else 1) = 0
  rw [hd, hc i hi, hc ((n - 1) / 2) (by omega), if_pos (le_refl _)]

/-- The first split of `exEnvTies` on coincident dots cuts along x at 5. -/
theorem exEnvTies_split (n : Nat) (hn : 1 ≤ n) :
    (serial_split exEnvTies 1 0 exBoxTies n n 2 0 n 0 0 exStateTies).dim = 0 ∧
    (serial_split exEnvTies 1 0 exBoxTies n n 2 0 n 0 0 exStateTies).valuehalf = 5 := by
  have hd : (serial_split exEnvTies 1 0 exBoxTies n n 2 0 n 0 0 exStateTies).dim = 0 := by
    simp only [serial_split]
    split <;> simp [cut_dimension, exEnvTies, exBoxTies]
  refine ⟨hd, ?_⟩
  have hv : (serial_split exEnvTies 1 0 exBoxTies n n 2 0 n 0 0 exStateTies).valuehalf =
      (serial_median_args exEnvTies exBoxTies n n 2 0 0 0 exStateTies).coord ((n - 1) / 2) := by
    simp only [serial_split]
    split <;> rfl
  rw [hv]
  simp only [serial_median_args]
  rw [fill_coord_fst _ _ _ _ _ _ _ (by omega)]
  simp [cut_dimension, exEnvTies, exBoxTies, exStateTies]

/-- C13 as stated fails.  Coincident dots at `(5, 0, 0)`, two partitions,
rectilinear tie-breaking on, with the median search of `exEnvTies`: the cut is
along x at 5, every dot is tied at the cut and the dots are marked low
together.  With one dot, and with four dots, the bisection returns, every dot
gets partition 0, partition 1 stays empty, and the status returned is
`ZOLTAN_OK`. -/
theorem degenerate_split_counterexample :
    (exEnvTies.rectilinear_blocks = 1 ∧
      (∀ i : Nat, (exStateTies.dotpt i).X 0 = 5 ∧ (exStateTies.dotpt i).X 1 = 0 ∧
        (exStateTies.dotpt i).X 2 = 0) ∧
      (serial_split exEnvTies 1 0 exBoxTies 4 4 2 0 4 0 0 exStateTies).dim = 0 ∧
      (serial_split exEnvTies 1 0 exBoxTies 4 4 2 0 4 0 0 exStateTies).valuehalf = 5) ∧
    (∃ r, serial_rcb exEnvTies 2 1 0 exBoxTies 1 1 2 0 1 0 0 exStateTies = some r ∧
      r.ierr = ZOLTAN_OK ∧
      ∀ i : Nat, i < 1 → (r.st.dotpt (exStateTies.dindx (0 + i))).Part = 0) ∧
    ∃ r, serial_rcb exEnvTies 2 1 0 exBoxTies 4 4 2 0 4 0 0 exStateTies = some r ∧
      r.ierr = ZOLTAN_OK ∧
      ∀ i : Nat, i < 4 → (r.st.dotpt (exStateTies.dindx (0 + i))).Part = 0 := by
  refine ⟨⟨rfl, fun i => ⟨rfl, rfl, rfl⟩, exEnvTies_split 4 (by decide)⟩, ?_, ?_⟩
  · exact (one_sided_split exEnvTies 0 1 0 exBoxTies 1 1 0 1 0 0 exStateTies (by decide) rfl
      (by decide)).1 (fun i hi => exEnvTies_marks 1 (by decide) i hi)
  · exact (one_sided_split exEnvTies 0 1 0 exBoxTies 4 4 0 4 0 0 exStateTies (by decide) rfl
      (by decide)).1 (fun i hi => exEnvTies_marks 4 (by decide) i hi)

/-- C13, amended.  When a 2-partition split (boundary `partlower + 1`, median
search succeeded, at least one dot) marks every dot on the same side, the
bisection completes without failing, all listed dots are assigned to the
partition of that side (`partlower` if all are marked 0, `partlower + 1` if
none is), and the status returned by `serial_rcb` is `ZOLTAN_OK`: the empty
partition is not reported through the status. -/
theorem degenerate_split_status (env : SerialEnv) (fuel : Nat) (old_set root : Int)
    (rcbbox : rcb_box) (weight : ℚ) (dotnum : Nat) (dindx tmpdindx : Nat) (partlower : Int)
    (level : Nat) (s : SerialState)
    (hpm : (env.Zoltan_Divide_Parts 2 partlower).partmid = partlower + 1)
    (hok : (env.Zoltan_RB_find_median
      (serial_median_args env rcbbox weight dotnum 2 dindx partlower level s)).ok = true)
    (hdots : 1 ≤ dotnum) :
    ((∀ i, i < dotnum → (env.Zoltan_RB_find_median
        (serial_median_args env rcbbox weight dotnum 2 dindx partlower level s)).dotmark i = 0) →
      ∃ r, serial_rcb env (fuel + 2) old_set root rcbbox weight dotnum 2 dindx tmpdindx
          partlower level s = some r ∧ r.ierr = ZOLTAN_OK ∧
        ∀ i, i < dotnum → (r.st.dotpt (s.dindx (dindx + i))).Part = partlower) ∧
    ((∀ i, i < dotnum → (env.Zoltan_RB_find_median
        (serial_median_args env rcbbox weight dotnum 2 dindx partlower level s)).dotmark i ≠ 0) →
      ∃ r, serial_rcb env (fuel + 2) old_set root rcbbox weight dotnum 2 dindx tmpdindx
          partlower level s = some r ∧ r.ierr = ZOLTAN_OK ∧
        ∀ i, i < dotnum → (r.st.dotpt (s.dindx (dindx + i))).Part = partlower + 1) :=
  one_sided_split env fuel old_set root rcbbox weight dotnum dindx tmpdindx partlower level s
    hpm hok hdots

/-- The four coincident dots of `exStateTies`, all marked low by `exEnvTies`. -/
theorem degenerate_split_status_witness :
    ((exEnvTies.Zoltan_Divide_Parts 2 0).partmid = 0 + 1 ∧
      (exEnvTies.Zoltan_RB_find_median
        (serial_median_args exEnvTies exBoxTies 4 4 2 0 0 0 exStateTies)).ok = true ∧
      1 ≤ 4 ∧
      ∀ i, i < 4 → (exEnvTies.Zoltan_RB_find_median
        (serial_median_args exEnvTies exBoxTies 4 4 2 0 0 0 exStateTies)).dotmark i = 0) ∧
    ∃ r, serial_rcb exEnvTies (0 + 2) 1 0 exBoxTies 4 4 2 0 4 0 0 exStateTies = some r ∧
      r.ierr = ZOLTAN_OK ∧
      ∀ i, i < 4 → (r.st.dotpt (exStateTies.dindx (0 + i))).Part = 0 :=
  ⟨⟨by decide, rfl, by decide, fun i hi => exEnvTies_marks 4 (by decide) i hi⟩,
   (degenerate_split_status exEnvTies 0 1 0 exBoxTies 4 4 0 4 0 0 exStateTies (by decide) rfl
      (by decide)).1 (fun i hi => exEnvTies_marks 4 (by decide) i hi)⟩

/-! ### Failure of the median search -/

theorem serial_split_log_eq (env : SerialEnv) (old_set root : Int) (rcbbox : rcb_box)
    (weight : ℚ) (dotnum : Nat) (num_parts : Int) (dindx tmpdindx : Nat) (partlower : Int)
    (level : Nat) (s : SerialState) (sp : SplitOut)
    (hsp : sp = serial_split env old_set root rcbbox weight dotnum num_parts dindx tmpdindx
      partlower level s) :
    sp.log = serial_split_log env level sp.partmid sp.first_guess sp.ok := by
  subst hsp
  simp only [serial_split]
  split <;> rfl

theorem serial_split_log_failure (env : SerialEnv) (level : Nat) (partmid first_guess : Int)
    (ok : Bool) :
    (serial_split_log env level partmid first_guess ok).any Event.isMedianFailure = !ok ∧
    ∃ pre, serial_split_log env level partmid first_guess ok =
        pre ++ [Event.find_median partmid first_guess ok] ∧
      pre.any Event.isMedianFailure = false := by
  unfold serial_split_log
  split
  · exact ⟨by simp [Event.isMedianFailure], _, rfl, by simp [Event.isMedianFailure]⟩
  · exact ⟨by simp [Event.isMedianFailure], _, rfl, by simp⟩

theorem serial_split_failed_state (env : SerialEnv) (old_set root : Int) (rcbbox : rcb_box)
    (weight : ℚ) (dotnum : Nat) (num_parts : Int) (dindx tmpdindx : Nat) (partlower : Int)
    (level : Nat) (s : SerialState) (sp : SplitOut)
    (hsp : sp = serial_split env old_set root rcbbox weight dotnum num_parts dindx tmpdindx
      partlower level s) (hok : sp.ok = false) :
    sp.st.treept = s.treept ∧ sp.st.dindx = s.dindx ∧ sp.st.tmpdindx = s.tmpdindx ∧
    sp.st.dotpt = s.dotpt ∧ sp.ierr = ZOLTAN_FATAL := by
  subst hsp
  revert hok
  simp only [serial_split]
  split
  · intro h; cases h
  · intro _; exact ⟨rfl, rfl, rfl, rfl, rfl⟩

/-- A run whose log holds a failed median search returns `ZOLTAN_FATAL`, and
the failed search is the last event of its log and the only failed one. -/
theorem run_failure (env : SerialEnv)
    {old_set root : Int} {rcbbox : rcb_box} {weight : ℚ}
    {dotnum : Nat} {num_parts : Int} {dindx tmpdindx : Nat} {partlower : Int} {level : Nat}
    {s : SerialState} {r : SerialResult}
    (h : Run env old_set root rcbbox weight dotnum num_parts dindx tmpdindx partlower level s r)
    (hfail : r.log.any Event.isMedianFailure = true) :
    r.ierr = ZOLTAN_FATAL ∧
    ∃ pre m fg, r.log = pre ++ [Event.find_median m fg false] ∧
      pre.any Event.isMedianFailure = false := by
  induction h with
  | leaf old_set root rcbbox weight dotnum dindx tmpdindx partlower level s =>
    simp at hfail
  | fail old_set root rcbbox weight dotnum num_parts dindx tmpdindx partlower level s sp hsp
      h1 hok =>
    refine ⟨rfl, ?_⟩
    have hlog := serial_split_log_eq env _ _ _ _ _ _ _ _ _ _ _ sp hsp
    obtain ⟨_, pre, hpre, hclean⟩ := serial_split_log_failure env level sp.partmid
      sp.first_guess sp.ok
    rw [hok] at hpre
    exact ⟨pre, sp.partmid, sp.first_guess, by rw [← hpre, ← hok]; exact hlog, hclean⟩
  | abort old_set root rcbbox weight dotnum num_parts dindx tmpdindx partlower level s sp r0
      hsp h1 hok hc hrun hneg ih =>
    have hlog := serial_split_log_eq env _ _ _ _ _ _ _ _ _ _ _ sp hsp
    have hsplit : sp.log.any Event.isMedianFailure = false := by
      rw [hlog, (serial_split_log_failure env level sp.partmid sp.first_guess sp.ok).1, hok]
      rfl
    have hf0 : r0.log.any Event.isMedianFailure = true := by
      have : (sp.log ++ r0.log).any Event.isMedianFailure = true := hfail
      rw [List.any_append, hsplit] at this
      simpa using this
    obtain ⟨e, pre, m, fg, hpre, hclean⟩ := ih hf0
    refine ⟨e, sp.log ++ pre, m, fg, ?_, ?_⟩
    · show sp.log ++ r0.log = _
      rw [hpre, List.append_assoc]
    · rw [List.any_append, hsplit, hclean]; rfl
  | node old_set root rcbbox weight dotnum num_parts dindx tmpdindx partlower level s sp r0 r1
      hsp h1 hok hl hl0 hcont hh hh0 ihl ihh =>
    have hlog := serial_split_log_eq env _ _ _ _ _ _ _ _ _ _ _ sp hsp
    have hsplit : sp.log.any Event.isMedianFailure = false := by
      rw [hlog, (serial_split_log_failure env level sp.partmid sp.first_guess sp.ok).1, hok]
      rfl
    have hr0 : r0.log.any Event.isMedianFailure = false := by
      by_cases hc : sp.partmid - partlower > 0 ∧ sp.set1 ≠ 0
      · by_contra hne
        have hf : r0.log.any Event.isMedianFailure = true := by simpa using hne
        have := (ihl hc hf).1
        exact hcont ⟨hc, by rw [this]; decide⟩
      · rw [hl0 hc]; rfl
    have hf1 : r1.log.any Event.isMedianFailure = true := by
      have : (sp.log ++ r0.log ++ r1.log).any Event.isMedianFailure = true := hfail
      rw [List.any_append, List.any_append, hsplit, hr0] at this
      simpa using this
    have hc : partlower + num_parts - sp.partmid > 0 ∧ sp.set0 ≠ dotnum := by
      by_contra hn
      rw [hh0 hn] at hf1
      simp [Event.isMedianFailure] at hf1
    obtain ⟨e, pre, m, fg, hpre, hclean⟩ := ihh hc hf1
    refine ⟨e, sp.log ++ r0.log ++ pre, m, fg, ?_, ?_⟩
    · show sp.log ++ r0.log ++ r1.log = _
      rw [hpre, List.append_assoc, List.append_assoc, List.append_assoc]
    · rw [List.any_append, List.any_append, hsplit, hr0, hclean]; rfl

theorem serial_rcb_failed_split (env : SerialEnv) (fuel : Nat) (old_set root : Int)
    (rcbbox : rcb_box) (weight : ℚ) (dotnum : Nat) (num_parts : Int) (dindx tmpdindx : Nat)
    (partlower : Int) (level : Nat) (s : SerialState) (h1 : num_parts ≠ 1)
    (hok : (serial_split env old_set root rcbbox weight dotnum num_parts dindx tmpdindx
      partlower level s).ok = false) :
    serial_rcb env (fuel + 1) old_set root rcbbox weight dotnum num_parts dindx tmpdindx
      partlower level s =
      some { ierr := ZOLTAN_FATAL,
             st := (serial_split env old_set root rcbbox weight dotnum num_parts dindx tmpdindx
               partlower level s).st,
             log := (serial_split env old_set root rcbbox weight dotnum num_parts dindx tmpdindx
               partlower level s).log } := by
  rw [serial_rcb, if_neg h1]
  simp only
  rw [if_pos hok]

theorem exEnvFail_divider : DividerOK exEnvFail := by
  intro n l hn
  simp only [exEnvFail, exEnv]
  omega

/-- C14. Median failure is fatal with no retry.  (1) A call of `serial_rcb`
whose median search fails returns `ZOLTAN_FATAL` (a negative status) with the
tree, the index arrays and the dots as they were on entry: no node is
recorded for the failed split.  (2) Every call of `serial_rcb` in which some
median search failed returns `ZOLTAN_FATAL`, and the failed search is the last
event of the run and its only failure: no median search, read of the preset
sequence or branch follows it, in particular the high branch is not attempted
after a failure in the low branch. -/
theorem median_failure_fatal (env : SerialEnv) (fuel : Nat) (old_set root : Int)
    (rcbbox : rcb_box) (weight : ℚ) (dotnum : Nat) (num_parts : Int) (dindx tmpdindx : Nat)
    (partlower : Int) (level : Nat) (s : SerialState) :
    (num_parts ≠ 1 →
      (env.Zoltan_RB_find_median
        (serial_median_args env rcbbox weight dotnum num_parts dindx partlower level s)).ok
        = false →
      ∃ r, serial_rcb env (fuel + 1) old_set root rcbbox weight dotnum num_parts dindx tmpdindx
          partlower level s = some r ∧
        r.ierr = ZOLTAN_FATAL ∧ r.st.treept = s.treept ∧ r.st.dindx = s.dindx ∧
        r.st.dotpt = s.dotpt ∧
        ∃ pre m fg, r.log = pre ++ [Event.find_median m fg false] ∧
          pre.any Event.isMedianFailure = false) ∧
    (∀ r, serial_rcb env fuel old_set root rcbbox weight dotnum num_parts dindx tmpdindx
        partlower level s = some r →
      r.log.any Event.isMedianFailure = true →
      r.ierr = ZOLTAN_FATAL ∧
      ∃ pre m fg, r.log = pre ++ [Event.find_median m fg false] ∧
        pre.any Event.isMedianFailure = false) ∧
    ZOLTAN_FATAL < 0 := by
  refine ⟨fun h1 hfail => ?_, fun r hr hf => ?_, by decide⟩
  · have hok : (serial_split env old_set root rcbbox weight dotnum num_parts dindx tmpdindx
        partlower level s).ok = false := by rw [serial_split_ok]; exact hfail
    have hst := serial_split_failed_state env _ _ _ _ _ _ _ _ _ _ _ _ rfl hok
    have hlog := serial_split_log_eq env old_set root rcbbox weight dotnum num_parts dindx
      tmpdindx partlower level s _ rfl
    obtain ⟨_, pre, hpre, hclean⟩ := serial_split_log_failure env level
      (serial_split env old_set root rcbbox weight dotnum num_parts dindx tmpdindx
        partlower level s).partmid
      (serial_split env old_set root rcbbox weight dotnum num_parts dindx tmpdindx
        partlower level s).first_guess
      (serial_split env old_set root rcbbox weight dotnum num_parts dindx tmpdindx
        partlower level s).ok
    rw [← hlog] at hpre
    rw [hok] at hpre
    exact ⟨_, serial_rcb_failed_split env fuel _ _ _ _ _ _ _ _ _ _ s h1 hok, rfl, hst.1,
      hst.2.1, hst.2.2.2.1, pre,
      (serial_split env old_set root rcbbox weight dotnum num_parts dindx tmpdindx
        partlower level s).partmid,
      (serial_split env old_set root rcbbox weight dotnum num_parts dindx tmpdindx
        partlower level s).first_guess, hpre, hclean⟩
  · exact run_failure env (serial_rcb_run env fuel _ _ _ _ _ _ _ _ _ _ _ _ hr) hf

/-- Two dots and four partitions with `exEnvFail`: the first split succeeds,
the median search of the low branch (one dot) fails; the run returns
`ZOLTAN_FATAL`, node 2 is recorded, node 1 is not, and nothing follows the
failed search (the high branch is not attempted). -/
theorem median_failure_fatal_witness :
    (serial_rcb exEnvFail 4 1 0 exBox133 2 2 4 0 2 0 0 exState).map
      (fun r => (r.ierr, r.log, (r.st.treept 2).parent, (r.st.treept 1).dim,
        (r.st.treept 3).dim)) =
      some (ZOLTAN_FATAL, [Event.find_median 2 0 true, Event.find_median 1 0 false], -1, -1,
        -1) ∧
    ∃ r, serial_rcb exEnvFail 4 1 0 exBox133 2 2 4 0 2 0 0 exState = some r ∧
      r.log.any Event.isMedianFailure = true ∧ r.ierr = ZOLTAN_FATAL := by
  refine ⟨by decide, ?_⟩
  obtain ⟨r, hr⟩ := serial_rcb_total exEnvFail exEnvFail_divider 4 1 0 exBox133 2 2 4 0 2 0 0
    exState (by decide) (by decide)
  have hlog : r.log.any Event.isMedianFailure = true := by
    have : (serial_rcb exEnvFail 4 1 0 exBox133 2 2 4 0 2 0 0 exState).map
        (fun r => r.log.any Event.isMedianFailure) = some true := by decide
    rw [hr] at this
    simpa using this
  exact ⟨r, hr, hlog,
    ((median_failure_fatal exEnvFail 4 1 0 exBox133 2 2 4 0 2 0 0 exState).2.1 r hr hlog).1⟩

/-! ### Out-of-range preset code -/

/-- What `set_preset_dir` returns when its allocation succeeds, in terms of
the outcome `c` of its counting loop. -/
theorem set_preset_dir_eq (nparts preset_dir : Int) (rcbbox : rcb_box)
    (dim_spec_in : Option (Nat → Int)) (block : Nat → Int) (c : PresetCount)
    (hc : preset_count_loop nparts.toNat (preset_count_init nparts rcbbox) = some c) :
    set_preset_dir nparts preset_dir rcbbox dim_spec_in (some block) =
      some
        (if c.level > 0 then
          { ierr := if preset_dir < 0 ∨ preset_dir > 6 then ZOLTAN_WARN else ZOLTAN_OK,
            dim_spec := some ((List.range c.level).foldl
              (preset_fill_step (if preset_dir < 0 ∨ preset_dir > 6 then 1 else preset_dir))
              { j := 0, dim := 0, ix := c.ix, dim_spec := block }).dim_spec,
            level := c.level }
        else
          { ierr := if preset_dir < 0 ∨ preset_dir > 6 then ZOLTAN_WARN else ZOLTAN_OK,
            dim_spec := dim_spec_in, level := 0 }) := by
  unfold set_preset_dir
  simp only [hc]
  split <;> rfl

theorem preset_out_of_range_same (c nparts : Int) (rcbbox : rcb_box)
    (dim_spec_in : Option (Nat → Int)) (block : Nat → Int) (ierr0 : Int)
    (hc : c < 0 ∨ c > 6) :
    ∃ r r1, set_preset_dir nparts c rcbbox dim_spec_in (some block) = some r ∧
      set_preset_dir nparts 1 rcbbox dim_spec_in (some block) = some r1 ∧
      r.ierr = ZOLTAN_WARN ∧ r1.ierr = ZOLTAN_OK ∧ r.dim_spec = r1.dim_spec ∧
      r.level = r1.level ∧ ¬ (r.ierr < 0) ∧
      rcb_fn_preset ierr0 nparts c rcbbox (some block) =
        (set_preset_dir nparts c rcbbox none (some block)).map
          (fun r => (ZOLTAN_WARN, r.dim_spec, true)) := by
  have hfuel : (preset_count_init nparts rcbbox).tmp_nparts ≤ (nparts.toNat : Int) := by
    simp only [preset_count_init]
    omega
  obtain ⟨cnt, h1, _⟩ := preset_count_loop_spec nparts.toNat _ hfuel
  have h1c : ¬ ((1 : Int) < 0 ∨ (1 : Int) > 6) := by omega
  have hne : c ≠ 0 := by omega
  refine ⟨_, _, set_preset_dir_eq nparts c rcbbox dim_spec_in block cnt h1,
    set_preset_dir_eq nparts 1 rcbbox dim_spec_in block cnt h1, ?_, ?_, ?_, ?_, ?_, ?_⟩
  · split <;> simp [hc]
  · split <;> simp
  · rw [if_pos hc, if_neg h1c]
    split <;> rfl
  · split <;> rfl
  · have : (if cnt.level > 0 then
          ({ ierr := if c < 0 ∨ c > 6 then ZOLTAN_WARN else ZOLTAN_OK,
             dim_spec := some ((List.range cnt.level).foldl
               (preset_fill_step (if c < 0 ∨ c > 6 then 1 else c))
               { j := 0, dim := 0, ix := cnt.ix, dim_spec := block }).dim_spec,
             level := cnt.level } : PresetResult)
        else
          { ierr := if c < 0 ∨ c > 6 then ZOLTAN_WARN else ZOLTAN_OK,
            dim_spec := dim_spec_in, level := 0 }).ierr = ZOLTAN_WARN := by
      split <;> simp [hc]
    rw [this]
    decide
  · unfold rcb_fn_preset
    rw [if_pos hne, set_preset_dir_eq nparts c rcbbox none block cnt h1]
    simp only [Option.map_some']
    split <;> simp [hc, ZOLTAN_WARN]

/-- C15. Out-of-range preset code.  For a code `c < 0` or `c > 6`, when the
allocation succeeds `set_preset_dir` returns `ZOLTAN_WARN`, which is not
negative, and leaves exactly the sequence (and number of entries) it leaves
for code 1 on the same box and partition count, where it returns `ZOLTAN_OK`;
the lines of `rcb_fn` that call it then go on (no jump to `End`) with the
warning status and that sequence. -/
theorem preset_out_of_range (c nparts : Int) (rcbbox : rcb_box)
    (dim_spec_in : Option (Nat → Int)) (block : Nat → Int) (ierr0 : Int)
    (hc : c < 0 ∨ c > 6) :
    ∃ r r1, set_preset_dir nparts c rcbbox dim_spec_in (some block) = some r ∧
      set_preset_dir nparts 1 rcbbox dim_spec_in (some block) = some r1 ∧
      r.ierr = ZOLTAN_WARN ∧ r1.ierr = ZOLTAN_OK ∧ r.dim_spec = r1.dim_spec ∧
      r.level = r1.level ∧ ¬ (r.ierr < 0) ∧
      rcb_fn_preset ierr0 nparts c rcbbox (some block) =
        (set_preset_dir nparts c rcbbox none (some block)).map
          (fun r => (ZOLTAN_WARN, r.dim_spec, true)) :=
  preset_out_of_range_same c nparts rcbbox dim_spec_in block ierr0 hc

/-- Code 7 on four partitions and the box `[0,1] x [0,3] x [0,3]`. -/
theorem preset_out_of_range_witness :
    ((7 : Int) < 0 ∨ (7 : Int) > 6) ∧
    ∃ r r1, set_preset_dir 4 7 exBox133 none (some (fun _ => -1)) = some r ∧
      set_preset_dir 4 1 exBox133 none (some (fun _ => -1)) = some r1 ∧
      r.ierr = ZOLTAN_WARN ∧ r1.ierr = ZOLTAN_OK ∧ r.dim_spec = r1.dim_spec ∧
      r.level = r1.level ∧ ¬ (r.ierr < 0) ∧
      rcb_fn_preset 0 4 7 exBox133 (some (fun _ => -1)) =
        (set_preset_dir 4 7 exBox133 none (some (fun _ => -1))).map
          (fun r => (ZOLTAN_WARN, r.dim_spec, true)) :=
  ⟨by decide, preset_out_of_range 7 4 exBox133 none (fun _ => -1) 0 (by decide)⟩

/-! ### Box merge -/

theorem box_merge_step_fst (st : rcb_box × rcb_box) (i : Int) :
    (box_merge_step st i).1 = st.1 := rfl

theorem box_merge_step_lo (st : rcb_box × rcb_box) (i j : Int) :
    (box_merge_step st i).2.lo j = if j = i then min (st.1.lo i) (st.2.lo i) else st.2.lo j := by
  have e : (box_merge_step st i).2.lo =
      if st.1.lo i < st.2.lo i then Function.update st.2.lo i (st.1.lo i) else st.2.lo := by
    unfold box_merge_step
    dsimp only
    split_ifs <;> rfl
  rw [e]
  by_cases h1 : st.1.lo i < st.2.lo i
  · rw [if_pos h1, min_eq_left (le_of_lt h1)]
    by_cases hj : j = i
    · subst hj; rw [Function.update_same, if_pos rfl]
    · rw [Function.update_noteq hj, if_neg hj]
  · rw [if_neg h1, min_eq_right (not_lt.mp h1)]
    by_cases hj : j = i
    · subst hj; rw [if_pos rfl]
    · rw [if_neg hj]

theorem box_merge_step_hi (st : rcb_box × rcb_box) (i j : Int) :
    (box_merge_step st i).2.hi j = if j = i then max (st.1.hi i) (st.2.hi i) else st.2.hi j := by
  have e : (box_merge_step st i).2.hi =
      if st.1.hi i > st.2.hi i then Function.update st.2.hi i (st.1.hi i) else st.2.hi := by
    unfold box_merge_step
    dsimp only
    split_ifs <;> rfl
  rw [e]
  by_cases h1 : st.1.hi i > st.2.hi i
  · rw [if_pos h1, max_eq_left (le_of_lt h1)]
    by_cases hj : j = i
    · subst hj; rw [Function.update_same, if_pos rfl]
    · rw [Function.update_noteq hj, if_neg hj]
  · rw [if_neg h1, max_eq_right (not_lt.mp h1)]
    by_cases hj : j = i
    · subst hj; rw [if_pos rfl]
    · rw [if_neg hj]

/-- The contents of `inout` after `Zoltan_RCB_box_merge`, entry by entry. -/
theorem box_merge_spec (a b : rcb_box) :
    (Zoltan_RCB_box_merge a b).1 = a ∧
    (∀ j : Int, (Zoltan_RCB_box_merge a b).2.lo j =
      if j = 0 ∨ j = 1 ∨ j = 2 then min (a.lo j) (b.lo j) else b.lo j) ∧
    (∀ j : Int, (Zoltan_RCB_box_merge a b).2.hi j =
      if j = 0 ∨ j = 1 ∨ j = 2 then max (a.hi j) (b.hi j) else b.hi j) := by
  unfold Zoltan_RCB_box_merge
  simp only [List.foldl_cons, List.foldl_nil]
  refine ⟨rfl, fun j => ?_, fun j => ?_⟩
  · simp only [box_merge_step_lo, box_merge_step_fst]
    by_cases h0 : j = 0
    · subst h0; simp
    · by_cases h1 : j = 1
      · subst h1; simp
      · by_cases h2 : j = 2
        · subst h2; simp
        · simp [h0, h1, h2]
  · simp only [box_merge_step_hi, box_merge_step_fst]
    by_cases h0 : j = 0
    · subst h0; simp
    · by_cases h1 : j = 1
      · subst h1; simp
      · by_cases h2 : j = 2
        · subst h2; simp
        · simp [h0, h1, h2]

theorem box_merge_axis (a b : rcb_box) (j : Int) (hj : j = 0 ∨ j = 1 ∨ j = 2) :
    (Zoltan_RCB_box_merge a b).2.lo j = min (a.lo j) (b.lo j) ∧
    (Zoltan_RCB_box_merge a b).2.hi j = max (a.hi j) (b.hi j) := by
  obtain ⟨_, h1, h2⟩ := box_merge_spec a b
  rw [h1 j, h2 j, if_pos hj, if_pos hj]
  exact ⟨rfl, rfl⟩

theorem box_merge_encloses (a b : rcb_box) (p : Int → ℚ) :
    (in_box a p → in_box (Zoltan_RCB_box_merge a b).2 p) ∧
    (in_box b p → in_box (Zoltan_RCB_box_merge a b).2 p) := by
  have h0 := box_merge_axis a b 0 (Or.inl rfl)
  have h1 := box_merge_axis a b 1 (Or.inr (Or.inl rfl))
  have h2 := box_merge_axis a b 2 (Or.inr (Or.inr rfl))
  unfold in_box
  rw [h0.1, h0.2, h1.1, h1.2, h2.1, h2.2]
  constructor
  · rintro ⟨⟨a1, a2⟩, ⟨a3, a4⟩, a5, a6⟩
    exact ⟨⟨le_trans (min_le_left _ _) a1, le_trans a2 (le_max_left _ _)⟩,
      ⟨le_trans (min_le_left _ _) a3, le_trans a4 (le_max_left _ _)⟩,
      le_trans (min_le_left _ _) a5, le_trans a6 (le_max_left _ _)⟩
  · rintro ⟨⟨a1, a2⟩, ⟨a3, a4⟩, a5, a6⟩
    exact ⟨⟨le_trans (min_le_right _ _) a1, le_trans a2 (le_max_right _ _)⟩,
      ⟨le_trans (min_le_right _ _) a3, le_trans a4 (le_max_right _ _)⟩,
      le_trans (min_le_right _ _) a5, le_trans a6 (le_max_right _ _)⟩

/-- C16. Box merge result.  `Zoltan_RCB_box_merge` leaves `in` unchanged and
leaves in `inout`, on each of the three axes, the minimum of the two `lo`
values and the maximum of the two `hi` values (entries of other indices are
not touched); the merged box encloses both input boxes. -/
theorem box_merge_result (a b : rcb_box) :
    (Zoltan_RCB_box_merge a b).1 = a ∧
    (∀ j : Int, j = 0 ∨ j = 1 ∨ j = 2 →
      (Zoltan_RCB_box_merge a b).2.lo j = min (a.lo j) (b.lo j) ∧
      (Zoltan_RCB_box_merge a b).2.hi j = max (a.hi j) (b.hi j)) ∧
    (∀ j : Int, ¬ (j = 0 ∨ j = 1 ∨ j = 2) →
      (Zoltan_RCB_box_merge a b).2.lo j = b.lo j ∧
      (Zoltan_RCB_box_merge a b).2.hi j = b.hi j) ∧
    (∀ p, in_box a p → in_box (Zoltan_RCB_box_merge a b).2 p) ∧
    (∀ p, in_box b p → in_box (Zoltan_RCB_box_merge a b).2 p) := by
  refine ⟨(box_merge_spec a b).1, box_merge_axis a b, fun j hj => ?_,
    fun p => (box_merge_encloses a b p).1, fun p => (box_merge_encloses a b p).2⟩
  obtain ⟨_, h1, h2⟩ := box_merge_spec a b
  rw [h1 j, h2 j, if_neg hj, if_neg hj]
  exact ⟨rfl, rfl⟩

/-- Merging `[0,1] x [0,3] x [0,3]` into `[0,1] x [0,1] x [0,4]`. -/
theorem box_merge_result_witness :
    ((1 : Int) = 0 ∨ (1 : Int) = 1 ∨ (1 : Int) = 2) ∧
    (Zoltan_RCB_box_merge exBox133 exBox114).2.hi 1 = max (exBox133.hi 1) (exBox114.hi 1) ∧
    max (exBox133.hi 1) (exBox114.hi 1) = 3 :=
  ⟨by decide, ((box_merge_result exBox133 exBox114).2.1 1 (by decide)).2,
   by norm_num [exBox133, exBox114]⟩

theorem merge_all_axis (bs : List rcb_box) (j : Int) (hj : j = 0 ∨ j = 1 ∨ j = 2) :
    ∀ b0 : rcb_box,
      (merge_all bs b0).lo j = bs.foldl (fun m x => min (x.lo j) m) (b0.lo j) ∧
      (merge_all bs b0).hi j = bs.foldl (fun m x => max (x.hi j) m) (b0.hi j) := by
  induction bs with
  | nil => intro b0; exact ⟨rfl, rfl⟩
  | cons x xs ih =>
    intro b0
    have h := ih (Zoltan_RCB_box_merge x b0).2
    rw [(box_merge_axis x b0 j hj).1, (box_merge_axis x b0 j hj).2] at h
    exact h

theorem merge_all_perm (l1 l2 : List rcb_box) (b0 : rcb_box) (h : l1.Perm l2) :
    same_box (merge_all l1 b0) (merge_all l2 b0) := by
  have key : ∀ j : Int, j = 0 ∨ j = 1 ∨ j = 2 →
      (merge_all l1 b0).lo j = (merge_all l2 b0).lo j ∧
      (merge_all l1 b0).hi j = (merge_all l2 b0).hi j := by
    intro j hj
    rw [(merge_all_axis l1 j hj b0).1, (merge_all_axis l2 j hj b0).1,
      (merge_all_axis l1 j hj b0).2, (merge_all_axis l2 j hj b0).2]
    constructor
    · exact h.foldl_eq' (fun x _ y _ z => min_left_comm _ _ _) _
    · exact h.foldl_eq' (fun x _ y _ z => max_left_comm _ _ _) _
  exact ⟨⟨(key 0 (Or.inl rfl)).1, (key 1 (Or.inr (Or.inl rfl))).1,
      (key 2 (Or.inr (Or.inr rfl))).1⟩,
    ⟨(key 0 (Or.inl rfl)).2, (key 1 (Or.inr (Or.inl rfl))).2,
      (key 2 (Or.inr (Or.inr rfl))).2⟩⟩

theorem same_box_of_axes (a b : rcb_box)
    (h : ∀ j : Int, j = 0 ∨ j = 1 ∨ j = 2 → a.lo j = b.lo j ∧ a.hi j = b.hi j) :
    same_box a b :=
  ⟨⟨(h 0 (Or.inl rfl)).1, (h 1 (Or.inr (Or.inl rfl))).1, (h 2 (Or.inr (Or.inr rfl))).1⟩,
    ⟨(h 0 (Or.inl rfl)).2, (h 1 (Or.inr (Or.inl rfl))).2, (h 2 (Or.inr (Or.inr rfl))).2⟩⟩

/-- C17. Box merge is a commutative and associative reduction.  On the six
entries of a box: merging `a` into `b` gives the same box as merging `b` into
`a`; merging `a` into (`b` merged into `c`) gives the same box as merging
(`a` merged into `b`) into `c`; and reducing the boxes of a list of
participants into `inout` gives the same box for every order of the list. -/
theorem box_merge_comm_assoc (a b c : rcb_box) :
    same_box (Zoltan_RCB_box_merge a b).2 (Zoltan_RCB_box_merge b a).2 ∧
    same_box (Zoltan_RCB_box_merge a (Zoltan_RCB_box_merge b c).2).2
      (Zoltan_RCB_box_merge (Zoltan_RCB_box_merge a b).2 c).2 ∧
    (∀ (l1 l2 : List rcb_box) (b0 : rcb_box), l1.Perm l2 →
      same_box (merge_all l1 b0) (merge_all l2 b0)) := by
  refine ⟨same_box_of_axes _ _ (fun j hj => ?_), same_box_of_axes _ _ (fun j hj => ?_),
    merge_all_perm⟩
  · rw [(box_merge_axis a b j hj).1, (box_merge_axis a b j hj).2,
      (box_merge_axis b a j hj).1, (box_merge_axis b a j hj).2]
    exact ⟨min_comm _ _, max_comm _ _⟩
  · rw [(box_merge_axis a _ j hj).1, (box_merge_axis a _ j hj).2,
      (box_merge_axis b c j hj).1, (box_merge_axis b c j hj).2,
      (box_merge_axis _ c j hj).1, (box_merge_axis _ c j hj).2,
      (box_merge_axis a b j hj).1, (box_merge_axis a b j hj).2]
    exact ⟨(min_assoc _ _ _).symm, (max_assoc _ _ _).symm⟩

/-- Two participants in either order. -/
theorem box_merge_comm_assoc_witness :
    [exBox133, exBox114].Perm [exBox114, exBox133] ∧
    same_box (merge_all [exBox133, exBox114] boxtmp_init)
      (merge_all [exBox114, exBox133] boxtmp_init) :=
  ⟨List.Perm.swap _ _ _,
   (box_merge_comm_assoc exBox133 exBox114 boxtmp_init).2.2 _ _ boxtmp_init
     (List.Perm.swap _ _ _)⟩

/-! ### The local extent and the empty box -/

theorem extent_dot_eq (X : Int → ℚ) (b : rcb_box) :
    ([0, 1, 2] : List Int).foldl (extent_axis_step X) b =
      (Zoltan_RCB_box_merge { lo := X, hi := X } b).2 := rfl

theorem local_extent_zero (dotpt : Nat → Dot_Struct) :
    local_extent dotpt 0 = boxtmp_init := rfl

theorem local_extent_succ (dotpt : Nat → Dot_Struct) (n : Nat) :
    local_extent dotpt (n + 1) =
      (Zoltan_RCB_box_merge { lo := (dotpt n).X, hi := (dotpt n).X } (local_extent dotpt n)).2 := by
  unfold local_extent
  rw [List.range_succ, List.foldl_append, List.foldl_cons, List.foldl_nil, extent_dot_eq]

/-- The invariant of the local-extent loop on one axis. -/
theorem local_extent_inv (dotpt : Nat → Dot_Struct) (j : Int) (hj : j = 0 ∨ j = 1 ∨ j = 2) :
    ∀ n : Nat,
      (local_extent dotpt n).lo j ≤ MYHUGE ∧ -MYHUGE ≤ (local_extent dotpt n).hi j ∧
      ∀ i : Nat, i < n →
        (local_extent dotpt n).lo j ≤ (dotpt i).X j ∧
        (dotpt i).X j ≤ (local_extent dotpt n).hi j := by
  intro n
  induction n with
  | zero =>
    refine ⟨le_refl _, le_refl _, fun i hi => absurd hi (Nat.not_lt_zero i)⟩
  | succ n ih =>
    obtain ⟨h1, h2, h3⟩ := ih
    rw [local_extent_succ, (box_merge_axis _ _ j hj).1, (box_merge_axis _ _ j hj).2]
    refine ⟨le_trans (min_le_right _ _) h1, le_trans h2 (le_max_right _ _), fun i hi => ?_⟩
    by_cases hin : i = n
    · subst hin
      exact ⟨min_le_left _ _, le_max_left _ _⟩
    · have hlt : i < n := by omega
      exact ⟨le_trans (min_le_right _ _) (h3 i hlt).1, le_trans (h3 i hlt).2 (le_max_right _ _)⟩

theorem local_extent_within (dotpt : Nat → Dot_Struct) (n : Nat) :
    within_huge (local_extent dotpt n) :=
  ⟨⟨(local_extent_inv dotpt 0 (Or.inl rfl) n).1,
    (local_extent_inv dotpt 1 (Or.inr (Or.inl rfl)) n).1,
    (local_extent_inv dotpt 2 (Or.inr (Or.inr rfl)) n).1⟩,
   ⟨(local_extent_inv dotpt 0 (Or.inl rfl) n).2.1,
    (local_extent_inv dotpt 1 (Or.inr (Or.inl rfl)) n).2.1,
    (local_extent_inv dotpt 2 (Or.inr (Or.inr rfl)) n).2.1⟩⟩

theorem within_huge_axis (b : rcb_box) (h : within_huge b) (j : Int)
    (hj : j = 0 ∨ j = 1 ∨ j = 2) : b.lo j ≤ MYHUGE ∧ -MYHUGE ≤ b.hi j := by
  rcases hj with hj | hj | hj <;> subst hj
  · exact ⟨h.1.1, h.2.1⟩
  · exact ⟨h.1.2.1, h.2.2.1⟩
  · exact ⟨h.1.2.2, h.2.2.2⟩

theorem within_huge_merge (a b : rcb_box) (hb : within_huge b) :
    within_huge (Zoltan_RCB_box_merge a b).2 := by
  have key : ∀ j : Int, j = 0 ∨ j = 1 ∨ j = 2 →
      (Zoltan_RCB_box_merge a b).2.lo j ≤ MYHUGE ∧
      -MYHUGE ≤ (Zoltan_RCB_box_merge a b).2.hi j := by
    intro j hj
    rw [(box_merge_axis a b j hj).1, (box_merge_axis a b j hj).2]
    exact ⟨le_trans (min_le_right _ _) (within_huge_axis b hb j hj).1,
      le_trans (within_huge_axis b hb j hj).2 (le_max_right _ _)⟩
  exact ⟨⟨(key 0 (Or.inl rfl)).1, (key 1 (Or.inr (Or.inl rfl))).1,
      (key 2 (Or.inr (Or.inr rfl))).1⟩,
    ⟨(key 0 (Or.inl rfl)).2, (key 1 (Or.inr (Or.inl rfl))).2,
      (key 2 (Or.inr (Or.inr rfl))).2⟩⟩

theorem rcb_box_eq (a b : rcb_box) (h1 : a.lo = b.lo) (h2 : a.hi = b.hi) : a = b := by
  cases a
  cases b
  simp only at h1 h2
  subst h1
  subst h2
  rfl

theorem empty_box_left (b : rcb_box) (h : within_huge b) :
    (Zoltan_RCB_box_merge boxtmp_init b).2 = b := by
  obtain ⟨_, hlo, hhi⟩ := box_merge_spec boxtmp_init b
  have e1 : (Zoltan_RCB_box_merge boxtmp_init b).2.lo = b.lo := by
    funext j
    rw [hlo j]
    by_cases hj : j = 0 ∨ j = 1 ∨ j = 2
    · rw [if_pos hj]
      exact min_eq_right (within_huge_axis b h j hj).1
    · rw [if_neg hj]
  have e2 : (Zoltan_RCB_box_merge boxtmp_init b).2.hi = b.hi := by
    funext j
    rw [hhi j]
    by_cases hj : j = 0 ∨ j = 1 ∨ j = 2
    · rw [if_pos hj]
      exact max_eq_right (within_huge_axis b h j hj).2
    · rw [if_neg hj]
  exact rcb_box_eq _ _ e1 e2

theorem empty_box_right (b : rcb_box) (h : within_huge b) :
    same_box (Zoltan_RCB_box_merge b boxtmp_init).2 b := by
  refine same_box_of_axes _ _ (fun j hj => ?_)
  rw [(box_merge_axis b boxtmp_init j hj).1, (box_merge_axis b boxtmp_init j hj).2]
  exact ⟨min_eq_left (within_huge_axis b h j hj).1, max_eq_left (within_huge_axis b h j hj).2⟩

/-- C18, as stated, fails for a box beyond the finite constant `MYHUGE`: the
empty box is `lo = 10^30`, `hi = -10^30`, and merging it into the box with
`lo = 2 * 10^30`, `hi = 3 * 10^30` lowers `lo[0]` to `10^30`; merging in the
other order gives `lo[0] = 10^30` as well. -/
theorem empty_box_neutral_counterexample :
    local_extent exState.dotpt 0 = boxtmp_init ∧
    exBoxFar.lo 0 = 2 * 10 ^ 30 ∧
    (Zoltan_RCB_box_merge boxtmp_init exBoxFar).2.lo 0 = 10 ^ 30 ∧
    (Zoltan_RCB_box_merge exBoxFar boxtmp_init).2.lo 0 = 10 ^ 30 ∧
    ¬ same_box (Zoltan_RCB_box_merge boxtmp_init exBoxFar).2 exBoxFar ∧
    ¬ same_box (Zoltan_RCB_box_merge exBoxFar boxtmp_init).2 exBoxFar := by
  have h1 : (Zoltan_RCB_box_merge boxtmp_init exBoxFar).2.lo 0 = 10 ^ 30 := by
    rw [(box_merge_axis _ _ 0 (Or.inl rfl)).1]
    norm_num [boxtmp_init, exBoxFar, MYHUGE]
  have h2 : (Zoltan_RCB_box_merge exBoxFar boxtmp_init).2.lo 0 = 10 ^ 30 := by
    rw [(box_merge_axis _ _ 0 (Or.inl rfl)).1]
    norm_num [boxtmp_init, exBoxFar, MYHUGE]
  have h3 : exBoxFar.lo 0 = 2 * 10 ^ 30 := rfl
  refine ⟨rfl, h3, h1, h2, fun h => ?_, fun h => ?_⟩
  · have := h.1.1
    rw [h1, h3] at this
    norm_num at this
  · have := h.1.1
    rw [h2, h3] at this
    norm_num at this

/-- C18 (amended). The box of a process with no dots is the result of the
local-extent loop on an empty dot list, `lo = MYHUGE`, `hi = -MYHUGE`.  It is
neutral for the merge on every box `b` with `lo[j] ≤ MYHUGE` and
`hi[j] ≥ -MYHUGE` on the three axes: merging the empty box into `b` leaves `b`
as it is, and merging `b` into the empty box gives the six entries of `b`.
Every box the local-extent loop produces is such a box, and a merge into such a
box gives such a box. -/
theorem empty_box_neutral (b : rcb_box) (h : within_huge b) :
    (∀ dotpt : Nat → Dot_Struct, local_extent dotpt 0 = boxtmp_init) ∧
    (∀ j : Int, boxtmp_init.lo j = MYHUGE ∧ boxtmp_init.hi j = -MYHUGE) ∧
    (Zoltan_RCB_box_merge boxtmp_init b).2 = b ∧
    same_box (Zoltan_RCB_box_merge b boxtmp_init).2 b ∧
    (∀ (dotpt : Nat → Dot_Struct) (n : Nat), within_huge (local_extent dotpt n)) ∧
    (∀ a : rcb_box, within_huge (Zoltan_RCB_box_merge a b).2) :=
  ⟨local_extent_zero, fun _ => ⟨rfl, rfl⟩, empty_box_left b h, empty_box_right b h,
    local_extent_within, fun a => within_huge_merge a b h⟩

/-- The box `[0,1] x [0,3] x [0,3]` and the empty box. -/
theorem empty_box_neutral_witness :
    within_huge exBox133 ∧
    (Zoltan_RCB_box_merge boxtmp_init exBox133).2 = exBox133 ∧
    same_box (Zoltan_RCB_box_merge exBox133 boxtmp_init).2 exBox133 :=
  ⟨by norm_num [within_huge, exBox133, MYHUGE],
   (empty_box_neutral exBox133 (by norm_num [within_huge, exBox133, MYHUGE])).2.2.1,
   (empty_box_neutral exBox133 (by norm_num [within_huge, exBox133, MYHUGE])).2.2.2.1⟩

/-- C19. Box validity: the box computed by the local-extent loop of `rcb_fn`
over `dotnum ≥ 1` dots has `lo[j] ≤ X[j] ≤ hi[j]` for every dot and every axis
`j`, and therefore `lo[j] ≤ hi[j]` on every axis. -/
theorem local_extent_valid (dotpt : Nat → Dot_Struct) (dotnum : Nat) (h : 1 ≤ dotnum) :
    (∀ i : Nat, i < dotnum → ∀ j : Int, j = 0 ∨ j = 1 ∨ j = 2 →
      (local_extent dotpt dotnum).lo j ≤ (dotpt i).X j ∧
      (dotpt i).X j ≤ (local_extent dotpt dotnum).hi j) ∧
    (∀ i : Nat, i < dotnum → in_box (local_extent dotpt dotnum) (dotpt i).X) ∧
    (∀ j : Int, j = 0 ∨ j = 1 ∨ j = 2 →
      (local_extent dotpt dotnum).lo j ≤ (local_extent dotpt dotnum).hi j) :=
  ⟨fun i hi j hj => (local_extent_inv dotpt j hj dotnum).2.2 i hi,
   fun i hi => ⟨(local_extent_inv dotpt 0 (Or.inl rfl) dotnum).2.2 i hi,
     (local_extent_inv dotpt 1 (Or.inr (Or.inl rfl)) dotnum).2.2 i hi,
     (local_extent_inv dotpt 2 (Or.inr (Or.inr rfl)) dotnum).2.2 i hi⟩,
   fun j hj => le_trans ((local_extent_inv dotpt j hj dotnum).2.2 0 (by omega)).1
     ((local_extent_inv dotpt j hj dotnum).2.2 0 (by omega)).2⟩

/-- Four dots on the diagonal, dot `i` at `(i, i, i)`. -/
theorem local_extent_valid_witness :
    1 ≤ 4 ∧ in_box (local_extent exState.dotpt 4) (exState.dotpt 3).X ∧
    (local_extent exState.dotpt 4).lo 0 ≤ (local_extent exState.dotpt 4).hi 0 :=
  ⟨by decide, (local_extent_valid exState.dotpt 4 (by decide)).2.1 3 (by decide),
    (local_extent_valid exState.dotpt 4 (by decide)).2.2 0 (Or.inl rfl)⟩

/-! ### The serial base case -/

theorem serial_rcb_one (env : SerialEnv) (fuel : Nat) (old_set root : Int) (rcbbox : rcb_box)
    (weight : ℚ) (dotnum dindx tmpdindx : Nat) (partlower : Int) (level : Nat)
    (s : SerialState) :
    serial_rcb env (fuel + 1) old_set root rcbbox weight dotnum 1 dindx tmpdindx partlower
        level s =
      some { ierr := ZOLTAN_OK,
             st := { s with dotpt := assign_parts s.dotpt s.dindx dindx dotnum partlower },
             log := [] } := by
  rw [serial_rcb, if_pos rfl]

/-- C20. Serial base case: `serial_rcb` called with `num_parts == 1` returns
(for every input and every positive fuel) with status `ZOLTAN_OK` and an empty
event log, so without any median search; every dot indexed by
`dindx[0..dotnum)` has `Part = partlower` and its coordinates and weights as
before; every other dot, the cut tree, the index array `dindx` and the other
work arrays are as before.  The bounding box is an input value of the embedding
(`serial_rcb` never writes through `rcbbox`), so it is unchanged. -/
theorem serial_base_case (env : SerialEnv) (fuel : Nat) (old_set root : Int) (rcbbox : rcb_box)
    (weight : ℚ) (dotnum dindx tmpdindx : Nat) (partlower : Int) (level : Nat)
    (s : SerialState) :
    ∃ r, serial_rcb env (fuel + 1) old_set root rcbbox weight dotnum 1 dindx tmpdindx partlower
        level s = some r ∧
      r.ierr = ZOLTAN_OK ∧ r.log = [] ∧
      (∀ i : Nat, i < dotnum →
        (r.st.dotpt (s.dindx (dindx + i))).Part = partlower ∧
        (r.st.dotpt (s.dindx (dindx + i))).X = (s.dotpt (s.dindx (dindx + i))).X ∧
        (r.st.dotpt (s.dindx (dindx + i))).Weight = (s.dotpt (s.dindx (dindx + i))).Weight) ∧
      (∀ d : Nat, d ∉ slice s.dindx dindx dotnum → r.st.dotpt d = s.dotpt d) ∧
      r.st.treept = s.treept ∧ r.st.dindx = s.dindx ∧ r.st.tmpdindx = s.tmpdindx ∧
      r.st.dotmark = s.dotmark ∧ r.st.dotlist = s.dotlist ∧ r.st.counters = s.counters ∧
      r.st.coord = s.coord ∧ r.st.wgts = s.wgts := by
  refine ⟨_, serial_rcb_one env fuel old_set root rcbbox weight dotnum dindx tmpdindx partlower
    level s, rfl, rfl, fun i hi => ?_, fun d hd => ?_, rfl, rfl, rfl, rfl, rfl, rfl, rfl, rfl⟩
  · have hm : s.dindx (dindx + i) ∈ slice s.dindx dindx dotnum :=
      (mem_slice s.dindx dindx dotnum _).2 ⟨i, hi, rfl⟩
    have e : assign_parts s.dotpt s.dindx dindx dotnum partlower (s.dindx (dindx + i)) =
        { s.dotpt (s.dindx (dindx + i)) with Part := partlower } := by
      rw [assign_parts_apply, if_pos hm]
    show (assign_parts s.dotpt s.dindx dindx dotnum partlower (s.dindx (dindx + i))).Part =
        partlower ∧
      (assign_parts s.dotpt s.dindx dindx dotnum partlower (s.dindx (dindx + i))).X = _ ∧
      (assign_parts s.dotpt s.dindx dindx dotnum partlower (s.dindx (dindx + i))).Weight = _
    rw [e]
    exact ⟨rfl, rfl, rfl⟩
  · show assign_parts s.dotpt s.dindx dindx dotnum partlower d = s.dotpt d
    rw [assign_parts_apply, if_neg hd]

/-! ### The sentinel slot -/

theorem assemble_step_dim (a : Int → rcb_tree) (i p : Int) :
    (assemble_step a i p).dim = (a p).dim := by
  unfold assemble_step
  split
  · by_cases h : p = (a i).parent - 1
    · subst h; rw [Function.update_same]
    · rw [Function.update_noteq h]
  · split
    · by_cases h : p = -(a i).parent - 1
      · subst h; rw [Function.update_same]
      · rw [Function.update_noteq h]
    · rfl

theorem assemble_steps_dim (t : Int → rcb_tree) (k : Nat) (p : Int) :
    (assemble_steps t k p).dim = (t p).dim := by
  induction k with
  | zero => rfl
  | succ k ih => rw [assemble_steps_succ, assemble_step_dim, ih]

theorem assemble_dim (t : Int → rcb_tree) (n : Int) :
    (assemble t n 0).dim = 0 ∧ ∀ p : Int, p ≠ 0 → (assemble t n p).dim = (t p).dim := by
  unfold assemble
  refine ⟨?_, fun p hp => ?_⟩
  · rw [assemble_steps_dim, Function.update_same]
  · rw [assemble_steps_dim, Function.update_noteq hp]

theorem rcb_fn_gen_tree_ne (reuse reuse_dir gen_tree : Int) :
    rcb_fn_gen_tree reuse reuse_dir gen_tree ≠ 0 ↔ (gen_tree ≠ 0 ∨ reuse ≠ 0 ∨ reuse_dir ≠ 0) := by
  unfold rcb_fn_gen_tree
  by_cases h1 : reuse = 0 <;> by_cases h2 : reuse_dir = 0 <;> simp [h1, h2]

theorem rcb_fn_tree_end_dim (gen_tree : Int) (displ : Bool) (gatherv_ierr : Int)
    (allgatherv : (Int → rcb_tree) → (Int → rcb_tree)) (n ierr : Int) (treept : Int → rcb_tree)
    (hgo : (rcb_fn_tree_end gen_tree displ gatherv_ierr allgatherv n ierr treept).2.2 = true) :
    ((rcb_fn_tree_end gen_tree displ gatherv_ierr allgatherv n ierr treept).2.1 0).dim =
      if gen_tree ≠ 0 then 0 else -1 := by
  unfold rcb_fn_tree_end at hgo ⊢
  by_cases hg : gen_tree ≠ 0
  · rw [if_pos hg] at hgo ⊢
    by_cases hd : displ = false
    · rw [if_pos hd] at hgo
      cases hgo
    · rw [if_neg hd, if_pos hg]
      exact (assemble_dim _ _).1
  · rw [if_neg hg, if_neg hg]
    show (Function.update treept 0 { treept 0 with dim := -1 } 0).dim = -1
    rw [Function.update_same]

theorem rcb_fn_end_cases (reuse reuse_dir gen_tree : Int) (treept : Int → rcb_tree) :
    (gen_tree ≠ 0 ∨ reuse ≠ 0 ∨ reuse_dir ≠ 0 →
      rcb_fn_end reuse (rcb_fn_gen_tree reuse reuse_dir gen_tree) treept = some treept) ∧
    (¬ (gen_tree ≠ 0 ∨ reuse ≠ 0 ∨ reuse_dir ≠ 0) →
      rcb_fn_end reuse (rcb_fn_gen_tree reuse reuse_dir gen_tree) treept = none) := by
  refine ⟨fun hreq => ?_, fun hreq => ?_⟩
  · have hg := (rcb_fn_gen_tree_ne reuse reuse_dir gen_tree).2 hreq
    unfold rcb_fn_end
    rw [if_neg (fun h => hg h.2)]
  · have hg : rcb_fn_gen_tree reuse reuse_dir gen_tree = 0 := by
      by_contra hne
      exact hreq ((rcb_fn_gen_tree_ne reuse reuse_dir gen_tree).1 hne)
    have hr : reuse = 0 := by
      by_contra hne
      exact hreq (Or.inr (Or.inl hne))
    unfold rcb_fn_end
    rw [if_pos ⟨hr, hg⟩]
    rfl

/-- C21 as stated fails.  With tree generation not requested (`gen_tree`,
`reuse` and `reuse_dir` all 0) the closing lines are passed without a jump to
`End`, the status stays `ZOLTAN_OK` and `treept[0].dim` is set to -1; the
lines after `End:` then take the branch `!reuse && !gen_tree` and release the
whole structure, so when `rcb_fn` returns there is no tree and no sentinel
whose `dim` is -1. -/
theorem sentinel_root_slot_counterexample :
    (rcb_fn_tree_end (rcb_fn_gen_tree 0 0 0) true 0 (fun t => t) 3 0 exTree).2.2 = true ∧
    ((rcb_fn_tree_end (rcb_fn_gen_tree 0 0 0) true 0 (fun t => t) 3 0 exTree).2.1 0).dim = -1 ∧
    (rcb_fn_close 0 0 0 true 0 (fun t => t) 3 0 exTree).1 = ZOLTAN_OK ∧
    (rcb_fn_close 0 0 0 true 0 (fun t => t) 3 0 exTree).2 = none ∧
    ((rcb_fn_close 0 0 0 true 0 (fun t => t) 3 0 exTree).2.map (fun t => (t 0).dim)) ≠
      some (-1) := by
  refine ⟨rfl, by decide, rfl, rfl, by decide⟩

/-- C21, amended.  When the closing lines of `rcb_fn` that deal with the tree
are passed without the jump to `End`: if tree generation was requested
(`gen_tree` set by the caller, or forced on because `reuse` or `reuse_dir` is
set), the tree is kept when `rcb_fn` returns and its `treept[0].dim` is 0,
whatever the gather and the assembly loop do with the rest of the tree;
otherwise `treept[0].dim` is set to -1 and the lines after `End:` release the
structure, so no tree is held when `rcb_fn` returns. -/
theorem sentinel_root_slot (reuse reuse_dir gen_tree : Int) (displ : Bool) (gatherv_ierr : Int)
    (allgatherv : (Int → rcb_tree) → (Int → rcb_tree)) (n ierr : Int) (treept : Int → rcb_tree)
    (hgo : (rcb_fn_tree_end (rcb_fn_gen_tree reuse reuse_dir gen_tree) displ gatherv_ierr
      allgatherv n ierr treept).2.2 = true) :
    (gen_tree ≠ 0 ∨ reuse ≠ 0 ∨ reuse_dir ≠ 0 →
      (rcb_fn_close reuse reuse_dir gen_tree displ gatherv_ierr allgatherv n ierr treept).2 =
        some (rcb_fn_tree_end (rcb_fn_gen_tree reuse reuse_dir gen_tree) displ gatherv_ierr
          allgatherv n ierr treept).2.1 ∧
      ((rcb_fn_close reuse reuse_dir gen_tree displ gatherv_ierr allgatherv n ierr treept).2.map
        (fun t => (t 0).dim)) = some 0) ∧
    (¬ (gen_tree ≠ 0 ∨ reuse ≠ 0 ∨ reuse_dir ≠ 0) →
      ((rcb_fn_tree_end (rcb_fn_gen_tree reuse reuse_dir gen_tree) displ gatherv_ierr
        allgatherv n ierr treept).2.1 0).dim = -1 ∧
      (rcb_fn_close reuse reuse_dir gen_tree displ gatherv_ierr allgatherv n ierr treept).2 =
        none) := by
  have h := rcb_fn_tree_end_dim (rcb_fn_gen_tree reuse reuse_dir gen_tree) displ gatherv_ierr
    allgatherv n ierr treept hgo
  have he := rcb_fn_end_cases reuse reuse_dir gen_tree
    (rcb_fn_tree_end (rcb_fn_gen_tree reuse reuse_dir gen_tree) displ gatherv_ierr
      allgatherv n ierr treept).2.1
  refine ⟨fun hreq => ?_, fun hreq => ?_⟩
  · have e : (rcb_fn_close reuse reuse_dir gen_tree displ gatherv_ierr allgatherv n ierr
        treept).2 = some (rcb_fn_tree_end (rcb_fn_gen_tree reuse reuse_dir gen_tree) displ
          gatherv_ierr allgatherv n ierr treept).2.1 := he.1 hreq
    refine ⟨e, ?_⟩
    rw [e, Option.map_some', h, if_pos ((rcb_fn_gen_tree_ne reuse reuse_dir gen_tree).2 hreq)]
  · refine ⟨?_, he.2 hreq⟩
    rw [h, if_neg (fun hne => hreq ((rcb_fn_gen_tree_ne reuse reuse_dir gen_tree).1 hne))]

/-- Tree generation not asked for but `reuse` set, on the unset tree: the tree
is kept and the sentinel ends valid. -/
theorem sentinel_root_slot_witness :
    (rcb_fn_tree_end (rcb_fn_gen_tree 1 0 0) true 0 (fun t => t) 3 0 exTree).2.2 = true ∧
    ((rcb_fn_close 1 0 0 true 0 (fun t => t) 3 0 exTree).2.map (fun t => (t 0).dim)) = some 0 :=
  ⟨rfl, ((sentinel_root_slot 1 0 0 true 0 (fun t => t) 3 0 exTree rfl).1 (by decide)).2⟩

/-! ### Locked directions, first guess, node recording -/

theorem cut_dimension_locked (lock_direction : Int) (treept : Int → rcb_tree) (partmid : Int)
    (preset_dir : Int) (dim_spec : Nat → Int) (level : Nat) (rcbbox : rcb_box)
    (h : lock_direction ≠ 0) :
    cut_dimension lock_direction treept partmid preset_dir dim_spec level rcbbox =
      ((treept partmid).dim, level) := by
  unfold cut_dimension
  rw [if_pos h]

theorem cut_dimension_preset (lock_direction : Int) (treept : Int → rcb_tree) (partmid : Int)
    (preset_dir : Int) (dim_spec : Nat → Int) (level : Nat) (rcbbox : rcb_box)
    (h : lock_direction = 0) (hp : preset_dir ≠ 0) :
    cut_dimension lock_direction treept partmid preset_dir dim_spec level rcbbox =
      (dim_spec level, level + 1) := by
  unfold cut_dimension
  rw [if_neg (fun hne => hne h), if_pos hp]

theorem cut_dimension_level_same (lock_direction : Int) (treept : Int → rcb_tree)
    (partmid : Int) (preset_dir : Int) (dim_spec : Nat → Int) (level : Nat) (rcbbox : rcb_box)
    (h : lock_direction ≠ 0 ∨ preset_dir = 0) :
    (cut_dimension lock_direction treept partmid preset_dir dim_spec level rcbbox).2 = level := by
  unfold cut_dimension
  by_cases hl : lock_direction ≠ 0
  · rw [if_pos hl]
  · rw [if_neg hl]
    have hp : preset_dir = 0 := h.resolve_left hl
    rw [if_neg (fun hne => hne hp)]

theorem serial_split_dim_level (env : SerialEnv) (old_set root : Int) (rcbbox : rcb_box)
    (weight : ℚ) (dotnum : Nat) (num_parts : Int) (dindx tmpdindx : Nat) (partlower : Int)
    (level : Nat) (s : SerialState) :
    (serial_split env old_set root rcbbox weight dotnum num_parts dindx tmpdindx partlower
      level s).dim =
      (cut_dimension env.lock_direction s.treept
        (env.Zoltan_Divide_Parts num_parts partlower).partmid env.preset_dir env.dim_spec
        level rcbbox).1 ∧
    (serial_split env old_set root rcbbox weight dotnum num_parts dindx tmpdindx partlower
      level s).level =
      (cut_dimension env.lock_direction s.treept
        (env.Zoltan_Divide_Parts num_parts partlower).partmid env.preset_dir env.dim_spec
        level rcbbox).2 := by
  simp only [serial_split]
  split <;> exact ⟨rfl, rfl⟩

theorem serial_split_first_guess (env : SerialEnv) (old_set root : Int) (rcbbox : rcb_box)
    (weight : ℚ) (dotnum : Nat) (num_parts : Int) (dindx tmpdindx : Nat) (partlower : Int)
    (level : Nat) (s : SerialState) :
    (serial_split env old_set root rcbbox weight dotnum num_parts dindx tmpdindx partlower
      level s).first_guess =
      (serial_median_args env rcbbox weight dotnum num_parts dindx partlower level s).first_guess := by
  simp only [serial_split]
  split <;> rfl

theorem record_cut_dim (treept : Int → rcb_tree) (partmid : Int) (valuehalf : ℚ)
    (old_set root partlower p : Int) :
    (record_cut treept partmid (treept partmid).dim valuehalf old_set root partlower p).dim =
      (treept p).dim := by
  by_cases hp : p = partmid
  · subst hp; rw [record_cut_same]
  · rw [record_cut_other _ _ _ _ _ _ _ _ hp]

/-- With directions locked a split leaves the `dim` field of every tree node
as it was. -/
theorem serial_split_locked_dims (env : SerialEnv) (hlock : env.lock_direction ≠ 0)
    (old_set root : Int) (rcbbox : rcb_box)
    (weight : ℚ) (dotnum : Nat) (num_parts : Int) (dindx tmpdindx : Nat) (partlower : Int)
    (level : Nat) (s : SerialState) (sp : SplitOut)
    (hsp : sp = serial_split env old_set root rcbbox weight dotnum num_parts dindx tmpdindx
      partlower level s) (p : Int) :
    (sp.st.treept p).dim = (s.treept p).dim := by
  rw [serial_split_treept env _ _ _ _ _ _ _ _ _ _ _ sp hsp]
  by_cases hok : sp.ok = true
  · rw [if_pos hok]
    have hd : sp.dim = (s.treept sp.partmid).dim := by
      rw [hsp, (serial_split_dim_level env _ _ _ _ _ _ _ _ _ _ _).1, serial_split_partmid,
        cut_dimension_locked _ _ _ _ _ _ _ hlock]
    rw [hd, record_cut_dim]
  · rw [if_neg hok]

/-- With directions locked a run of `serial_rcb` leaves the `dim` field of
every tree node as it was. -/
theorem run_locked_dims (env : SerialEnv) (hlock : env.lock_direction ≠ 0)
    {old_set root : Int} {rcbbox : rcb_box} {weight : ℚ}
    {dotnum : Nat} {num_parts : Int} {dindx tmpdindx : Nat} {partlower : Int} {level : Nat}
    {s : SerialState} {r : SerialResult}
    (h : Run env old_set root rcbbox weight dotnum num_parts dindx tmpdindx partlower level s r) :
    ∀ p : Int, (r.st.treept p).dim = (s.treept p).dim := by
  induction h with
  | leaf old_set root rcbbox weight dotnum dindx tmpdindx partlower level s =>
    intro p; rfl
  | fail old_set root rcbbox weight dotnum num_parts dindx tmpdindx partlower level s sp hsp
      h1 hok =>
    intro p
    exact serial_split_locked_dims env hlock _ _ _ _ _ _ _ _ _ _ _ sp hsp p
  | abort old_set root rcbbox weight dotnum num_parts dindx tmpdindx partlower level s sp r0
      hsp h1 hok hc hrun hneg ih =>
    intro p
    exact (ih p).trans (serial_split_locked_dims env hlock _ _ _ _ _ _ _ _ _ _ _ sp hsp p)
  | node old_set root rcbbox weight dotnum num_parts dindx tmpdindx partlower level s sp r0 r1
      hsp h1 hok hl hl0 hcont hh hh0 ihl ihh =>
    intro p
    have hs := serial_split_locked_dims env hlock _ _ _ _ _ _ _ _ _ _ _ sp hsp p
    have h0 : (r0.st.treept p).dim = (sp.st.treept p).dim := by
      by_cases hc : sp.partmid - partlower > 0 ∧ sp.set1 ≠ 0
      · exact ihl hc p
      · rw [hl0 hc]
    have h1 : (r1.st.treept p).dim = (r0.st.treept p).dim := by
      by_cases hc : partlower + num_parts - sp.partmid > 0 ∧ sp.set0 ≠ dotnum
      · exact ihh hc p
      · rw [hh0 hc]
    exact h1.trans (h0.trans hs)

theorem parallel_record_eq (treept : Int → rcb_tree) (partmid fp dim : Int) (valuehalf : ℚ)
    (old_set root partlower : Int) (h : partmid > 0 ∧ partmid = fp) :
    parallel_record treept partmid fp dim valuehalf old_set root partlower =
      record_cut treept partmid dim valuehalf old_set root partlower := by
  unfold parallel_record record_cut
  rw [if_pos h]
  simp

theorem parallel_record_skip (treept : Int → rcb_tree) (partmid fp dim : Int) (valuehalf : ℚ)
    (old_set root partlower : Int) (h : ¬ (partmid > 0 ∧ partmid = fp)) :
    parallel_record treept partmid fp dim valuehalf old_set root partlower = treept := by
  unfold parallel_record
  rw [if_neg h]

theorem parallel_record_other (treept : Int → rcb_tree) (partmid fp dim : Int) (valuehalf : ℚ)
    (old_set root partlower p : Int) (hp : p ≠ partmid) :
    parallel_record treept partmid fp dim valuehalf old_set root partlower p = treept p := by
  by_cases h : partmid > 0 ∧ partmid = fp
  · rw [parallel_record_eq _ _ _ _ _ _ _ _ h, record_cut_other _ _ _ _ _ _ _ _ hp]
  · rw [parallel_record_skip _ _ _ _ _ _ _ _ h]

/-- C22. Locked directions.  With `lock_direction` set, `cut_dimension`
returns the axis stored in `treept[partmid].dim` and the level counter as it
was, whatever the box, the preset code and the preset sequence are.
Consequently the recording of the node at `partmid`, in the parallel step and
in `serial_rcb`, leaves the `dim` of every node as it was, and so does every
run of `serial_rcb`: the tree keeps the cutting dimensions of the previous
run. -/
theorem locked_direction (env : SerialEnv) (hlock : env.lock_direction ≠ 0) :
    (∀ (treept : Int → rcb_tree) (partmid preset_dir : Int) (dim_spec : Nat → Int) (level : Nat)
        (rcbbox : rcb_box),
      cut_dimension env.lock_direction treept partmid preset_dir dim_spec level rcbbox =
        ((treept partmid).dim, level)) ∧
    (∀ (treept : Int → rcb_tree) (partmid preset_dir fp : Int) (dim_spec : Nat → Int)
        (level : Nat) (rcbbox : rcb_box) (valuehalf : ℚ) (old_set root partlower p : Int),
      (parallel_record treept partmid fp
        (cut_dimension env.lock_direction treept partmid preset_dir dim_spec level rcbbox).1
        valuehalf old_set root partlower p).dim = (treept p).dim) ∧
    (∀ (fuel : Nat) (old_set root : Int) (rcbbox : rcb_box) (weight : ℚ) (dotnum : Nat)
        (num_parts : Int) (dindx tmpdindx : Nat) (partlower : Int) (level : Nat)
        (s : SerialState) (r : SerialResult),
      serial_rcb env fuel old_set root rcbbox weight dotnum num_parts dindx tmpdindx partlower
        level s = some r →
      ∀ p : Int, (r.st.treept p).dim = (s.treept p).dim) := by
  refine ⟨fun treept partmid preset_dir dim_spec level rcbbox =>
      cut_dimension_locked _ _ _ _ _ _ _ hlock, ?_, ?_⟩
  · intro treept partmid preset_dir fp dim_spec level rcbbox valuehalf old_set root partlower p
    rw [cut_dimension_locked _ _ _ _ _ _ _ hlock]
    by_cases h : partmid > 0 ∧ partmid = fp
    · rw [parallel_record_eq _ _ _ _ _ _ _ _ h, record_cut_dim]
    · rw [parallel_record_skip _ _ _ _ _ _ _ _ h]
  · intro fuel old_set root rcbbox weight dotnum num_parts dindx tmpdindx partlower level s r hr
    exact run_locked_dims env hlock (serial_rcb_run env fuel _ _ _ _ _ _ _ _ _ _ _ r hr)

/-- Locked directions on a tree whose node 1 was cut along axis 2, with a box
widest along y and a preset order active: the axis is 2. -/
theorem locked_direction_witness :
    ({ exEnv with lock_direction := 1 } : SerialEnv).lock_direction ≠ 0 ∧
    cut_dimension ({ exEnv with lock_direction := 1 } : SerialEnv).lock_direction
      (record_cut exTree 1 2 0 1 0 0) 1 3 (fun _ => 0) 5 exBox133 = (2, 5) :=
  ⟨by decide,
   (locked_direction { exEnv with lock_direction := 1 } (by decide)).1
     (record_cut exTree 1 2 0 1 0 0) 1 3 (fun _ => 0) 5 exBox133⟩

/-- C23. Seeding with the previous cut.  In `serial_rcb` the median search is
called with `first_guess = 1` and the starting value `treept[partmid].cut`
exactly when `reuse` is set and the axis chosen by `cut_dimension` equals
`treept[partmid].dim`; otherwise it is called with `first_guess = 0` and no
starting value.  The parallel step does the same under the additional
condition `old_nparts > 1`; without a guess it leaves `valuehalf` as it was. -/
theorem first_guess_seeding (env : SerialEnv) (old_set root : Int) (rcbbox : rcb_box)
    (weight : ℚ) (dotnum : Nat) (num_parts : Int) (dindx tmpdindx : Nat) (partlower : Int)
    (level : Nat) (s : SerialState) (old_nparts reuse stats : Int) (treept : Int → rcb_tree)
    (partmid dim : Int) (counters : Nat → Int) (valuehalf : Option ℚ) :
    ((env.reuse ≠ 0 ∧
        (cut_dimension env.lock_direction s.treept
          (env.Zoltan_Divide_Parts num_parts partlower).partmid env.preset_dir env.dim_spec
          level rcbbox).1 =
        (s.treept (env.Zoltan_Divide_Parts num_parts partlower).partmid).dim) →
      (serial_median_args env rcbbox weight dotnum num_parts dindx partlower level s).first_guess
        = 1 ∧
      (serial_median_args env rcbbox weight dotnum num_parts dindx partlower level s).valuehalf
        = some (s.treept (env.Zoltan_Divide_Parts num_parts partlower).partmid).cut) ∧
    (¬ (env.reuse ≠ 0 ∧
        (cut_dimension env.lock_direction s.treept
          (env.Zoltan_Divide_Parts num_parts partlower).partmid env.preset_dir env.dim_spec
          level rcbbox).1 =
        (s.treept (env.Zoltan_Divide_Parts num_parts partlower).partmid).dim) →
      (serial_median_args env rcbbox weight dotnum num_parts dindx partlower level s).first_guess
        = 0 ∧
      (serial_median_args env rcbbox weight dotnum num_parts dindx partlower level s).valuehalf
        = none) ∧
    (serial_split env old_set root rcbbox weight dotnum num_parts dindx tmpdindx partlower
        level s).first_guess =
      (serial_median_args env rcbbox weight dotnum num_parts dindx partlower level s).first_guess ∧
    ((old_nparts > 1 ∧ reuse ≠ 0 ∧ dim = (treept partmid).dim) →
      (parallel_first_guess old_nparts reuse stats treept partmid dim counters valuehalf).2.2 = 1 ∧
      (parallel_first_guess old_nparts reuse stats treept partmid dim counters valuehalf).2.1 =
        some (treept partmid).cut) ∧
    (¬ (old_nparts > 1 ∧ reuse ≠ 0 ∧ dim = (treept partmid).dim) →
      (parallel_first_guess old_nparts reuse stats treept partmid dim counters valuehalf).2.2 = 0 ∧
      (parallel_first_guess old_nparts reuse stats treept partmid dim counters valuehalf).2.1 =
        valuehalf) := by
  refine ⟨fun h => ?_, fun h => ?_, serial_split_first_guess env _ _ _ _ _ _ _ _ _ _ _,
    fun h => ?_, fun h => ?_⟩
  · have hg : serial_guess env s.treept (env.Zoltan_Divide_Parts num_parts partlower).partmid
        (cut_dimension env.lock_direction s.treept
          (env.Zoltan_Divide_Parts num_parts partlower).partmid env.preset_dir env.dim_spec
          level rcbbox).1 = true := by
      unfold serial_guess; exact decide_eq_true h
    simp only [serial_median_args, hg, if_true]
    exact ⟨trivial, trivial⟩
  · have hg : serial_guess env s.treept (env.Zoltan_Divide_Parts num_parts partlower).partmid
        (cut_dimension env.lock_direction s.treept
          (env.Zoltan_Divide_Parts num_parts partlower).partmid env.preset_dir env.dim_spec
          level rcbbox).1 = false := by
      unfold serial_guess; exact decide_eq_false h
    simp only [serial_median_args, hg]
    exact ⟨rfl, rfl⟩
  · have hg : parallel_guess old_nparts reuse treept partmid dim = true := by
      unfold parallel_guess; exact decide_eq_true h
    unfold parallel_first_guess
    rw [if_pos hg]
    exact ⟨rfl, rfl⟩
  · have hg : ¬ (parallel_guess old_nparts reuse treept partmid dim = true) := by
      unfold parallel_guess
      rw [decide_eq_true_iff]
      exact h
    unfold parallel_first_guess
    rw [if_neg hg]
    exact ⟨rfl, rfl⟩

/-- C24. Node recording is the same in both phases.  Under the guard of the
parallel step (`partmid > 0 && partmid == fp`) the tree after its recording is
the tree `serial_rcb` leaves for the same axis, cut value, `old_set`, `root`,
`partlower` and `partmid`: the node at `partmid` has `dim` the axis, `cut` the
cut value, the same parent reference, `left_leaf = -partlower` and
`right_leaf = -partmid`, and every other entry is as before.  The tree after a
successful split of `serial_rcb` is this recording. -/
theorem node_recording_same (treept : Int → rcb_tree) (partmid fp dim : Int) (valuehalf : ℚ)
    (old_set root partlower : Int) (h : partmid > 0 ∧ partmid = fp) :
    parallel_record treept partmid fp dim valuehalf old_set root partlower =
      record_cut treept partmid dim valuehalf old_set root partlower ∧
    record_cut treept partmid dim valuehalf old_set root partlower partmid =
      { dim := dim, cut := valuehalf,
        parent := if old_set ≠ 0 then -(root + 1) else root + 1,
        left_leaf := -partlower, right_leaf := -partmid } ∧
    (∀ p : Int, p ≠ partmid →
      record_cut treept partmid dim valuehalf old_set root partlower p = treept p ∧
      parallel_record treept partmid fp dim valuehalf old_set root partlower p = treept p) ∧
    (∀ (env : SerialEnv) (rcbbox : rcb_box) (weight : ℚ) (dotnum : Nat) (num_parts : Int)
        (dindx tmpdindx : Nat) (level : Nat) (s : SerialState),
      (serial_split env old_set root rcbbox weight dotnum num_parts dindx tmpdindx partlower
        level s).ok = true →
      (serial_split env old_set root rcbbox weight dotnum num_parts dindx tmpdindx partlower
        level s).st.treept =
      record_cut s.treept
        (serial_split env old_set root rcbbox weight dotnum num_parts dindx tmpdindx partlower
          level s).partmid
        (serial_split env old_set root rcbbox weight dotnum num_parts dindx tmpdindx partlower
          level s).dim
        (serial_split env old_set root rcbbox weight dotnum num_parts dindx tmpdindx partlower
          level s).valuehalf old_set root partlower) := by
  refine ⟨parallel_record_eq _ _ _ _ _ _ _ _ h, record_cut_same _ _ _ _ _ _ _,
    fun p hp => ⟨record_cut_other _ _ _ _ _ _ _ _ hp, parallel_record_other _ _ _ _ _ _ _ _ _ hp⟩,
    ?_⟩
  intro env rcbbox weight dotnum num_parts dindx tmpdindx level s hok
  rw [serial_split_treept env _ _ _ _ _ _ _ _ _ _ _ _ rfl, if_pos hok]

/-- The node at partition 2 owned by the process (`fp = 2`), cut along y at
`3/2` below the root on side 1. -/
theorem node_recording_same_witness :
    ((2 : Int) > 0 ∧ (2 : Int) = 2) ∧
    parallel_record exTree 2 2 1 (3 / 2) 1 0 0 = record_cut exTree 2 1 (3 / 2) 1 0 0 :=
  ⟨by decide, (node_recording_same exTree 2 2 1 (3 / 2) 1 0 0 (by decide)).1⟩

/-- C27. Ownership guard of the parallel record step.  The record step of a
parallel loop step leaves the tree as it was unless `partmid > 0` and
`partmid = fp`; in every case each entry other than `treept[partmid]` is as
before, and the sentinel slot `treept[0]` is never written, also when
`partmid = 0`. -/
theorem parallel_record_guard (treept : Int → rcb_tree) (partmid fp dim : Int) (valuehalf : ℚ)
    (old_set root partlower : Int) :
    (¬ (partmid > 0 ∧ partmid = fp) →
      parallel_record treept partmid fp dim valuehalf old_set root partlower = treept) ∧
    (∀ p : Int, p ≠ partmid →
      parallel_record treept partmid fp dim valuehalf old_set root partlower p = treept p) ∧
    parallel_record treept partmid fp dim valuehalf old_set root partlower 0 = treept 0 ∧
    (partmid = 0 →
      parallel_record treept partmid fp dim valuehalf old_set root partlower = treept) := by
  refine ⟨parallel_record_skip _ _ _ _ _ _ _ _, fun p hp => parallel_record_other _ _ _ _ _ _ _ _ _ hp,
    ?_, fun h0 => parallel_record_skip _ _ _ _ _ _ _ _ (fun hg => by omega)⟩
  by_cases h : partmid > 0 ∧ partmid = fp
  · exact parallel_record_other _ _ _ _ _ _ _ _ _ (by have := h.1; omega)
  · rw [parallel_record_skip _ _ _ _ _ _ _ _ h]

/-! ### The counting loop of `set_preset_dir` -/

/-- What one iteration of the counting loop does, by the case of its tests. -/
theorem preset_count_step_cases (c : PresetCount) :
    (c.wz > c.wx ∧ c.wz > c.wy ∧
      (preset_count_step c).ix = Function.update c.ix 2 (c.ix 2 + 1) ∧
      (preset_count_step c).wz = c.wz / 2 ∧ (preset_count_step c).wx = c.wx ∧
      (preset_count_step c).wy = c.wy) ∨
    (¬ (c.wz > c.wx ∧ c.wz > c.wy) ∧ c.wy > c.wx ∧ c.wy > c.wz ∧
      (preset_count_step c).ix = Function.update c.ix 1 (c.ix 1 + 1) ∧
      (preset_count_step c).wy = c.wy / 2 ∧ (preset_count_step c).wx = c.wx ∧
      (preset_count_step c).wz = c.wz) ∨
    (¬ (c.wz > c.wx ∧ c.wz > c.wy) ∧ ¬ (c.wy > c.wx ∧ c.wy > c.wz) ∧
      (preset_count_step c).ix = Function.update c.ix 0 (c.ix 0 + 1) ∧
      (preset_count_step c).wx = c.wx / 2 ∧ (preset_count_step c).wy = c.wy ∧
      (preset_count_step c).wz = c.wz) := by
  unfold preset_count_step
  by_cases h1 : c.wz > c.wx ∧ c.wz > c.wy
  · left
    rw [if_pos h1]
    exact ⟨h1.1, h1.2, rfl, rfl, rfl, rfl⟩
  · right
    rw [if_neg h1]
    by_cases h2 : c.wy > c.wx ∧ c.wy > c.wz
    · left
      rw [if_pos h2]
      exact ⟨h1, h2.1, h2.2, rfl, rfl, rfl, rfl⟩
    · right
      rw [if_neg h2]
      exact ⟨h1, h2, rfl, rfl, rfl, rfl⟩

theorem preset_count_step_axis (c : PresetCount) :
    ∃ d : Int, (d = 0 ∨ d = 1 ∨ d = 2) ∧
      (preset_count_step c).ix = Function.update c.ix d (c.ix d + 1) ∧
      (preset_count_step c).width d = c.width d / 2 ∧
      (∀ j : Int, j = 0 ∨ j = 1 ∨ j = 2 → j ≠ d → (preset_count_step c).width j = c.width j) ∧
      ((∀ j : Int, j = 0 ∨ j = 1 ∨ j = 2 → c.width j ≤ c.width d) ∨
        (d = 0 ∧ c.wy = c.wz ∧ c.wx < c.wy)) ∧
      ((d = 0 ∧ c.wy = c.wz ∧ c.wx < c.wy) → ¬ (∀ j : Int, j = 0 ∨ j = 1 ∨ j = 2 →
        c.width j ≤ c.width d)) := by
  rcases preset_count_step_cases c with ⟨h1, h2, e1, e2, e3, e4⟩ | ⟨_, h1, h2, e1, e2, e3, e4⟩ |
    ⟨h1, h2, e1, e2, e3, e4⟩
  · refine ⟨2, Or.inr (Or.inr rfl), e1, ?_, ?_, Or.inl ?_, ?_⟩
    · simp only [PresetCount.width]; norm_num; exact e2
    · rintro j (rfl | rfl | rfl) hj
      · simp only [PresetCount.width]; norm_num; exact e3
      · simp only [PresetCount.width]; norm_num; exact e4
      · exact absurd rfl hj
    · rintro j (rfl | rfl | rfl) <;> simp only [PresetCount.width] <;> norm_num
      · exact le_of_lt h1
      · exact le_of_lt h2
    · rintro ⟨h, _⟩; norm_num at h
  · refine ⟨1, Or.inr (Or.inl rfl), e1, ?_, ?_, Or.inl ?_, ?_⟩
    · simp only [PresetCount.width]; norm_num; exact e2
    · rintro j (rfl | rfl | rfl) hj
      · simp only [PresetCount.width]; norm_num; exact e3
      · exact absurd rfl hj
      · simp only [PresetCount.width]; norm_num; exact e4
    · rintro j (rfl | rfl | rfl) <;> simp only [PresetCount.width] <;> norm_num
      · exact le_of_lt h1
      · exact le_of_lt h2
    · rintro ⟨h, _⟩; norm_num at h
  · refine ⟨0, Or.inl rfl, e1, ?_, ?_, ?_, ?_⟩
    · simp only [PresetCount.width]; norm_num; exact e2
    · rintro j (rfl | rfl | rfl) hj
      · exact absurd rfl hj
      · simp only [PresetCount.width]; norm_num; exact e3
      · simp only [PresetCount.width]; norm_num; exact e4
    · by_cases hx : c.wy ≤ c.wx ∧ c.wz ≤ c.wx
      · left
        rintro j (rfl | rfl | rfl) <;> simp only [PresetCount.width] <;> norm_num
        · exact hx.1
        · exact hx.2
      · right
        refine ⟨rfl, ?_, ?_⟩
        · by_contra hne
          rcases lt_or_gt_of_ne hne with hlt | hgt
          · apply h1
            refine ⟨?_, hlt⟩
            by_contra hzx
            apply hx
            exact ⟨le_trans (le_of_lt hlt) (not_lt.mp hzx), not_lt.mp hzx⟩
          · apply h2
            refine ⟨?_, hgt⟩
            by_contra hyx
            apply hx
            exact ⟨not_lt.mp hyx, le_trans (le_of_lt hgt) (not_lt.mp hyx)⟩
        · by_contra hxy
          have hyx : c.wy ≤ c.wx := not_lt.mp hxy
          apply hx
          refine ⟨hyx, ?_⟩
          by_contra hzx
          have hzx2 : c.wx < c.wz := not_le.mp hzx
          apply h1
          exact ⟨hzx2, lt_of_le_of_lt hyx hzx2⟩
    · rintro ⟨_, hyz, hlt⟩ hall
      have := hall 1 (Or.inr (Or.inl rfl))
      simp only [PresetCount.width] at this
      norm_num at this
      exact absurd hlt (not_lt.mpr this)

/-- C28 at a failing input.  For the box `[0,1] x [0,3] x [0,3]` (widths 1, 3,
3) neither `wz > wx && wz > wy` nor `wy > wx && wy > wz` holds, so the first
level of the counting loop increments the count of x and halves `wx`, although
x is the narrowest axis; with two partitions and preset code 1 the sequence
built is `[0]`.  On the same box `cut_dimension`, which picks the axis when no
order is preset, returns axis 1, a widest one.  For the unit cube and eight
partitions the three levels all go to x: the counts are `(3, 0, 0)` and the
widths left are `1/8, 1, 1`. -/
theorem preset_count_tie_failure :
    ((preset_count_init 2 exBox133).wx = 1 ∧ (preset_count_init 2 exBox133).wy = 3 ∧
      (preset_count_init 2 exBox133).wz = 3) ∧
    ((preset_count_step (preset_count_init 2 exBox133)).ix 0 = 1 ∧
      (preset_count_step (preset_count_init 2 exBox133)).ix 1 = 0 ∧
      (preset_count_step (preset_count_init 2 exBox133)).ix 2 = 0 ∧
      (preset_count_step (preset_count_init 2 exBox133)).wx = 1 / 2 ∧
      (preset_count_step (preset_count_init 2 exBox133)).wy = 3 ∧
      (preset_count_step (preset_count_init 2 exBox133)).wz = 3) ∧
    (set_preset_dir 2 1 exBox133 none (some (fun _ => -1))).map
      (fun r => (r.ierr, r.level, r.dim_spec.map (fun a => slice a 0 r.level))) =
      some (0, 1, some [0]) ∧
    (∀ (t : Int → rcb_tree) (partmid : Int) (dim_spec : Nat → Int) (level : Nat),
      (cut_dimension 0 t partmid 0 dim_spec level exBox133).1 = 1) ∧
    (preset_count_loop 8 (preset_count_init 8 exBoxCube)).map
      (fun c => (c.level, c.ix 0, c.ix 1, c.ix 2, c.wx, c.wy, c.wz)) =
      some (3, 3, 0, 0, 1 / 8, 1, 1) := by
  refine ⟨?_, ?_, ?_, ?_, ?_⟩
  · norm_num [preset_count_init, exBox133]
  · norm_num [preset_count_step, preset_count_init, exBox133, Function.update]
  · norm_num [set_preset_dir, preset_count_loop, preset_count_init, preset_count_step,
      exBox133, slice, ZOLTAN_OK, List.range_succ]
    norm_num [preset_fill_step, Function.update]
  · intro t partmid dim_spec level
    norm_num [cut_dimension, exBox133]
  · norm_num [preset_count_loop, preset_count_init, preset_count_step, exBoxCube,
      Function.update]

/-! ### The recursion conditions of `serial_rcb` -/

theorem low_count_le (m : Nat → Int) (n : Nat) : low_count m n ≤ n := by
  induction n with
  | zero => exact Nat.le_refl _
  | succ n ih =>
    rw [low_count_succ]
    split <;> omega

theorem low_count_pos_iff (m : Nat → Int) (n : Nat) :
    low_count m n ≠ 0 ↔ ∃ i, i < n ∧ m i = 0 := by
  induction n with
  | zero =>
    constructor
    · intro h; exact absurd rfl h
    · rintro ⟨i, hi, _⟩; exact absurd hi (Nat.not_lt_zero i)
  | succ n ih =>
    rw [low_count_succ]
    by_cases hm : m n = 0
    · rw [if_pos hm]
      exact ⟨fun _ => ⟨n, Nat.lt_succ_self n, hm⟩, fun _ => Nat.succ_ne_zero _⟩
    · rw [if_neg hm, ih]
      constructor
      · rintro ⟨i, hi, h0⟩; exact ⟨i, Nat.lt_succ_of_lt hi, h0⟩
      · rintro ⟨i, hi, h0⟩
        have hne : i ≠ n := fun e => hm (e ▸ h0)
        exact ⟨i, by omega, h0⟩

theorem low_count_lt_iff (m : Nat → Int) (n : Nat) :
    low_count m n ≠ n ↔ ∃ i, i < n ∧ m i ≠ 0 := by
  induction n with
  | zero =>
    constructor
    · intro h; exact absurd rfl h
    · rintro ⟨i, hi, _⟩; exact absurd hi (Nat.not_lt_zero i)
  | succ n ih =>
    have hle := low_count_le m n
    rw [low_count_succ]
    by_cases hm : m n = 0
    · rw [if_pos hm]
      constructor
      · intro h
        have h2 : low_count m n ≠ n := fun e => h (by rw [e])
        obtain ⟨i, hi, h0⟩ := ih.1 h2
        exact ⟨i, Nat.lt_succ_of_lt hi, h0⟩
      · rintro ⟨i, hi, h0⟩ e
        have hne : i ≠ n := fun e2 => h0 (e2 ▸ hm)
        exact ih.2 ⟨i, by omega, h0⟩ (by omega)
    · rw [if_neg hm]
      exact ⟨fun _ => ⟨n, Nat.lt_succ_self n, hm⟩, fun _ => by omega⟩

/-- The two dot tests of `serial_rcb` after a successful split, in terms of the
marks: `set1 != 0` says that some dot is marked 0, `set0 != dotnum` that some
dot is marked non-zero. -/
theorem serial_split_guards (env : SerialEnv) (old_set root : Int) (rcbbox : rcb_box)
    (weight : ℚ) (dotnum : Nat) (num_parts : Int) (dindx tmpdindx : Nat) (partlower : Int)
    (level : Nat) (s : SerialState) (sp : SplitOut)
    (hsp : sp = serial_split env old_set root rcbbox weight dotnum num_parts dindx tmpdindx
      partlower level s) (hok : sp.ok = true) :
    (sp.set1 ≠ 0 ↔ ∃ i, i < dotnum ∧ (env.Zoltan_RB_find_median
      (serial_median_args env rcbbox weight dotnum num_parts dindx partlower level s)).dotmark i
        = 0) ∧
    (sp.set0 ≠ dotnum ↔ ∃ i, i < dotnum ∧ (env.Zoltan_RB_find_median
      (serial_median_args env rcbbox weight dotnum num_parts dindx partlower level s)).dotmark i
        ≠ 0) := by
  obtain ⟨h0, h1, _, _⟩ := serial_split_sets env _ _ _ _ _ _ _ _ _ _ _ sp hsp hok
  rw [h1, h0]
  exact ⟨low_count_pos_iff _ _, low_count_lt_iff _ _⟩

theorem serial_rcb_conditions (env : SerialEnv) (fuel : Nat) (old_set root : Int)
    (rcbbox : rcb_box) (weight : ℚ) (dotnum : Nat) (num_parts : Int) (dindx tmpdindx : Nat)
    (partlower : Int) (level : Nat) (s : SerialState) (r : SerialResult) (sp : SplitOut)
    (hsp : sp = serial_split env old_set root rcbbox weight dotnum num_parts dindx tmpdindx
      partlower level s) (h1 : num_parts ≠ 1) (hok : sp.ok = true)
    (hr : serial_rcb env (fuel + 1) old_set root rcbbox weight dotnum num_parts dindx tmpdindx
      partlower level s = some r) :
    ∃ r0 : SerialResult,
      ((sp.partmid - partlower ≥ 1 ∧ ∃ i, i < dotnum ∧ (env.Zoltan_RB_find_median
          (serial_median_args env rcbbox weight dotnum num_parts dindx partlower level
            s)).dotmark i = 0) →
        serial_rcb env fuel 0 sp.partmid (tmpbox_set0 rcbbox sp.dim sp.valuehalf) sp.weightlo
          sp.set0 (sp.partmid - partlower) dindx tmpdindx partlower sp.level sp.st = some r0) ∧
      (¬ (sp.partmid - partlower ≥ 1 ∧ ∃ i, i < dotnum ∧ (env.Zoltan_RB_find_median
          (serial_median_args env rcbbox weight dotnum num_parts dindx partlower level
            s)).dotmark i = 0) →
        r0 = { ierr := sp.ierr, st := sp.st,
               log := [Event.branch_skipped 0 (sp.partmid - partlower) sp.set0] }) ∧
      (r0.ierr < 0 ∧ (sp.partmid - partlower ≥ 1 ∧ ∃ i, i < dotnum ∧ (env.Zoltan_RB_find_median
          (serial_median_args env rcbbox weight dotnum num_parts dindx partlower level
            s)).dotmark i = 0) →
        r = { r0 with log := sp.log ++ r0.log }) ∧
      (¬ (r0.ierr < 0 ∧ (sp.partmid - partlower ≥ 1 ∧ ∃ i, i < dotnum ∧
          (env.Zoltan_RB_find_median
            (serial_median_args env rcbbox weight dotnum num_parts dindx partlower level
              s)).dotmark i = 0)) →
        ((partlower + num_parts - sp.partmid ≥ 1 ∧ ∃ i, i < dotnum ∧ (env.Zoltan_RB_find_median
            (serial_median_args env rcbbox weight dotnum num_parts dindx partlower level
              s)).dotmark i ≠ 0) →
          ∃ r1, serial_rcb env fuel 1 sp.partmid (tmpbox_set1 rcbbox sp.dim sp.valuehalf)
              sp.weighthi (dotnum - sp.set0) (partlower + num_parts - sp.partmid)
              (dindx + sp.set1) (tmpdindx + sp.set1) sp.partmid sp.level r0.st = some r1 ∧
            r = { r1 with log := sp.log ++ r0.log ++ r1.log }) ∧
        (¬ (partlower + num_parts - sp.partmid ≥ 1 ∧ ∃ i, i < dotnum ∧
            (env.Zoltan_RB_find_median
              (serial_median_args env rcbbox weight dotnum num_parts dindx partlower level
                s)).dotmark i ≠ 0) →
          r = { r0 with
                log := sp.log ++ r0.log ++
                  [Event.branch_skipped 1 (partlower + num_parts - sp.partmid)
                    (dotnum - sp.set0)] })) := by
  obtain ⟨g0, g1⟩ := serial_split_guards env _ _ _ _ _ _ _ _ _ _ _ sp hsp hok
  obtain ⟨r0, a, b, c, d⟩ := serial_rcb_inv env fuel _ _ _ _ _ _ _ _ _ _ _ r sp hsp h1 hok hr
  have e0 : (sp.partmid - partlower > 0 ∧ sp.set1 ≠ 0) ↔
      (sp.partmid - partlower ≥ 1 ∧ ∃ i, i < dotnum ∧ (env.Zoltan_RB_find_median
          (serial_median_args env rcbbox weight dotnum num_parts dindx partlower level
            s)).dotmark i = 0) := by
    rw [g0]
    constructor
    · rintro ⟨x, y⟩; exact ⟨by omega, y⟩
    · rintro ⟨x, y⟩; exact ⟨by omega, y⟩
  have e1 : (partlower + num_parts - sp.partmid > 0 ∧ sp.set0 ≠ dotnum) ↔
      (partlower + num_parts - sp.partmid ≥ 1 ∧ ∃ i, i < dotnum ∧ (env.Zoltan_RB_find_median
          (serial_median_args env rcbbox weight dotnum num_parts dindx partlower level
            s)).dotmark i ≠ 0) := by
    rw [g1]
    constructor
    · rintro ⟨x, y⟩; exact ⟨by omega, y⟩
    · rintro ⟨x, y⟩; exact ⟨by omega, y⟩
  refine ⟨r0, fun h => a (e0.2 h), fun h => b (fun h2 => h (e0.1 h2)),
    fun h => c ⟨e0.2 h.2, h.1⟩, fun h => ?_⟩
  obtain ⟨d1, d2⟩ := d (fun h2 => h ⟨h2.2, e0.1 h2.1⟩)
  exact ⟨fun h3 => d1 (e1.2 h3), fun h3 => d2 (fun h4 => h3 (e1.1 h4))⟩

/-- C26 as stated fails when the call for the low side fails: two dots and
four partitions with `exEnvFail`.  The first split (boundary 2) marks dot 0
low and dot 1 high, so the high side has two partitions and one dot; the call
for the low side returns `ZOLTAN_FATAL` (its median search fails), and
`serial_rcb` returns at once without the call for the high side: dot 1 keeps
its `Part`, and the log ends with the failed search. -/
theorem serial_recursion_conditions_counterexample :
    ((serial_split exEnvFail 1 0 exBox133 2 2 4 0 2 0 0 exState).ok = true ∧
      (serial_split exEnvFail 1 0 exBox133 2 2 4 0 2 0 0 exState).partmid = 2 ∧
      (0 : Int) + 4 - 2 ≥ 1 ∧
      (exEnvFail.Zoltan_RB_find_median
        (serial_median_args exEnvFail exBox133 2 2 4 0 0 0 exState)).dotmark 1 ≠ 0) ∧
    (serial_rcb exEnvFail 4 1 0 exBox133 2 2 4 0 2 0 0 exState).map
      (fun r => (r.ierr, (r.st.dotpt 0).Part, (r.st.dotpt 1).Part)) =
      some (ZOLTAN_FATAL, -7, -7) ∧
    (serial_rcb exEnvFail 4 1 0 exBox133 2 2 4 0 2 0 0 exState).map (fun r => r.log) =
      some [Event.find_median 2 0 true, Event.find_median 1 0 false] :=
  ⟨⟨by decide, by decide, by decide, by decide⟩, by decide, by decide⟩

/-- C26, amended.  After the regrouping step of `serial_rcb` (median search
succeeded) `set0` and `set1` are equal, both the number of dots marked 0.
`serial_rcb` makes the recursive call for the low side exactly when the low
side has at least one partition and at least one dot is marked 0.  If that
call was made and returned a negative status, `serial_rcb` returns at once.
Otherwise it makes the call for the high side exactly when the high side has
at least one partition and at least one dot is marked non-zero. -/
theorem serial_recursion_conditions (env : SerialEnv) (fuel : Nat) (old_set root : Int)
    (rcbbox : rcb_box) (weight : ℚ) (dotnum : Nat) (num_parts : Int) (dindx tmpdindx : Nat)
    (partlower : Int) (level : Nat) (s : SerialState) (r : SerialResult) (sp : SplitOut)
    (hsp : sp = serial_split env old_set root rcbbox weight dotnum num_parts dindx tmpdindx
      partlower level s) (h1 : num_parts ≠ 1) (hok : sp.ok = true)
    (hr : serial_rcb env (fuel + 1) old_set root rcbbox weight dotnum num_parts dindx tmpdindx
      partlower level s = some r) :
    (sp.set0 = sp.set1 ∧
      sp.set0 = low_count (env.Zoltan_RB_find_median
        (serial_median_args env rcbbox weight dotnum num_parts dindx partlower level s)).dotmark
        dotnum) ∧
    ∃ r0 : SerialResult,
      ((sp.partmid - partlower ≥ 1 ∧ ∃ i, i < dotnum ∧ (env.Zoltan_RB_find_median
          (serial_median_args env rcbbox weight dotnum num_parts dindx partlower level
            s)).dotmark i = 0) →
        serial_rcb env fuel 0 sp.partmid (tmpbox_set0 rcbbox sp.dim sp.valuehalf) sp.weightlo
          sp.set0 (sp.partmid - partlower) dindx tmpdindx partlower sp.level sp.st = some r0) ∧
      (¬ (sp.partmid - partlower ≥ 1 ∧ ∃ i, i < dotnum ∧ (env.Zoltan_RB_find_median
          (serial_median_args env rcbbox weight dotnum num_parts dindx partlower level
            s)).dotmark i = 0) →
        r0 = { ierr := sp.ierr, st := sp.st,
               log := [Event.branch_skipped 0 (sp.partmid - partlower) sp.set0] }) ∧
      (r0.ierr < 0 ∧ (sp.partmid - partlower ≥ 1 ∧ ∃ i, i < dotnum ∧ (env.Zoltan_RB_find_median
          (serial_median_args env rcbbox weight dotnum num_parts dindx partlower level
            s)).dotmark i = 0) →
        r = { r0 with log := sp.log ++ r0.log }) ∧
      (¬ (r0.ierr < 0 ∧ (sp.partmid - partlower ≥ 1 ∧ ∃ i, i < dotnum ∧
          (env.Zoltan_RB_find_median
            (serial_median_args env rcbbox weight dotnum num_parts dindx partlower level
              s)).dotmark i = 0)) →
        ((partlower + num_parts - sp.partmid ≥ 1 ∧ ∃ i, i < dotnum ∧ (env.Zoltan_RB_find_median
            (serial_median_args env rcbbox weight dotnum num_parts dindx partlower level
              s)).dotmark i ≠ 0) →
          ∃ r1, serial_rcb env fuel 1 sp.partmid (tmpbox_set1 rcbbox sp.dim sp.valuehalf)
              sp.weighthi (dotnum - sp.set0) (partlower + num_parts - sp.partmid)
              (dindx + sp.set1) (tmpdindx + sp.set1) sp.partmid sp.level r0.st = some r1 ∧
            r = { r1 with log := sp.log ++ r0.log ++ r1.log }) ∧
        (¬ (partlower + num_parts - sp.partmid ≥ 1 ∧ ∃ i, i < dotnum ∧
            (env.Zoltan_RB_find_median
              (serial_median_args env rcbbox weight dotnum num_parts dindx partlower level
                s)).dotmark i ≠ 0) →
          r = { r0 with
                log := sp.log ++ r0.log ++
                  [Event.branch_skipped 1 (partlower + num_parts - sp.partmid)
                    (dotnum - sp.set0)] })) :=
  ⟨⟨((serial_split_sets env _ _ _ _ _ _ _ _ _ _ _ sp hsp hok).2.1).symm,
    (serial_split_sets env _ _ _ _ _ _ _ _ _ _ _ sp hsp hok).1⟩,
   serial_rcb_conditions env fuel _ _ _ _ _ _ _ _ _ _ _ r sp hsp h1 hok hr⟩

/-- The run of `exEnv` on two dots and two partitions: the split marks dot 0
low and dot 1 high, and both counters are 1. -/
theorem serial_recursion_conditions_witness :
    ((2 : Int) ≠ 1 ∧ (serial_split exEnv 1 0 exBox133 2 2 2 0 2 0 0 exState).ok = true) ∧
    ∃ r, serial_rcb exEnv (1 + 1) 1 0 exBox133 2 2 2 0 2 0 0 exState = some r ∧
      (serial_split exEnv 1 0 exBox133 2 2 2 0 2 0 0 exState).set0 =
        (serial_split exEnv 1 0 exBox133 2 2 2 0 2 0 0 exState).set1 ∧
      (serial_split exEnv 1 0 exBox133 2 2 2 0 2 0 0 exState).set0 =
        low_count (exEnv.Zoltan_RB_find_median
          (serial_median_args exEnv exBox133 2 2 2 0 0 0 exState)).dotmark 2 := by
  obtain ⟨r, hr⟩ := serial_rcb_total exEnv exEnv_divider (1 + 1) 1 0 exBox133 2 2 2 0 2 0 0
    exState (by decide) (by decide)
  exact ⟨⟨by decide, rfl⟩, r, hr,
    (serial_recursion_conditions exEnv 1 1 0 exBox133 2 2 2 0 2 0 0 exState r _ rfl (by decide)
      rfl hr).1⟩

/-! ### Consumption of the preset sequence -/

theorem serial_split_preset (env : SerialEnv) (hlock : env.lock_direction = 0)
    (hpreset : env.preset_dir ≠ 0) (old_set root : Int) (rcbbox : rcb_box)
    (weight : ℚ) (dotnum : Nat) (num_parts : Int) (dindx tmpdindx : Nat) (partlower : Int)
    (level : Nat) (s : SerialState) (sp : SplitOut)
    (hsp : sp = serial_split env old_set root rcbbox weight dotnum num_parts dindx tmpdindx
      partlower level s) :
    sp.dim = env.dim_spec level ∧ sp.level = level + 1 ∧
    sp.log = [Event.dim_spec_read level, Event.find_median sp.partmid sp.first_guess sp.ok] := by
  have hlog := serial_split_log_eq env _ _ _ _ _ _ _ _ _ _ _ sp hsp
  have hd := serial_split_dim_level env old_set root rcbbox weight dotnum num_parts dindx
    tmpdindx partlower level s
  rw [← hsp, cut_dimension_preset _ _ _ _ _ _ _ hlock hpreset] at hd
  refine ⟨hd.1, hd.2, ?_⟩
  rw [hlog, serial_split_log, if_pos ⟨hlock, hpreset⟩]
  rfl

theorem serial_split_level_cases (env : SerialEnv) (old_set root : Int) (rcbbox : rcb_box)
    (weight : ℚ) (dotnum : Nat) (num_parts : Int) (dindx tmpdindx : Nat) (partlower : Int)
    (level : Nat) (s : SerialState) :
    (serial_split env old_set root rcbbox weight dotnum num_parts dindx tmpdindx partlower
      level s).level = level ∨
    (serial_split env old_set root rcbbox weight dotnum num_parts dindx tmpdindx partlower
      level s).level = level + 1 := by
  rw [(serial_split_dim_level env _ _ _ _ _ _ _ _ _ _ _).2]
  by_cases h : env.lock_direction ≠ 0 ∨ env.preset_dir = 0
  · left; exact cut_dimension_level_same _ _ _ _ _ _ _ h
  · right
    have h1 : env.lock_direction = 0 := by
      by_contra hne; exact h (Or.inl hne)
    have h2 : env.preset_dir ≠ 0 := fun e => h (Or.inr e)
    rw [cut_dimension_preset _ _ _ _ _ _ _ h1 h2]

theorem reaches_level (env : SerialEnv) (hlock : env.lock_direction = 0)
    (hpreset : env.preset_dir ≠ 0) (c0 : SerialCall) (k : Nat) (c : SerialCall)
    (h : Reaches env c0 k c) : c.level = c0.level + k := by
  induction h with
  | top => rfl
  | low k c h h1 hok hg ih =>
    show (c.sp env).level = c0.level + (k + 1)
    rw [(serial_split_preset env hlock hpreset _ _ _ _ _ _ _ _ _ _ _ (c.sp env) rfl).2.1, ih]
    omega
  | high k c r0 h h1 hok hl hl0 hcont hg ih =>
    show (c.sp env).level = c0.level + (k + 1)
    rw [(serial_split_preset env hlock hpreset _ _ _ _ _ _ _ _ _ _ _ (c.sp env) rfl).2.1, ih]
    omega

/-- C25. Preset consumption.  With directions not locked and a preset order
active, `cut_dimension` returns `dim_spec[level]` and the level counter
increased by one; in locked mode and in heuristic mode the counter is returned
as it was.  In `serial_rcb` both recursive calls of a call at level `l` are
made with level `l + 1`, so a call at recursion depth `k` below a call started
at level `l0` has level `l0 + k`, and its split reads entry `l0 + k` of the
sequence (and cuts along it). -/
theorem preset_consumption (env : SerialEnv) (hlock : env.lock_direction = 0)
    (hpreset : env.preset_dir ≠ 0) :
    (∀ (treept : Int → rcb_tree) (partmid : Int) (level : Nat) (rcbbox : rcb_box),
      cut_dimension env.lock_direction treept partmid env.preset_dir env.dim_spec level rcbbox =
        (env.dim_spec level, level + 1)) ∧
    (∀ (lock_direction preset_dir : Int) (treept : Int → rcb_tree) (partmid : Int)
        (dim_spec : Nat → Int) (level : Nat) (rcbbox : rcb_box),
      lock_direction ≠ 0 ∨ preset_dir = 0 →
      (cut_dimension lock_direction treept partmid preset_dir dim_spec level rcbbox).2 = level) ∧
    (∀ c : SerialCall, (c.low env).level = c.level + 1 ∧
      ∀ st : SerialState, (c.high env st).level = c.level + 1) ∧
    (∀ (c0 : SerialCall) (k : Nat) (c : SerialCall), Reaches env c0 k c →
      c.level = c0.level + k ∧
      (c.num_parts ≠ 1 →
        (c.sp env).dim = env.dim_spec (c0.level + k) ∧
        (c.sp env).log = [Event.dim_spec_read (c0.level + k),
          Event.find_median (c.sp env).partmid (c.sp env).first_guess (c.sp env).ok])) := by
  refine ⟨fun treept partmid level rcbbox => cut_dimension_preset _ _ _ _ _ _ _ hlock hpreset,
    fun lock_direction preset_dir treept partmid dim_spec level rcbbox h =>
      cut_dimension_level_same _ _ _ _ _ _ _ h, fun c => ?_, fun c0 k c h => ?_⟩
  · have e := (serial_split_preset env hlock hpreset _ _ _ _ _ _ _ _ _ _ _ (c.sp env) rfl).2.1
    exact ⟨e, fun st => e⟩
  · have hl := reaches_level env hlock hpreset c0 k c h
    refine ⟨hl, fun _ => ?_⟩
    have e := serial_split_preset env hlock hpreset _ _ _ _ _ _ _ _ _ _ _ (c.sp env) rfl
    rw [hl] at e
    exact ⟨e.1, e.2.2⟩

/-- The run of `exEnvPreset` on three dots and three partitions started at
level 0: the call for set 0 is at depth 1 and has level 1. -/
theorem preset_consumption_witness :
    (exEnvPreset.lock_direction = 0 ∧ exEnvPreset.preset_dir ≠ 0 ∧
      Reaches exEnvPreset exCall 1 (exCall.low exEnvPreset)) ∧
    (exCall.low exEnvPreset).level = exCall.level + 1 :=
  ⟨⟨rfl, by decide, Reaches.low 0 exCall Reaches.top (by decide) (by decide)
      ⟨by decide, by decide⟩⟩,
   ((preset_consumption exEnvPreset rfl (by decide)).2.2.2 exCall 1 (exCall.low exEnvPreset)
      (Reaches.low 0 exCall Reaches.top (by decide) (by decide) ⟨by decide, by decide⟩)).1⟩

/-! ### Reads of the preset sequence -/

theorem DividerHalf.ok {env : SerialEnv} (h : DividerHalf env) : DividerOK env := by
  intro n l hn
  obtain ⟨h1, _, h3, _⟩ := h n l hn
  constructor <;> omega

theorem mem_serial_split_log (env : SerialEnv) (level l : Nat) (partmid first_guess : Int)
    (ok : Bool) (h : Event.dim_spec_read l ∈ serial_split_log env level partmid first_guess ok) :
    l = level := by
  unfold serial_split_log at h
  rw [List.mem_append] at h
  rcases h with h | h
  · split at h
    · rw [List.mem_singleton] at h
      cases h; rfl
    · cases h
  · rw [List.mem_singleton] at h
    cases h

theorem half_le_pow (n x : Int) (K : Nat) (hn : 2 ≤ n) (hK : n ≤ 2 ^ K)
    (hx : x ≤ (n + 1) / 2) : 1 ≤ K ∧ x ≤ 2 ^ (K - 1) := by
  cases K with
  | zero =>
    rw [pow_zero] at hK
    omega
  | succ K =>
    refine ⟨by omega, ?_⟩
    rw [pow_succ] at hK
    rw [Nat.add_sub_cancel]
    generalize (2 : Int) ^ K = m at *
    omega

/-- With a divider that gives neither side more than `ceil(n/2)` partitions, a
run on `num_parts ≤ 2 ^ K` partitions started at `level` reads only entries
`level, ..., level + K - 1` of the preset sequence. -/
theorem run_reads_bound (env : SerialEnv) (hdiv : DividerHalf env)
    {old_set root : Int} {rcbbox : rcb_box} {weight : ℚ}
    {dotnum : Nat} {num_parts : Int} {dindx tmpdindx : Nat} {partlower : Int} {level : Nat}
    {s : SerialState} {r : SerialResult}
    (h : Run env old_set root rcbbox weight dotnum num_parts dindx tmpdindx partlower level s r) :
    1 ≤ num_parts → ∀ K : Nat, num_parts ≤ 2 ^ K →
      ∀ l : Nat, Event.dim_spec_read l ∈ r.log → level ≤ l ∧ l < level + K := by
  induction h with
  | leaf old_set root rcbbox weight dotnum dindx tmpdindx partlower level s =>
    intro _ K _ l hl
    cases hl
  | fail old_set root rcbbox weight dotnum num_parts dindx tmpdindx partlower level s sp hsp
      h1 hok =>
    intro hn K hK l hl
    have hK1 := (half_le_pow num_parts 0 K (by omega) hK (by omega)).1
    have hlog := serial_split_log_eq env _ _ _ _ _ _ _ _ _ _ _ sp hsp
    simp only at hl
    rw [hlog] at hl
    have := mem_serial_split_log env _ _ _ _ _ hl
    omega
  | abort old_set root rcbbox weight dotnum num_parts dindx tmpdindx partlower level s sp r0
      hsp h1 hok hc hrun hneg ih =>
    intro hn K hK l hl
    have hn2 : 2 ≤ num_parts := by omega
    have hpm : sp.partmid = (env.Zoltan_Divide_Parts num_parts partlower).partmid := by
      rw [hsp, serial_split_partmid]
    obtain ⟨d1, d2, d3, d4⟩ := hdiv num_parts partlower hn2
    rw [← hpm] at d1 d2 d3 d4
    have hlev : sp.level = level ∨ sp.level = level + 1 := by
      rw [hsp]; exact serial_split_level_cases env _ _ _ _ _ _ _ _ _ _ _
    have hlog := serial_split_log_eq env _ _ _ _ _ _ _ _ _ _ _ sp hsp
    obtain ⟨hK1, hK0⟩ := half_le_pow num_parts (sp.partmid - partlower) K hn2 hK d2
    simp only at hl
    rw [List.mem_append] at hl
    rcases hl with hl | hl
    · rw [hlog] at hl
      have := mem_serial_split_log env _ _ _ _ _ hl
      omega
    · have := ih d1 (K - 1) hK0 l hl
      omega
  | node old_set root rcbbox weight dotnum num_parts dindx tmpdindx partlower level s sp r0 r1
      hsp h1 hok hl hl0 hcont hh hh0 ihl ihh =>
    intro hn K hK l hmem
    have hn2 : 2 ≤ num_parts := by omega
    have hpm : sp.partmid = (env.Zoltan_Divide_Parts num_parts partlower).partmid := by
      rw [hsp, serial_split_partmid]
    obtain ⟨d1, d2, d3, d4⟩ := hdiv num_parts partlower hn2
    rw [← hpm] at d1 d2 d3 d4
    have hlev : sp.level = level ∨ sp.level = level + 1 := by
      rw [hsp]; exact serial_split_level_cases env _ _ _ _ _ _ _ _ _ _ _
    have hlog := serial_split_log_eq env _ _ _ _ _ _ _ _ _ _ _ sp hsp
    obtain ⟨hK1, hK0⟩ := half_le_pow num_parts (sp.partmid - partlower) K hn2 hK d2
    obtain ⟨_, hK0h⟩ := half_le_pow num_parts (partlower + num_parts - sp.partmid) K hn2 hK d4
    simp only at hmem
    rw [List.mem_append, List.mem_append] at hmem
    rcases hmem with (hm | hm) | hm
    · rw [hlog] at hm
      have := mem_serial_split_log env _ _ _ _ _ hm
      omega
    · by_cases hc : sp.partmid - partlower > 0 ∧ sp.set1 ≠ 0
      · have := ihl hc d1 (K - 1) hK0 l hm
        omega
      · rw [hl0 hc] at hm
        simp at hm
    · by_cases hc : partlower + num_parts - sp.partmid > 0 ∧ sp.set0 ≠ dotnum
      · have := ihh hc d3 (K - 1) hK0h l hm
        omega
      · rw [hh0 hc] at hm
        simp at hm

theorem axis_ite (c : Prop) [Decidable c] (a b : Int) (ha : a = 0 ∨ a = 1 ∨ a = 2)
    (hb : b = 0 ∨ b = 1 ∨ b = 2) : (if c then a else b) = 0 ∨ (if c then a else b) = 1 ∨
      (if c then a else b) = 2 := by
  split <;> assumption

/-- One iteration of the assignment loop writes the axis it has chosen, one of
0, 1, 2. -/
theorem preset_fill_step_dim (preset_dir : Int) (f : PresetFill) (i : Nat)
    (h : f.dim = 0 ∨ f.dim = 1 ∨ f.dim = 2) :
    ((preset_fill_step preset_dir f i).dim = 0 ∨ (preset_fill_step preset_dir f i).dim = 1 ∨
      (preset_fill_step preset_dir f i).dim = 2) ∧
    (preset_fill_step preset_dir f i).dim_spec i = (preset_fill_step preset_dir f i).dim := by
  unfold preset_fill_step
  dsimp only
  refine ⟨?_, Function.update_same _ _ _⟩
  apply axis_ite
  · apply axis_ite
    · exact Or.inl rfl
    · apply axis_ite
      · exact Or.inr (Or.inl rfl)
      · exact Or.inl rfl
  · apply axis_ite
    · apply axis_ite
      · exact Or.inr (Or.inl rfl)
      · apply axis_ite
        · exact Or.inr (Or.inr rfl)
        · exact Or.inl rfl
    · apply axis_ite
      · apply axis_ite
        · exact Or.inl rfl
        · apply axis_ite
          · exact Or.inr (Or.inl rfl)
          · exact Or.inr (Or.inr rfl)
      · exact h

theorem preset_fill_dims (preset_dir : Int) (n : Nat) :
    ∀ f : PresetFill, (f.dim = 0 ∨ f.dim = 1 ∨ f.dim = 2) →
      (((List.range n).foldl (preset_fill_step preset_dir) f).dim = 0 ∨
        ((List.range n).foldl (preset_fill_step preset_dir) f).dim = 1 ∨
        ((List.range n).foldl (preset_fill_step preset_dir) f).dim = 2) ∧
      ∀ i : Nat, i < n →
        (((List.range n).foldl (preset_fill_step preset_dir) f).dim_spec i = 0 ∨
          ((List.range n).foldl (preset_fill_step preset_dir) f).dim_spec i = 1 ∨
          ((List.range n).foldl (preset_fill_step preset_dir) f).dim_spec i = 2) := by
  induction n with
  | zero =>
    intro f hf
    exact ⟨hf, fun i hi => absurd hi (Nat.not_lt_zero i)⟩
  | succ n ih =>
    intro f hf
    obtain ⟨h1, h2⟩ := ih f hf
    rw [List.range_succ, List.foldl_append]
    simp only [List.foldl_cons, List.foldl_nil]
    obtain ⟨s1, s2⟩ := preset_fill_step_dim preset_dir
      ((List.range n).foldl (preset_fill_step preset_dir) f) n h1
    refine ⟨s1, fun i hi => ?_⟩
    by_cases hin : i = n
    · subst hin
      rw [s2]
      exact s1
    · rw [preset_fill_step_untouched _ _ _ _ hin]
      exact h2 i (by omega)

/-- The sequence `set_preset_dir` builds: its length bounds the partition
count by a power of two, and each of its entries is an axis 0, 1 or 2. -/
theorem preset_seq_spec (nparts preset_dir : Int) (rcbbox : rcb_box) (block : Nat → Int) :
    ∃ pr, set_preset_dir nparts preset_dir rcbbox none (some block) = some pr ∧
      (1 ≤ nparts → nparts ≤ 2 ^ pr.level) ∧
      (1 < nparts → pr.dim_spec = some (preset_seq nparts preset_dir rcbbox block)) ∧
      ∀ l : Nat, l < pr.level →
        (preset_seq nparts preset_dir rcbbox block l = 0 ∨
          preset_seq nparts preset_dir rcbbox block l = 1 ∨
          preset_seq nparts preset_dir rcbbox block l = 2) := by
  obtain ⟨pr, hpr, hb, _, hs⟩ := set_preset_dir_length nparts preset_dir rcbbox none block
  have hfuel : (preset_count_init nparts rcbbox).tmp_nparts ≤ (nparts.toNat : Int) := by
    simp only [preset_count_init]
    omega
  obtain ⟨c, hc, _⟩ := preset_count_loop_spec nparts.toNat _ hfuel
  have e := set_preset_dir_eq nparts preset_dir rcbbox none block c hc
  have hseq : preset_seq nparts preset_dir rcbbox block = pr.dim_spec.getD block := by
    unfold preset_seq
    rw [hpr]
  refine ⟨pr, hpr, fun hn => (hb hn).1, fun hn => ?_, fun l hl => ?_⟩
  · obtain ⟨a, ha, _⟩ := hs hn
    rw [hseq, ha]
    rfl
  · rw [hpr] at e
    have e2 := Option.some.inj e
    by_cases hlev : c.level > 0
    · rw [if_pos hlev] at e2
      rw [hseq, e2]
      have hl2 : l < c.level := by rw [e2] at hl; exact hl
      exact (preset_fill_dims _ c.level _ (Or.inl rfl)).2 l hl2
    · rw [if_neg hlev] at e2
      rw [e2] at hl
      exact absurd hl (Nat.not_lt_zero l)

theorem exEnvPreset_half : DividerHalf exEnvPreset := by
  intro n l hn
  simp only [exEnvPreset, exEnv]
  omega

/-- C30. Preset sequence reads stay in bounds.  With a divider that gives
each side of a split of `n` partitions at least one and at most `ceil(n/2)`
partitions, a run of `serial_rcb` started with level 0 and `num_parts = N ≥ 1`
on the sequence `set_preset_dir` built for `N` returns (with fuel `N` or
more), every index it uses to read `dim_spec` is smaller than the length of
the sequence, and every axis it reads is 0, 1 or 2. -/
theorem preset_reads_in_bounds (env : SerialEnv) (hdiv : DividerHalf env) (N preset_dir : Int)
    (box : rcb_box) (block : Nat → Int) (hN : 1 ≤ N)
    (hseq : env.dim_spec = preset_seq N preset_dir box block) (fuel : Nat) (hfuel : N ≤ fuel)
    (old_set root : Int) (rcbbox : rcb_box) (weight : ℚ) (dotnum dindx tmpdindx : Nat)
    (partlower : Int) (s : SerialState) :
    ∃ pr r, set_preset_dir N preset_dir box none (some block) = some pr ∧
      serial_rcb env fuel old_set root rcbbox weight dotnum N dindx tmpdindx partlower 0 s
        = some r ∧
      ∀ l : Nat, Event.dim_spec_read l ∈ r.log →
        l < pr.level ∧ (env.dim_spec l = 0 ∨ env.dim_spec l = 1 ∨ env.dim_spec l = 2) := by
  obtain ⟨pr, hpr, hb, _, hax⟩ := preset_seq_spec N preset_dir box block
  obtain ⟨r, hr⟩ := serial_rcb_total env hdiv.ok fuel old_set root rcbbox weight dotnum N dindx
    tmpdindx partlower 0 s hN hfuel
  refine ⟨pr, r, hpr, hr, fun l hl => ?_⟩
  have hrun := serial_rcb_run env fuel _ _ _ _ _ _ _ _ _ _ _ r hr
  have hbound := run_reads_bound env hdiv hrun hN pr.level (hb hN) l hl
  have hlt : l < pr.level := by omega
  refine ⟨hlt, ?_⟩
  rw [hseq]
  exact hax l hlt

/-- Three dots and three partitions with `exEnvPreset`: the sequence has two
entries, and the run reads entries 0 and 1 only. -/
theorem preset_reads_in_bounds_witness :
    DividerHalf exEnvPreset ∧ (1 : Int) ≤ 3 ∧
    exEnvPreset.dim_spec = preset_seq 3 1 exBox133 (fun _ => -1) ∧
    ∃ pr r, set_preset_dir 3 1 exBox133 none (some (fun _ => -1)) = some pr ∧
      serial_rcb exEnvPreset 3 1 0 exBox133 3 3 3 0 3 0 0 exState = some r ∧
      ∀ l : Nat, Event.dim_spec_read l ∈ r.log →
        l < pr.level ∧ (exEnvPreset.dim_spec l = 0 ∨ exEnvPreset.dim_spec l = 1 ∨
          exEnvPreset.dim_spec l = 2) :=
  ⟨exEnvPreset_half, by decide, rfl,
   preset_reads_in_bounds exEnvPreset exEnvPreset_half 3 1 exBox133 (fun _ => -1) (by decide)
     rfl 3 (by decide) 1 0 exBox133 3 3 0 3 0 exState⟩

/-! ### Partition numbers and the cut -/

/-- A call of `serial_rcb` has at most one outcome. -/
theorem run_unique (env : SerialEnv)
    {old_set root : Int} {rcbbox : rcb_box} {weight : ℚ}
    {dotnum : Nat} {num_parts : Int} {dindx tmpdindx : Nat} {partlower : Int} {level : Nat}
    {s : SerialState} {r : SerialResult}
    (h : Run env old_set root rcbbox weight dotnum num_parts dindx tmpdindx partlower level s r) :
    ∀ r2 : SerialResult,
      Run env old_set root rcbbox weight dotnum num_parts dindx tmpdindx partlower level s r2 →
      r = r2 := by
  induction h with
  | leaf old_set root rcbbox weight dotnum dindx tmpdindx partlower level s =>
    intro r2 h2
    cases h2 with
    | leaf => rfl
    | fail _ _ _ _ _ _ _ _ _ _ _ sp hsp h1 hok => exact absurd rfl h1
    | abort _ _ _ _ _ _ _ _ _ _ _ sp r0 hsp h1 hok hc hrun hneg => exact absurd rfl h1
    | node _ _ _ _ _ _ _ _ _ _ _ sp r0 r1 hsp h1 hok hl hl0 hcont hh hh0 => exact absurd rfl h1
  | fail old_set root rcbbox weight dotnum num_parts dindx tmpdindx partlower level s sp hsp
      h1 hok =>
    intro r2 h2
    cases h2 with
    | leaf => exact absurd rfl h1
    | fail _ _ _ _ _ _ _ _ _ _ _ sp2 hsp2 h12 hok2 => rw [hsp, hsp2]
    | abort _ _ _ _ _ _ _ _ _ _ _ sp2 r0 hsp2 h12 hok2 hc hrun hneg =>
      rw [hsp2, ← hsp, hok] at hok2; cases hok2
    | node _ _ _ _ _ _ _ _ _ _ _ sp2 r0 r1 hsp2 h12 hok2 hl hl0 hcont hh hh0 =>
      rw [hsp2, ← hsp, hok] at hok2; cases hok2
  | abort old_set root rcbbox weight dotnum num_parts dindx tmpdindx partlower level s sp r0
      hsp h1 hok hc hrun hneg ih =>
    intro r2 h2
    cases h2 with
    | leaf => exact absurd rfl h1
    | fail _ _ _ _ _ _ _ _ _ _ _ sp2 hsp2 h12 hok2 =>
      rw [hsp2, ← hsp, hok] at hok2; cases hok2
    | abort _ _ _ _ _ _ _ _ _ _ _ sp2 r02 hsp2 h12 hok2 hc2 hrun2 hneg2 =>
      have e : sp2 = sp := by rw [hsp, hsp2]
      subst e
      have e0 := ih r02 hrun2
      subst e0
      rfl
    | node _ _ _ _ _ _ _ _ _ _ _ sp2 r02 r12 hsp2 h12 hok2 hl2 hl02 hcont2 hh2 hh02 =>
      have e : sp2 = sp := by rw [hsp, hsp2]
      subst e
      have e0 := ih r02 (hl2 hc)
      subst e0
      exact absurd ⟨hc, hneg⟩ hcont2
  | node old_set root rcbbox weight dotnum num_parts dindx tmpdindx partlower level s sp r0 r1
      hsp h1 hok hl hl0 hcont hh hh0 ihl ihh =>
    intro r2 h2
    cases h2 with
    | leaf => exact absurd rfl h1
    | fail _ _ _ _ _ _ _ _ _ _ _ sp2 hsp2 h12 hok2 =>
      rw [hsp2, ← hsp, hok] at hok2; cases hok2
    | abort _ _ _ _ _ _ _ _ _ _ _ sp2 r02 hsp2 h12 hok2 hc2 hrun2 hneg2 =>
      have e : sp2 = sp := by rw [hsp, hsp2]
      subst e
      have e0 := ihl hc2 r02 hrun2
      subst e0
      exact absurd ⟨hc2, hneg2⟩ hcont
    | node _ _ _ _ _ _ _ _ _ _ _ sp2 r02 r12 hsp2 h12 hok2 hl2 hl02 hcont2 hh2 hh02 =>
      have e : sp2 = sp := by rw [hsp, hsp2]
      subst e
      have e0 : r0 = r02 := by
        by_cases hc : sp2.partmid - partlower > 0 ∧ sp2.set1 ≠ 0
        · exact ihl hc r02 (hl2 hc)
        · rw [hl0 hc, hl02 hc]
      subst e0
      have e1 : r1 = r12 := by
        by_cases hc : partlower + num_parts - sp2.partmid > 0 ∧ sp2.set0 ≠ dotnum
        · exact ihh hc r12 (hh2 hc)
        · rw [hh0 hc, hh02 hc]
      subst e1
      rfl

/-- The two sides of a successful split as ranges of the regrouped `dindx`: a
dot listed at a position marked 0 is in `dindx[0..set0)`, a dot listed at a
position marked non-zero is in `dindx[set0..dotnum)`. -/
theorem serial_split_sides (env : SerialEnv) (old_set root : Int) (rcbbox : rcb_box)
    (weight : ℚ) (dotnum : Nat) (num_parts : Int) (dindx tmpdindx : Nat) (partlower : Int)
    (level : Nat) (s : SerialState) (sp : SplitOut)
    (hsp : sp = serial_split env old_set root rcbbox weight dotnum num_parts dindx tmpdindx
      partlower level s) (hok : sp.ok = true) :
    sp.set1 = sp.set0 ∧ sp.set0 ≤ dotnum ∧
    slice sp.st.dindx dindx dotnum =
      slice sp.st.dindx dindx sp.set0 ++
        slice sp.st.dindx (dindx + sp.set0) (dotnum - sp.set0) ∧
    (slice sp.st.dindx dindx dotnum).Perm (slice s.dindx dindx dotnum) ∧
    ∀ i : Nat, i < dotnum →
      ((env.Zoltan_RB_find_median
          (serial_median_args env rcbbox weight dotnum num_parts dindx partlower level
            s)).dotmark i = 0 →
        s.dindx (dindx + i) ∈ slice sp.st.dindx dindx sp.set0) ∧
      ((env.Zoltan_RB_find_median
          (serial_median_args env rcbbox weight dotnum num_parts dindx partlower level
            s)).dotmark i ≠ 0 →
        s.dindx (dindx + i) ∈ slice sp.st.dindx (dindx + sp.set0) (dotnum - sp.set0)) := by
  obtain ⟨h0, h1, h2, _⟩ := serial_split_sets env _ _ _ _ _ _ _ _ _ _ _ sp hsp hok
  have hd := serial_split_dindx env _ _ _ _ _ _ _ _ _ _ _ sp hsp
  have hspec := regroup_spec
    (env.Zoltan_RB_find_median
      (serial_median_args env rcbbox weight dotnum num_parts dindx partlower level s)).dotmark
    s.dindx dindx tmpdindx dotnum s.tmpdindx
  simp only at hspec
  obtain ⟨_, _, _, hlow, hhigh, _, _⟩ := hspec
  have e : dotnum = sp.set0 + (dotnum - sp.set0) := by have := hd.1; omega
  refine ⟨h1, hd.1, ?_, hd.2.2.1, fun i hi => ⟨fun hm => ?_, fun hm => ?_⟩⟩
  · conv_lhs => rw [e]
    rw [slice_append]
  · rw [h2, h0]
    unfold regrouped low_count
    rw [hlow]
    unfold marked_low
    rw [List.mem_map]
    refine ⟨i, ?_, rfl⟩
    rw [List.mem_filter]
    exact ⟨List.mem_range.2 hi, decide_eq_true hm⟩
  · rw [h2, h0]
    unfold regrouped low_count
    rw [hhigh, List.mem_reverse]
    unfold marked_high
    rw [List.mem_map]
    refine ⟨i, ?_, rfl⟩
    rw [List.mem_filter]
    exact ⟨List.mem_range.2 hi, decide_eq_true hm⟩

/-- A call that splits, under the contracts of divider and median search and
on a range of `dindx` without repetition: the outcomes `r0`, `r1` of its two
branches, what they do to the dots of either side, and the partition numbers
the dots of either side end with. -/
theorem run_split_children (env : SerialEnv) (hmed : MedianOK env) (hdiv : DividerOK env)
    {old_set root : Int} {rcbbox : rcb_box} {weight : ℚ}
    {dotnum : Nat} {num_parts : Int} {dindx tmpdindx : Nat} {partlower : Int} {level : Nat}
    {s : SerialState} {r : SerialResult}
    (h : Run env old_set root rcbbox weight dotnum num_parts dindx tmpdindx partlower level s r) :
    num_parts ≠ 1 → 1 ≤ num_parts → (slice s.dindx dindx dotnum).Nodup →
    ∀ sp : SplitOut,
      sp = serial_split env old_set root rcbbox weight dotnum num_parts dindx tmpdindx
        partlower level s →
      ∃ r0 r1 : SerialResult,
        (sp.partmid - partlower > 0 ∧ sp.set1 ≠ 0 →
          Run env 0 sp.partmid (tmpbox_set0 rcbbox sp.dim sp.valuehalf) sp.weightlo sp.set0
            (sp.partmid - partlower) dindx tmpdindx partlower sp.level sp.st r0) ∧
        (¬ (sp.partmid - partlower > 0 ∧ sp.set1 ≠ 0) →
          r0 = { ierr := sp.ierr, st := sp.st,
                 log := [Event.branch_skipped 0 (sp.partmid - partlower) sp.set0] }) ∧
        (partlower + num_parts - sp.partmid > 0 ∧ sp.set0 ≠ dotnum →
          Run env 1 sp.partmid (tmpbox_set1 rcbbox sp.dim sp.valuehalf) sp.weighthi
            (dotnum - sp.set0) (partlower + num_parts - sp.partmid) (dindx + sp.set1)
            (tmpdindx + sp.set1) sp.partmid sp.level r0.st r1) ∧
        r.st = r1.st ∧
        slice r0.st.dindx (dindx + sp.set1) (dotnum - sp.set0) =
          slice sp.st.dindx (dindx + sp.set0) (dotnum - sp.set0) ∧
        (∀ d, d ∈ slice sp.st.dindx dindx sp.set0 →
          d ∉ slice sp.st.dindx (dindx + sp.set0) (dotnum - sp.set0)) ∧
        (∀ d, d ∉ slice sp.st.dindx dindx sp.set0 →
          (r0.st.dotpt d).Part = (sp.st.dotpt d).Part) ∧
        (∀ d, d ∉ slice sp.st.dindx (dindx + sp.set0) (dotnum - sp.set0) →
          (r1.st.dotpt d).Part = (r0.st.dotpt d).Part) ∧
        (∀ d, d ∈ slice sp.st.dindx dindx sp.set0 →
          in_parts partlower (sp.partmid - partlower) (r.st.dotpt d).Part) ∧
        (∀ d, d ∈ slice sp.st.dindx (dindx + sp.set0) (dotnum - sp.set0) →
          in_parts sp.partmid (partlower + num_parts - sp.partmid) (r.st.dotpt d).Part) := by
  induction h with
  | leaf old_set root rcbbox weight dotnum dindx tmpdindx partlower level s =>
    intro h1; exact absurd rfl h1
  | fail old_set root rcbbox weight dotnum num_parts dindx tmpdindx partlower level s sp hsp
      h1 hok =>
    rw [hsp, serial_split_ok, hmed _] at hok
    cases hok
  | abort old_set root rcbbox weight dotnum num_parts dindx tmpdindx partlower level s sp r0
      hsp h1 hok hc hrun hneg ih =>
    intro _ hn _ _ _
    have hd := serial_split_dindx env _ _ _ _ _ _ _ _ _ _ _ sp hsp
    have hset := hd.2.1 hok
    have := (run_cover env hmed hdiv hrun (by omega)).1 (by omega)
    omega
  | node old_set root rcbbox weight dotnum num_parts dindx tmpdindx partlower level s sp r0 r1
      hsp h1 hok hl hl0 hcont hh hh0 ihl ihh =>
    intro _ hn hnd sp2 hsp2
    have e : sp2 = sp := by rw [hsp, hsp2]
    subst e
    obtain ⟨hset, hle, hdec, hperm, _⟩ := serial_split_sides env _ _ _ _ _ _ _ _ _ _ _ sp2 hsp hok
    have hpm : sp2.partmid = (env.Zoltan_Divide_Parts num_parts partlower).partmid := by
      rw [hsp, serial_split_partmid]
    have hdv := hdiv num_parts partlower (by omega)
    rw [← hpm] at hdv
    have hnd2 : (slice sp2.st.dindx dindx dotnum).Nodup := hperm.nodup_iff.mpr hnd
    rw [hdec, List.nodup_append] at hnd2
    obtain ⟨_, _, hdisj⟩ := hnd2
    -- the low branch
    have hout0 : ∀ j, ¬ (dindx ≤ j ∧ j < dindx + sp2.set0) → r0.st.dindx j = sp2.st.dindx j := by
      by_cases hc : sp2.partmid - partlower > 0 ∧ sp2.set1 ≠ 0
      · exact (run_frame env (hl hc)).2.2
      · rw [hl0 hc]; intro _ _; rfl
    have hpart0 : ∀ d, d ∉ slice sp2.st.dindx dindx sp2.set0 →
        (r0.st.dotpt d).Part = (sp2.st.dotpt d).Part := by
      intro d hd
      by_cases hc : sp2.partmid - partlower > 0 ∧ sp2.set1 ≠ 0
      · by_contra hne
        exact hd (((run_frame env (hl hc)).1 d).2.2 hne)
      · rw [hl0 hc]
    have hslice : slice r0.st.dindx (dindx + sp2.set1) (dotnum - sp2.set0) =
        slice sp2.st.dindx (dindx + sp2.set0) (dotnum - sp2.set0) := by
      rw [hset]
      apply slice_congr
      intro i hi
      apply hout0
      omega
    have hpart1 : ∀ d, d ∉ slice sp2.st.dindx (dindx + sp2.set0) (dotnum - sp2.set0) →
        (r1.st.dotpt d).Part = (r0.st.dotpt d).Part := by
      intro d hd
      by_cases hc : partlower + num_parts - sp2.partmid > 0 ∧ sp2.set0 ≠ dotnum
      · by_contra hne
        have := ((run_frame env (hh hc)).1 d).2.2 hne
        rw [hslice] at this
        exact hd this
      · rw [hh0 hc]
    refine ⟨r0, r1, hl, hl0, hh, rfl, hslice, fun d hd hd2 => hdisj hd hd2, hpart0, hpart1,
      fun d hd => ?_, fun d hd => ?_⟩
    · show in_parts partlower (sp2.partmid - partlower) (r1.st.dotpt d).Part
      have hne : sp2.set0 ≠ 0 := by
        intro h0
        rw [h0] at hd
        simp [slice] at hd
      have hc : sp2.partmid - partlower > 0 ∧ sp2.set1 ≠ 0 := ⟨by omega, by omega⟩
      rw [hpart1 d (fun hd2 => hdisj hd hd2)]
      exact (run_cover env hmed hdiv (hl hc) (by omega)).2.2 d hd
    · show in_parts sp2.partmid (partlower + num_parts - sp2.partmid) (r1.st.dotpt d).Part
      have hne : dotnum - sp2.set0 ≠ 0 := by
        intro h0
        rw [h0] at hd
        simp [slice] at hd
      have hc : partlower + num_parts - sp2.partmid > 0 ∧ sp2.set0 ≠ dotnum :=
        ⟨by omega, by omega⟩
      rw [← hslice] at hd
      exact (run_cover env hmed hdiv (hh hc) (by omega)).2.2 d hd

/-- Every call made in the course of a call `c0` (under the contracts, on a
range of `dindx` without repetition) has at least one partition, works on a
range without repetition, returns, and the dots of its range keep to the end
of `c0` the partition numbers they have when it returns. -/
theorem reaches_inv (env : SerialEnv) (hmed : MedianOK env) (hdiv : DividerOK env)
    (c0 : SerialCall) (r : SerialResult) (hrun : c0.Returns env r) (hn : 1 ≤ c0.num_parts)
    (hnd : (slice c0.s.dindx c0.dindx c0.dotnum).Nodup) (k : Nat) (c : SerialCall)
    (h : Reaches env c0 k c) :
    1 ≤ c.num_parts ∧ (slice c.s.dindx c.dindx c.dotnum).Nodup ∧
    ∃ rc, c.Returns env rc ∧
      ∀ d, d ∈ slice c.s.dindx c.dindx c.dotnum →
        (r.st.dotpt d).Part = (rc.st.dotpt d).Part := by
  induction h with
  | top => exact ⟨hn, hnd, r, hrun, fun _ _ => rfl⟩
  | low k c h h1 hok hg ih =>
    obtain ⟨hnc, hndc, rc, hrc, hfin⟩ := ih
    obtain ⟨r0, r1, a1, a2, a3, a4, a5, a6, a7, a8, a9, a10⟩ :=
      run_split_children env hmed hdiv hrc h1 hnc hndc (c.sp env) rfl
    obtain ⟨hset, hle, hdec, hperm, _⟩ :=
      serial_split_sides env _ _ _ _ _ _ _ _ _ _ _ (c.sp env) rfl hok
    have hg2 : (c.sp env).partmid - c.partlower > 0 ∧ (c.sp env).set1 ≠ 0 := hg
    have hnd2 : (slice (c.sp env).st.dindx c.dindx c.dotnum).Nodup := hperm.nodup_iff.mpr hndc
    rw [hdec, List.nodup_append] at hnd2
    refine ⟨?_, hnd2.1, r0, a1 hg2, fun d hd => ?_⟩
    · show 1 ≤ (c.sp env).partmid - c.partlower
      omega
    · have hd1 : d ∈ slice (c.sp env).st.dindx c.dindx (c.sp env).set0 := hd
      have hmem : d ∈ slice c.s.dindx c.dindx c.dotnum := by
        apply hperm.mem_iff.mp
        rw [hdec, List.mem_append]
        exact Or.inl hd1
      rw [hfin d hmem, a4, a8 d (a6 d hd1)]
  | high k c r0 h h1 hok hl hl0 hcont hg ih =>
    obtain ⟨hnc, hndc, rc, hrc, hfin⟩ := ih
    obtain ⟨r0b, r1, a1, a2, a3, a4, a5, a6, a7, a8, a9, a10⟩ :=
      run_split_children env hmed hdiv hrc h1 hnc hndc (c.sp env) rfl
    obtain ⟨hset, hle, hdec, hperm, _⟩ :=
      serial_split_sides env _ _ _ _ _ _ _ _ _ _ _ (c.sp env) rfl hok
    have hg2 : c.partlower + c.num_parts - (c.sp env).partmid > 0 ∧
        (c.sp env).set0 ≠ c.dotnum := hg
    have e0 : r0 = r0b := by
      by_cases hc : (c.sp env).partmid - c.partlower > 0 ∧ (c.sp env).set1 ≠ 0
      · exact run_unique env (hl hc) r0b (a1 hc)
      · rw [hl0 hc, a2 hc]
    subst e0
    have hnd2 : (slice (c.sp env).st.dindx c.dindx c.dotnum).Nodup := hperm.nodup_iff.mpr hndc
    rw [hdec, List.nodup_append] at hnd2
    refine ⟨?_, ?_, r1, a3 hg2, fun d hd => ?_⟩
    · show 1 ≤ c.partlower + c.num_parts - (c.sp env).partmid
      omega
    · show (slice r0.st.dindx (c.dindx + (c.sp env).set1) (c.dotnum - (c.sp env).set0)).Nodup
      rw [a5]
      exact hnd2.2.1
    · have hd1 : d ∈ slice r0.st.dindx (c.dindx + (c.sp env).set1)
          (c.dotnum - (c.sp env).set0) := hd
      rw [a5] at hd1
      have hmem : d ∈ slice c.s.dindx c.dindx c.dotnum := by
        apply hperm.mem_iff.mp
        rw [hdec, List.mem_append]
        exact Or.inr hd1
      rw [hfin d hmem, a4]

theorem reaches_parts (env : SerialEnv) (hmed : MedianOK env) (hdiv : DividerOK env)
    (c0 : SerialCall) (r : SerialResult) (hrun : c0.Returns env r) (hn : 1 ≤ c0.num_parts)
    (hnd : (slice c0.s.dindx c0.dindx c0.dotnum).Nodup) (k : Nat) (c : SerialCall)
    (h : Reaches env c0 k c) (h1 : c.num_parts ≠ 1) :
    (∀ i : Nat, i < c.dotnum →
      (c.marks env i = 0 →
        c.partlower ≤ (r.st.dotpt (c.s.dindx (c.dindx + i))).Part ∧
        (r.st.dotpt (c.s.dindx (c.dindx + i))).Part < (c.sp env).partmid) ∧
      (c.marks env i ≠ 0 →
        (c.sp env).partmid ≤ (r.st.dotpt (c.s.dindx (c.dindx + i))).Part ∧
        (r.st.dotpt (c.s.dindx (c.dindx + i))).Part < c.partlower + c.num_parts)) ∧
    (∀ d, d ∈ slice (c.sp env).st.dindx c.dindx (c.sp env).set0 →
      d ∉ slice (c.sp env).st.dindx (c.dindx + (c.sp env).set0)
        (c.dotnum - (c.sp env).set0)) ∧
    ∃ r0 r1 : SerialResult,
      (c.guard0 env → (c.low env).Returns env r0) ∧
      (¬ c.guard0 env → r0.st = (c.sp env).st) ∧
      (c.guard1 env → (c.high env r0.st).Returns env r1) ∧
      (∀ d, d ∈ slice (c.sp env).st.dindx (c.dindx + (c.sp env).set0)
          (c.dotnum - (c.sp env).set0) →
        (r0.st.dotpt d).Part = (c.s.dotpt d).Part) ∧
      (∀ d, d ∈ slice (c.sp env).st.dindx c.dindx (c.sp env).set0 →
        (r1.st.dotpt d).Part = (r0.st.dotpt d).Part) := by
  obtain ⟨hnc, hndc, rc, hrc, hfin⟩ := reaches_inv env hmed hdiv c0 r hrun hn hnd k c h
  obtain ⟨r0, r1, a1, a2, a3, a4, a5, a6, a7, a8, a9, a10⟩ :=
    run_split_children env hmed hdiv hrc h1 hnc hndc (c.sp env) rfl
  have hok : (c.sp env).ok = true := by
    unfold SerialCall.sp
    rw [serial_split_ok, hmed _]
  obtain ⟨hset, hle, hdec, hperm, hmarks⟩ :=
    serial_split_sides env _ _ _ _ _ _ _ _ _ _ _ (c.sp env) rfl hok
  have hdot : (c.sp env).st.dotpt = c.s.dotpt := by
    unfold SerialCall.sp
    rw [serial_split_dotpt]
  refine ⟨fun i hi => ⟨fun hm => ?_, fun hm => ?_⟩, a6,
    r0, r1, a1, fun hg => by rw [a2 hg], a3, fun d hd => ?_, fun d hd => a8 d (a6 d hd)⟩
  · have hmem : c.s.dindx (c.dindx + i) ∈ slice c.s.dindx c.dindx c.dotnum :=
      (mem_slice _ _ _ _).2 ⟨i, hi, rfl⟩
    have hp := a9 _ ((hmarks i hi).1 hm)
    rw [hfin _ hmem]
    unfold in_parts at hp
    constructor <;> omega
  · have hmem : c.s.dindx (c.dindx + i) ∈ slice c.s.dindx c.dindx c.dotnum :=
      (mem_slice _ _ _ _).2 ⟨i, hi, rfl⟩
    have hp := a10 _ ((hmarks i hi).2 hm)
    rw [hfin _ hmem]
    unfold in_parts at hp
    constructor <;> omega
  · rw [a7 d (fun hlow => a6 d hlow hd), hdot]

theorem rcb_fn_dindx_apply (dindx : Nat → Nat) (n : Nat) :
    ∀ j : Nat, j < n → rcb_fn_dindx dindx n j = j := by
  induction n with
  | zero => intro j hj; exact absurd hj (Nat.not_lt_zero j)
  | succ n ih =>
    intro j hj
    have e : rcb_fn_dindx dindx (n + 1) = Function.update (rcb_fn_dindx dindx n) n n := by
      simp [rcb_fn_dindx, List.range_succ, List.foldl_append]
    rw [e]
    by_cases hjn : j = n
    · subst hjn; rw [Function.update_same]
    · rw [Function.update_noteq hjn]
      exact ih j (by omega)

/-- The index array as `rcb_fn` hands it to `serial_rcb` lists no dot twice. -/
theorem rcb_fn_dindx_nodup (dindx : Nat → Nat) (n : Nat) :
    (slice (rcb_fn_dindx dindx n) 0 n).Nodup := by
  have e : slice (rcb_fn_dindx dindx n) 0 n = List.range n := by
    unfold slice
    conv_rhs => rw [← List.map_id (List.range n)]
    apply List.map_congr_left
    intro i hi
    rw [Nat.zero_add]
    exact rcb_fn_dindx_apply dindx n i (List.mem_range.1 hi)
  rw [e]
  exact List.nodup_range n

/-- C29. Partition numbers respect the cut.  Assume every median search
succeeds and the divider returns `partlower < partmid < partlower + num_parts`.
A call of `serial_rcb` on `num_parts ≥ 1` partitions and a range of `dindx`
that lists no dot twice (as `rcb_fn` sets it up, with `dindx[i] = i`)
returns, and for every call made in its course that splits, at boundary
`partmid`: every dot it marked 0 ends the run with `partlower ≤ Part <
partmid`, every dot it marked non-zero with `partmid ≤ Part < partlower +
num_parts`; the two ranges of `dindx` its recursive calls work on list
different dots, the call for set 0 leaves the `Part` of the dots of set 1 as
it was, and the call for set 1 leaves the `Part` of the dots of set 0 as the
call for set 0 left it. -/
theorem parts_respect_cut (env : SerialEnv) (hmed : MedianOK env) (hdiv : DividerOK env)
    (c0 : SerialCall) (hn : 1 ≤ c0.num_parts)
    (hnd : (slice c0.s.dindx c0.dindx c0.dotnum).Nodup) (fuel : Nat)
    (hfuel : c0.num_parts ≤ fuel) :
    (∀ (dindx : Nat → Nat) (n : Nat), (slice (rcb_fn_dindx dindx n) 0 n).Nodup) ∧
    ∃ r, serial_rcb env fuel c0.old_set c0.root c0.rcbbox c0.weight c0.dotnum c0.num_parts
        c0.dindx c0.tmpdindx c0.partlower c0.level c0.s = some r ∧
      ∀ (k : Nat) (c : SerialCall), Reaches env c0 k c → c.num_parts ≠ 1 →
        (∀ i : Nat, i < c.dotnum →
          (c.marks env i = 0 →
            c.partlower ≤ (r.st.dotpt (c.s.dindx (c.dindx + i))).Part ∧
            (r.st.dotpt (c.s.dindx (c.dindx + i))).Part < (c.sp env).partmid) ∧
          (c.marks env i ≠ 0 →
            (c.sp env).partmid ≤ (r.st.dotpt (c.s.dindx (c.dindx + i))).Part ∧
            (r.st.dotpt (c.s.dindx (c.dindx + i))).Part < c.partlower + c.num_parts)) ∧
        (∀ d, d ∈ slice (c.sp env).st.dindx c.dindx (c.sp env).set0 →
          d ∉ slice (c.sp env).st.dindx (c.dindx + (c.sp env).set0)
            (c.dotnum - (c.sp env).set0)) ∧
        ∃ r0 r1 : SerialResult,
          (c.guard0 env → (c.low env).Returns env r0) ∧
          (¬ c.guard0 env → r0.st = (c.sp env).st) ∧
          (c.guard1 env → (c.high env r0.st).Returns env r1) ∧
          (∀ d, d ∈ slice (c.sp env).st.dindx (c.dindx + (c.sp env).set0)
              (c.dotnum - (c.sp env).set0) →
            (r0.st.dotpt d).Part = (c.s.dotpt d).Part) ∧
          (∀ d, d ∈ slice (c.sp env).st.dindx c.dindx (c.sp env).set0 →
            (r1.st.dotpt d).Part = (r0.st.dotpt d).Part) := by
  obtain ⟨r, hr⟩ := serial_rcb_total env hdiv fuel c0.old_set c0.root c0.rcbbox c0.weight
    c0.dotnum c0.num_parts c0.dindx c0.tmpdindx c0.partlower c0.level c0.s hn hfuel
  have hrun : c0.Returns env r := serial_rcb_run env fuel _ _ _ _ _ _ _ _ _ _ _ r hr
  exact ⟨rcb_fn_dindx_nodup, r, hr,
    fun k c h h1 => reaches_parts env hmed hdiv c0 r hrun hn hnd k c h h1⟩

/-- The run of `exEnv` on three dots and three partitions: the first split
(boundary 2) marks dots 0 and 1 low and dot 2 high; dot 0 ends below 2 and
dot 2 at 2 or above. -/
theorem parts_respect_cut_witness :
    (MedianOK exEnv ∧ DividerOK exEnv ∧ 1 ≤ exCall.num_parts ∧
      (slice exCall.s.dindx exCall.dindx exCall.dotnum).Nodup ∧ exCall.num_parts ≤ (3 : Nat) ∧
      Reaches exEnv exCall 0 exCall ∧ exCall.num_parts ≠ 1 ∧
      exCall.marks exEnv 0 = 0 ∧ exCall.marks exEnv 2 ≠ 0 ∧ (exCall.sp exEnv).partmid = 2) ∧
    ∃ r, serial_rcb exEnv 3 exCall.old_set exCall.root exCall.rcbbox exCall.weight exCall.dotnum
        exCall.num_parts exCall.dindx exCall.tmpdindx exCall.partlower exCall.level exCall.s
        = some r ∧
      (r.st.dotpt (exCall.s.dindx (exCall.dindx + 0))).Part < (exCall.sp exEnv).partmid ∧
      (exCall.sp exEnv).partmid ≤ (r.st.dotpt (exCall.s.dindx (exCall.dindx + 2))).Part := by
  obtain ⟨_, r, hr, hall⟩ := parts_respect_cut exEnv exEnv_median exEnv_divider exCall
    (by decide) (by decide) 3 (by decide)
  have h := (hall 0 exCall Reaches.top (by decide)).1
  exact ⟨⟨exEnv_median, exEnv_divider, by decide, by decide, by decide, Reaches.top, by decide,
      by decide, by decide, by decide⟩,
    r, hr, ((h 0 (by decide)).1 (by decide)).2, ((h 2 (by decide)).2 (by decide)).1⟩

/-! ### Walking the tree of a run with skipped one-partition sides -/

theorem full_log_append (a b : List Event) :
    full_log (a ++ b) = true ↔ full_log a = true ∧ full_log b = true := by
  simp [full_log, List.all_append]

theorem full_log_of_clean (log : List Event) (h : clean_log log = true) :
    full_log log = true := by
  simp only [clean_log, full_log, List.all_eq_true] at h ⊢
  intro e he
  have := h e he
  cases e with
  | find_median m fg ok => simpa [Event.isWideSkip, Event.isSkip] using this
  | dim_spec_read l => rfl
  | branch_skipped st n d => simp [Event.isSkip] at this

theorem full_log_skip (set new_nparts : Int) (ndots : Nat)
    (h : full_log [Event.branch_skipped set new_nparts ndots] = true) : new_nparts < 2 := by
  simp [full_log, Event.isWideSkip, Event.isMedianFailure] at h
  exact h

theorem serial_split_log_not_full (env : SerialEnv) (old_set root : Int) (rcbbox : rcb_box)
    (weight : ℚ) (dotnum : Nat) (num_parts : Int) (dindx tmpdindx : Nat) (partlower : Int)
    (level : Nat) (s : SerialState) (sp : SplitOut)
    (hsp : sp = serial_split env old_set root rcbbox weight dotnum num_parts dindx tmpdindx
      partlower level s) (hok : sp.ok = false) : full_log sp.log = false := by
  subst hsp
  revert hok
  simp only [serial_split]
  split
  · intro h; cases h
  · intro _
    simp [serial_split_log, full_log, Event.isMedianFailure, Event.isWideSkip]

/-- A run without failed median search in which every skipped call is for a
side of one partition, on a range whose parent references were 0: with at
least one dot its status is non-negative, a range of two or more partitions
has a top node, and in every tree assembled from its nodes the walk from the
link of the range lists the partitions of the range in increasing order. -/
theorem run_walk_full (env : SerialEnv) (hdiv : DividerOK env)
    {old_set root : Int} {rcbbox : rcb_box} {weight : ℚ}
    {dotnum : Nat} {num_parts : Int} {dindx tmpdindx : Nat} {partlower : Int} {level : Nat}
    {s : SerialState} {r : SerialResult}
    (h : Run env old_set root rcbbox weight dotnum num_parts dindx tmpdindx partlower level s r)
    (hn : 1 ≤ num_parts) (hl : 0 ≤ partlower) (hroot : 0 ≤ root)
    (hout : ¬ (partlower < root ∧ root < partlower + num_parts))
    (hz : ∀ i, partlower < i → i < partlower + num_parts → (s.treept i).parent = 0)
    (hfull : full_log r.log = true) :
    (1 ≤ dotnum → 0 ≤ r.ierr) ∧
    (2 ≤ num_parts → ∃ k, partlower < k ∧ k < partlower + num_parts ∧
      (r.st.treept k).parent = parent_ref old_set root) ∧
    (∀ t a : Int → rcb_tree,
      (∀ p, partlower < p → p < partlower + num_parts → t p = r.st.treept p) →
      Assembled a t partlower num_parts →
      ∀ (fuel : Nat) (link : Int), num_parts ≤ fuel →
        ((num_parts = 1 ∧ link = -partlower) ∨
          (partlower < link ∧ link < partlower + num_parts ∧
            (t link).parent = parent_ref old_set root)) →
        walk a fuel link = some (parts_list partlower num_parts)) := by
  induction h with
  | leaf old_set root rcbbox weight dotnum dindx tmpdindx partlower level s =>
    refine ⟨fun _ => by simp [ZOLTAN_OK], fun h2 => by omega,
      fun t a _ _ fuel link hf hlink => ?_⟩
    rcases hlink with ⟨_, e⟩ | ⟨h1, h2, _⟩
    · rw [e, parts_list_one]
      exact walk_leaf a fuel partlower (by exact_mod_cast hf) hl
    · omega
  | fail old_set root rcbbox weight dotnum num_parts dindx tmpdindx partlower level s sp hsp
      h1 hok =>
    have := serial_split_log_not_full env _ _ _ _ _ _ _ _ _ _ _ sp hsp hok
    rw [this] at hfull
    cases hfull
  | abort old_set root rcbbox weight dotnum num_parts dindx tmpdindx partlower level s sp r0
      hsp h1 hok hc hrun hneg ih =>
    have ht := serial_split_treept env _ _ _ _ _ _ _ _ _ _ _ sp hsp
    rw [if_pos hok] at ht
    have hpm : sp.partmid = (env.Zoltan_Divide_Parts num_parts partlower).partmid := by
      rw [hsp, serial_split_partmid]
    have hdv := hdiv num_parts partlower (by omega)
    rw [← hpm] at hdv
    have hsets := serial_split_sets env _ _ _ _ _ _ _ _ _ _ _ sp hsp hok
    have hcl := (full_log_append _ _).mp hfull
    have := (ih (by omega) hl (by omega) (by omega) (fun i i1 i2 => by
      rw [ht, record_cut_other _ _ _ _ _ _ _ _ (by omega)]
      exact hz i i1 (by omega)) hcl.2).1 (by have := hc.2; have := hsets.2.1; omega)
    omega
  | node old_set root rcbbox weight dotnum num_parts dindx tmpdindx partlower level s sp r0 r1
      hsp h1 hok hl0 hl00 hcont hh hh0 ihl ihh =>
    have ht := serial_split_treept env _ _ _ _ _ _ _ _ _ _ _ sp hsp
    rw [if_pos hok] at ht
    have hlv := serial_split_leaves env _ _ _ _ _ _ _ _ _ _ _ sp hsp hok
    have hpm : sp.partmid = (env.Zoltan_Divide_Parts num_parts partlower).partmid := by
      rw [hsp, serial_split_partmid]
    have hdv := hdiv num_parts partlower (by omega)
    rw [← hpm] at hdv
    have hsets := serial_split_sets env _ _ _ _ _ _ _ _ _ _ _ sp hsp hok
    have hset1 : sp.set1 = sp.set0 := hsets.2.1
    have hset0 : sp.set0 ≤ dotnum := by
      rw [hsets.1]; exact low_count_le _ _
    have hcl : full_log sp.log = true ∧ full_log r0.log = true ∧ full_log r1.log = true := by
      have h1 := (full_log_append _ _).mp hfull
      have h2 := (full_log_append _ _).mp h1.1
      exact ⟨h2.1, h2.2, h1.2⟩
    have hz0 : ∀ i, partlower < i → i < partlower + (sp.partmid - partlower) →
        (sp.st.treept i).parent = 0 := by
      intro i i1 i2
      rw [ht, record_cut_other _ _ _ _ _ _ _ _ (by omega)]
      exact hz i i1 (by omega)
    -- the low side
    have low : (∀ p, ¬ (partlower < p ∧ p < sp.partmid) → r0.st.treept p = sp.st.treept p) ∧
        TreeLocal r0.st.treept partlower (sp.partmid - partlower) (sp.partmid + 1) ∧
        (1 ≤ sp.set0 → sp.partmid - partlower > 0 ∧ sp.set1 ≠ 0 → 0 ≤ r0.ierr) ∧
        (2 ≤ sp.partmid - partlower → ∃ k, partlower < k ∧
          k < partlower + (sp.partmid - partlower) ∧
          (r0.st.treept k).parent = sp.partmid + 1) ∧
        (∀ t a : Int → rcb_tree,
          (∀ p, partlower < p → p < partlower + (sp.partmid - partlower) →
            t p = r0.st.treept p) →
          Assembled a t partlower (sp.partmid - partlower) →
          ∀ (fuel : Nat) (link : Int), sp.partmid - partlower ≤ fuel →
            ((sp.partmid - partlower = 1 ∧ link = -partlower) ∨
              (partlower < link ∧ link < partlower + (sp.partmid - partlower) ∧
                (t link).parent = sp.partmid + 1)) →
            walk a fuel link = some (parts_list partlower (sp.partmid - partlower))) := by
      by_cases hc : sp.partmid - partlower > 0 ∧ sp.set1 ≠ 0
      · obtain ⟨f0, l0⟩ := run_tree env hdiv (hl0 hc) (by omega)
        have L0 := l0 hl (by omega) (by omega) hz0
        obtain ⟨e0, top0, w0⟩ := ihl hc (by omega) hl (by omega) (by omega) hz0 hcl.2.1
        rw [parent_ref_zero] at L0 top0 w0
        exact ⟨fun p hp => f0 p (by omega), L0, fun h _ => e0 h, top0, w0⟩
      · have e := hl00 hc
        have hone : sp.partmid - partlower < 2 := by
          have := hcl.2.1
          rw [e] at this
          exact full_log_skip _ _ _ this
        rw [e]
        refine ⟨fun _ _ => rfl, TreeLocal.of_zero _ _ _ _ hz0, fun _ h => absurd h hc,
          fun h2 => by omega, fun t a _ _ fuel link hf hlink => ?_⟩
        rcases hlink with ⟨e1, e2⟩ | ⟨k1, k2, _⟩
        · rw [e2, e1, parts_list_one]
          exact walk_leaf a fuel partlower (by rw [e1] at hf; exact_mod_cast hf) hl
        · omega
    obtain ⟨f0, L0, e0, top0, w0⟩ := low
    have hz1 : ∀ i, sp.partmid < i → i < sp.partmid + (partlower + num_parts - sp.partmid) →
        (r0.st.treept i).parent = 0 := by
      intro i i1 i2
      rw [f0 i (by omega), ht, record_cut_other _ _ _ _ _ _ _ _ (by omega)]
      exact hz i (by omega) (by omega)
    -- the high side
    have high : (∀ p, ¬ (sp.partmid < p ∧ p < partlower + num_parts) →
          r1.st.treept p = r0.st.treept p) ∧
        TreeLocal r1.st.treept sp.partmid (partlower + num_parts - sp.partmid)
          (-(sp.partmid + 1)) ∧
        (1 ≤ dotnum → 0 ≤ r1.ierr) ∧
        (2 ≤ partlower + num_parts - sp.partmid → ∃ k, sp.partmid < k ∧
          k < sp.partmid + (partlower + num_parts - sp.partmid) ∧
          (r1.st.treept k).parent = -(sp.partmid + 1)) ∧
        (∀ t a : Int → rcb_tree,
          (∀ p, sp.partmid < p → p < sp.partmid + (partlower + num_parts - sp.partmid) →
            t p = r1.st.treept p) →
          Assembled a t sp.partmid (partlower + num_parts - sp.partmid) →
          ∀ (fuel : Nat) (link : Int), partlower + num_parts - sp.partmid ≤ fuel →
            ((partlower + num_parts - sp.partmid = 1 ∧ link = -sp.partmid) ∨
              (sp.partmid < link ∧ link < sp.partmid + (partlower + num_parts - sp.partmid) ∧
                (t link).parent = -(sp.partmid + 1))) →
            walk a fuel link =
              some (parts_list sp.partmid (partlower + num_parts - sp.partmid))) := by
      by_cases hc : partlower + num_parts - sp.partmid > 0 ∧ sp.set0 ≠ dotnum
      · obtain ⟨f1, l1⟩ := run_tree env hdiv (hh hc) (by omega)
        have L1 := l1 (by omega) (by omega) (by omega) hz1
        obtain ⟨e1, top1, w1⟩ := ihh hc (by omega) (by omega) (by omega) (by omega) hz1 hcl.2.2
        rw [parent_ref_one] at L1 top1 w1
        exact ⟨fun p hp => f1 p (by omega), L1,
          fun _ => e1 (by have := hc.2; omega), top1, w1⟩
      · have e := hh0 hc
        have hone : partlower + num_parts - sp.partmid < 2 := by
          have := hcl.2.2
          rw [e] at this
          exact full_log_skip _ _ _ this
        have hall : sp.set0 = dotnum := by
          by_contra hne
          exact hc ⟨by omega, hne⟩
        rw [e]
        refine ⟨fun _ _ => rfl, TreeLocal.of_zero _ _ _ _ hz1,
          fun hd => e0 (by omega) ⟨by omega, by omega⟩,
          fun h2 => by omega, fun t a _ _ fuel link hf hlink => ?_⟩
        rcases hlink with ⟨e1, e2⟩ | ⟨k1, k2, _⟩
        · rw [e2, e1, parts_list_one]
          exact walk_leaf a fuel sp.partmid (by rw [e1] at hf; exact_mod_cast hf) (by omega)
        · omega
    obtain ⟨f1, L1, e1, top1, w1⟩ := high
    have htopnode : r1.st.treept sp.partmid = sp.st.treept sp.partmid := by
      rw [f1 _ (by omega), f0 _ (by omega)]
    refine ⟨e1, fun _ => ⟨sp.partmid, hdv.1, hdv.2, ?_⟩,
      fun t a hagree hasm fuel link hf hlink => ?_⟩
    · show (r1.st.treept sp.partmid).parent = _
      rw [htopnode]; exact hlv.1
    · have hagree1 : ∀ p, partlower < p → p < partlower + num_parts → t p = r1.st.treept p :=
        hagree
      cases fuel with
      | zero => simp at hf; omega
      | succ f =>
        have hf2 : num_parts ≤ (f : Int) + 1 := by exact_mod_cast hf
        rcases hlink with ⟨e, _⟩ | ⟨k1, k2, k3⟩
        · exact absurd e h1
        · have htm : t sp.partmid = sp.st.treept sp.partmid := by
            rw [hagree1 _ hdv.1 hdv.2, htopnode]
          have hlow : ∀ p, partlower < p → p < partlower + (sp.partmid - partlower) →
              t p = r0.st.treept p := by
            intro p p1 p2
            rw [hagree1 p p1 (by omega), f1 p (by omega)]
          have hhigh : ∀ p, sp.partmid < p →
              p < sp.partmid + (partlower + num_parts - sp.partmid) → t p = r1.st.treept p := by
            intro p p1 p2
            exact hagree1 p (by omega) (by omega)
          have TL0 : TreeLocal t partlower (sp.partmid - partlower) (sp.partmid + 1) :=
            L0.congr hlow
          have TL1 : TreeLocal t sp.partmid (partlower + num_parts - sp.partmid)
              (-(sp.partmid + 1)) := L1.congr hhigh
          have htp : (t sp.partmid).parent = parent_ref old_set root := by rw [htm]; exact hlv.1
          have A0 := hasm.restrict_low sp.partmid _ root hl hroot hout hdv.1 hdv.2
            (parent_ref_cases _ _) htp TL1
          have A1 := hasm.restrict_high sp.partmid _ root hl hroot hout hdv.1 hdv.2
            (parent_ref_cases _ _) htp TL0
          apply walk_split a t partlower num_parts sp.partmid _ root f hl hroot hout hdv.1 hdv.2
            (parent_ref_cases _ _) htp (by rw [htm]; exact hlv.2.1) (by rw [htm]; exact hlv.2.2)
            TL0 TL1 hasm
          · exact fun lk hlk => w0 t a hlow A0 f lk (by omega) hlk
          · intro h2
            obtain ⟨k, q1, q2, q3⟩ := top0 h2
            exact ⟨k, q1, q2, by rw [hlow k q1 q2]; exact q3⟩
          · exact fun lk hlk => w1 t a hhigh A1 f lk (by omega) hlk
          · intro h2
            obtain ⟨k, q1, q2, q3⟩ := top1 h2
            exact ⟨k, q1, q2, by rw [hhigh k q1 q2]; exact q3⟩
          · exact k1
          · exact k2
          · exact k3

/-- C2 as stated fails.  (1) One dot and three partitions, with the divider
and the median search of `exEnv`: the only dot is marked high at the first cut
(boundary 2), so the call for set 0, a side of two partitions, is skipped and
no node is recorded for partition 1; the bisection returns `ZOLTAN_OK`, and
the walk of the assembled tree from the right link of slot 0 visits the
partitions 0 and 2 only.  (2) Two dots and three partitions with `exEnvFail`:
no call is skipped, but the median search of the call for the partitions 0
and 1 fails, no node is recorded for partition 1, and the walk again visits 0
and 2 only. -/
theorem tree_walk_counterexample :
    (serial_rcb exEnv 3 1 0 exBox133 1 1 3 0 1 0 0 exState).map
      (fun r => (r.ierr, full_log r.log,
        walk (assemble r.st.treept 3) 3 (assemble r.st.treept 3 0).right_leaf)) =
      some (0, false, some [0, 2]) ∧
    (serial_rcb exEnvFail 3 1 0 exBox133 2 2 3 0 2 0 0 exState).map
      (fun r => (r.ierr, r.log.any Event.isSkip, r.log.any Event.isMedianFailure,
        walk (assemble r.st.treept 3) 3 (assemble r.st.treept 3 0).right_leaf)) =
      some (-1, false, true, some [0, 2]) ∧
    (1 : Int) ∉ [(0 : Int), 2] ∧
    ∀ i : Int, 0 < i → i < 3 → (exState.treept i).parent = 0 :=
  ⟨by decide, by decide, by decide, fun _ _ _ => rfl⟩

/-- C2, amended.  For `n > 1`, take the bisection of one process into `n`
partitions (`serial_rcb` started with `old_set = 1`, `root = 0`, `partlower =
0`, on a tree whose parent references of the nodes `1..n-1` were reset to 0)
with a divider that splits strictly inside.  The call returns; if in it every
median search succeeded and no recursive call for a side of two or more
partitions was skipped (calls for sides of one partition may be skipped),
then, after the assembly pass, the walk from the right link of the sentinel
slot 0 visits the partitions `0, 1, ..., n-1` in this order, each exactly
once, and with at least one dot the status is non-negative.  A run without
any skipped call and without failed median search is such a run, and its
status is non-negative. -/
theorem tree_walk_complete (env : SerialEnv) (hdiv : DividerOK env) (fuel : Nat)
    (rcbbox : rcb_box) (weight : ℚ) (dotnum : Nat) (n : Int) (dindx tmpdindx : Nat)
    (level : Nat) (s : SerialState) (hn : 1 < n) (hfuel : n ≤ fuel)
    (hreset : ∀ i, 0 < i → i < 0 + n → (s.treept i).parent = 0) :
    ∃ r, serial_rcb env fuel 1 0 rcbbox weight dotnum n dindx tmpdindx 0 level s = some r ∧
      (full_log r.log = true →
        (1 ≤ dotnum → 0 ≤ r.ierr) ∧
        (∀ wfuel : Nat, n ≤ wfuel →
          walk (assemble r.st.treept n) wfuel (assemble r.st.treept n 0).right_leaf =
            some (parts_list 0 n)) ∧
        (parts_list 0 n).Nodup ∧ ∀ p, p ∈ parts_list 0 n ↔ 0 ≤ p ∧ p < 0 + n) ∧
      (clean_log r.log = true → full_log r.log = true ∧ 0 ≤ r.ierr) := by
  obtain ⟨r, hr⟩ := serial_rcb_total env hdiv fuel 1 0 rcbbox weight dotnum n dindx tmpdindx 0
    level s (by omega) hfuel
  have hrun := serial_rcb_run env fuel _ _ _ _ _ _ _ _ _ _ _ _ hr
  refine ⟨r, hr, fun hfull => ?_, fun hclean => ⟨full_log_of_clean _ hclean,
    (run_walk env hdiv hrun (by omega) (le_refl _) (le_refl _) (by omega) hreset hclean).1⟩⟩
  have hloc := (run_tree env hdiv hrun (by omega)).2 (le_refl _) (le_refl _) (by omega) hreset
  have hasm := assemble_assembled _ _ _ hloc
  obtain ⟨e, top, w⟩ := run_walk_full env hdiv hrun (by omega) (le_refl _) (le_refl _)
    (by omega) hreset hfull
  obtain ⟨k, k1, k2, k3⟩ := top (by omega)
  refine ⟨e, fun wfuel hw => ?_, parts_list_nodup _ _, parts_list_mem _ _⟩
  have hneg : (r.st.treept k).parent < 0 := by rw [k3, parent_ref_one]; omega
  have hlink := hasm.2.1 k k1 k2 hneg
  rw [k3, parent_ref_one] at hlink
  have e0 : -(-((0 : Int) + 1)) - 1 = 0 := by omega
  rw [e0] at hlink
  rw [hlink]
  exact w _ _ (fun _ _ _ => rfl) hasm wfuel k hw (Or.inr ⟨k1, k2, k3⟩)

/-- Two dots and three partitions with `exEnv`: at the second cut the only dot
of the low side is marked high, the call for partition 0 (a side of one
partition) is skipped, and the walk still visits 0, 1, 2. -/
theorem tree_walk_complete_witness :
    (DividerOK exEnv ∧ (1 : Int) < 3 ∧ (3 : Int) ≤ (3 : Nat) ∧
      ∀ i : Int, 0 < i → i < 0 + 3 → (exState.treept i).parent = 0) ∧
    (∃ r, serial_rcb exEnv 3 1 0 exBox133 2 2 3 0 2 0 0 exState = some r ∧
      (full_log r.log = true →
        (1 ≤ 2 → 0 ≤ r.ierr) ∧
        (∀ wfuel : Nat, (3 : Int) ≤ wfuel →
          walk (assemble r.st.treept 3) wfuel (assemble r.st.treept 3 0).right_leaf =
            some (parts_list 0 3)) ∧
        (parts_list 0 3).Nodup ∧ ∀ p, p ∈ parts_list 0 3 ↔ 0 ≤ p ∧ p < 0 + 3) ∧
      (clean_log r.log = true → full_log r.log = true ∧ 0 ≤ r.ierr)) ∧
    (serial_rcb exEnv 3 1 0 exBox133 2 2 3 0 2 0 0 exState).map
      (fun r => (full_log r.log, clean_log r.log, r.log.any Event.isSkip,
        walk (assemble r.st.treept 3) 3 (assemble r.st.treept 3 0).right_leaf)) =
      some (true, false, true, some [0, 1, 2]) :=
  ⟨⟨exEnv_divider, by decide, by decide, fun _ _ _ => rfl⟩,
   tree_walk_complete exEnv exEnv_divider 3 exBox133 2 2 3 0 2 0 exState (by decide) (by decide)
     (fun _ _ _ => rfl),
   by decide⟩

/-! ### Back links in the node array of a bisection over several processes -/

theorem rcb_fn_reset_steps (treept : Int → rcb_tree) (fp : Int) (k : Nat) :
    ∀ i : Int, fp ≤ i → i < fp + (k : Int) →
      (((List.range k).foldl
        (fun t (j : Nat) =>
          Function.update t (fp + (j : Int))
            { t (fp + (j : Int)) with parent := 0, left_leaf := 0 })
        treept) i).parent = 0 := by
  induction k with
  | zero => intro i h1 h2; simp at h2; omega
  | succ k ih =>
    intro i h1 h2
    rw [List.range_succ, List.foldl_append]
    simp only [List.foldl_cons, List.foldl_nil]
    by_cases hi : i = fp + (k : Int)
    · subst hi
      rw [Function.update_same]
    · rw [Function.update_noteq hi]
      exact ih i h1 (by push_cast at h2; omega)

/-- After the reset loop the parent references of the nodes `fp, ..., fp + np
- 1` are 0. -/
theorem rcb_fn_reset_parent (treept : Int → rcb_tree) (fp np : Int) (i : Int)
    (h1 : fp ≤ i) (h2 : i < fp + np) : (rcb_fn_reset treept fp np i).parent = 0 := by
  unfold rcb_fn_reset
  exact rcb_fn_reset_steps treept fp np.toNat i h1 (by omega)

/-- The recording lines of the parallel loop write no node but `fp`. -/
theorem parallel_records_other (fp : Int) (cuts : List ParallelCut) :
    ∀ (treept : Int → rcb_tree) (i : Int), i ≠ fp →
      parallel_records fp cuts treept i = treept i := by
  induction cuts with
  | nil => intro treept i _; rfl
  | cons c cs ih =>
    intro treept i hi
    show parallel_records fp cs
      (parallel_record treept c.partmid fp c.dim c.valuehalf c.old_set c.root c.partlower) i = _
    rw [ih _ i hi]
    by_cases hg : c.partmid > 0 ∧ c.partmid = fp
    · exact parallel_record_other _ _ _ _ _ _ _ _ _ (by rw [hg.2]; exact hi)
    · rw [parallel_record_skip _ _ _ _ _ _ _ _ hg]

theorem parallel_next_root_cut (old_nprocs partmid partlower old_nparts set old_set root : Int)
    (h1 : old_nprocs > 1) (h2 : partmid > 0) (h3 : partmid ≠ partlower + old_nparts) :
    parallel_next_root old_nprocs partmid partlower old_nparts set old_set root =
      (set, partmid) := by
  unfold parallel_next_root
  rw [if_pos ⟨h1, h2, h3⟩]

/-- The parent references of the node array of a bisection have the shape
`TreeLocal` on every range of it. -/
theorem bisected_local (t : Int → rcb_tree) {old_set root l n : Int}
    (h : Bisected t old_set root l n) :
    0 ≤ l → 0 ≤ root → ¬ (l < root ∧ root < l + n) →
      TreeLocal t l n (parent_ref old_set root) := by
  induction h with
  | single old_set root l =>
    intro _ _ _
    exact TreeLocal.of_zero _ _ _ _ (fun i h1 h2 => by omega)
  | serial old_set root l n env hdiv fuel rcbbox weight dotnum dindx tmpdindx level s r t0 cuts
      hn hentry hrun hgather =>
    intro hl hroot hout
    have hr := serial_rcb_run env fuel _ _ _ _ _ _ _ _ _ _ _ _ hrun
    have hz : ∀ i, l < i → i < l + n → (s.treept i).parent = 0 := by
      intro i h1 h2
      rw [hentry, parallel_records_other l cuts _ i (by omega)]
      exact rcb_fn_reset_parent t0 l n i (by omega) h2
    exact ((run_tree env hdiv hr (by omega)).2 hl hroot hout hz).congr hgather
  | cut old_set root l n m old_nprocs dim valuehalf t0 hprocs hm1 hm2 hrec hlow hhigh ihl ihh =>
    intro hl hroot hout
    rw [parallel_next_root_cut _ _ _ _ _ _ _ hprocs (by omega) (by omega)] at ihl ihh
    have htop : (t m).parent = parent_ref old_set root := by
      rw [hrec, parallel_record_same _ _ _ _ _ _ _ _ ⟨by omega, rfl⟩]
      rfl
    have L0 := ihl hl (by omega) (by omega)
    have L1 := ihh (by omega) (by omega) (by omega)
    rw [parent_ref_zero] at L0
    rw [parent_ref_one] at L1
    exact TreeLocal.combine t l n m _ root hl hroot hout hm1 hm2 (parent_ref_cases _ _) htop
      L0 L1

/-- After the assembly pass over the node array of a bisection every node
with a non-zero parent reference is the child, on the side of the sign, of the
node it refers to. -/
theorem bisected_back_links (t : Int → rcb_tree) (n : Int) (h : Bisected t 1 0 0 n) :
    ∀ i, 1 ≤ i → i < n →
      ((assemble t n i).parent > 0 →
        (assemble t n ((assemble t n i).parent - 1)).left_leaf = i) ∧
      ((assemble t n i).parent < 0 →
        (assemble t n (-(assemble t n i).parent - 1)).right_leaf = i) := by
  have hloc := bisected_local t h (le_refl _) (le_refl _) (by omega)
  have hasm := assemble_assembled _ _ _ hloc
  intro i h1 h2
  rw [assemble_parent]
  exact ⟨fun hp => hasm.1 i (by omega) (by omega) hp,
    fun hp => hasm.2.1 i (by omega) (by omega) hp⟩

theorem exGather_bisected : Bisected exGather 1 0 0 4 := by
  obtain ⟨rA, hA⟩ := serial_rcb_total exEnv exEnv_divider 2 0 2 exBox133 2 2 2 0 2 0 0
    exStateLow (by decide) (by decide)
  obtain ⟨rB, hB⟩ := serial_rcb_total exEnv exEnv_divider 2 1 2 exBox133 2 2 2 0 2 2 0
    exStateHigh (by decide) (by decide)
  have hA2 : exRunLow = some rA := hA
  have hB2 : exRunHigh = some rB := hB
  have gA : ∀ i : Int, i < 2 → exGather i = rA.st.treept i := by
    intro i hi
    simp only [exGather, hA2, Option.map_some', Option.getD_some, if_pos hi]
  have gB : ∀ i : Int, ¬ i < 2 → exGather i = rB.st.treept i := by
    intro i hi
    simp only [exGather, hB2, Option.map_some', Option.getD_some, if_neg hi]
  refine Bisected.cut 1 0 0 4 2 2 1 (3 / 2) (rcb_fn_reset exTree 2 2) (by decide) (by decide)
    (by decide) ?_ ?_ ?_
  · rw [gB 2 (by decide),
      (run_tree exEnv exEnv_divider (serial_rcb_run exEnv 2 _ _ _ _ _ _ _ _ _ _ _ _ hB)
        (by decide)).1 2 (by omega)]
    rfl
  · rw [parallel_next_root_cut _ _ _ _ _ _ _ (by decide) (by decide) (by decide)]
    exact Bisected.serial 0 2 0 (2 - 0) exEnv exEnv_divider 2 exBox133 2 2 0 2 0 exStateLow rA
      exTree [exCutTop] (by decide) rfl hA (fun i h1 h2 => gA i (by omega))
  · rw [parallel_next_root_cut _ _ _ _ _ _ _ (by decide) (by decide) (by decide)]
    exact Bisected.serial 1 2 2 (0 + 4 - 2) exEnv exEnv_divider 2 exBox133 2 2 0 2 0 exStateHigh
      rB exTree [exCutTop] (by decide) rfl hB (fun i h1 h2 => gB i (by omega))

/-- C3. Tree consistency (back links).  Let `t` be the node array a bisection
into `n` partitions leaves after the gather, whatever the number of processes:
built from the nodes recorded in the parallel loop of `rcb_fn` by the process
whose first partition is the boundary, and from the nodes of the calls of
`serial_rcb` that the processes make for their own ranges, with whatever
`old_set`, `root` and `partlower` they have in hand then (`Bisected`, started
as `rcb_fn` does with `old_set = 1`, `root = 0`, `partlower = 0`).  After the
assembly pass every node `i` in `1..n-1` with a positive parent reference `p`
is the `left_leaf` of node `p - 1`, and every node `i` with a negative parent
reference `p` is the `right_leaf` of node `-p - 1`.  In particular, on one
process, with a divider that splits strictly inside and a tree whose parent
references of the nodes `1..n-1` were reset to 0, the call of `serial_rcb`
returns and its tree has this property. -/
theorem tree_back_links (n : Int) (hn : 1 ≤ n) :
    (∀ t : Int → rcb_tree, Bisected t 1 0 0 n →
      ∀ i, 1 ≤ i → i < n →
        ((assemble t n i).parent > 0 →
          (assemble t n ((assemble t n i).parent - 1)).left_leaf = i) ∧
        ((assemble t n i).parent < 0 →
          (assemble t n (-(assemble t n i).parent - 1)).right_leaf = i)) ∧
    (∀ env : SerialEnv, DividerOK env →
      ∀ (fuel : Nat) (rcbbox : rcb_box) (weight : ℚ) (dotnum dindx tmpdindx level : Nat)
        (s : SerialState), n ≤ fuel →
        (∀ i, 0 < i → i < 0 + n → (s.treept i).parent = 0) →
        ∃ r, serial_rcb env fuel 1 0 rcbbox weight dotnum n dindx tmpdindx 0 level s = some r ∧
          ∀ i, 1 ≤ i → i < n →
            ((assemble r.st.treept n i).parent > 0 →
              (assemble r.st.treept n ((assemble r.st.treept n i).parent - 1)).left_leaf = i) ∧
            ((assemble r.st.treept n i).parent < 0 →
              (assemble r.st.treept n (-(assemble r.st.treept n i).parent - 1)).right_leaf =
                i)) := by
  refine ⟨fun t h => bisected_back_links t n h, ?_⟩
  intro env hdiv fuel rcbbox weight dotnum dindx tmpdindx level s hfuel hreset
  obtain ⟨r, hr⟩ := serial_rcb_total env hdiv fuel 1 0 rcbbox weight dotnum n dindx tmpdindx 0
    level s hn hfuel
  have hrun := serial_rcb_run env fuel _ _ _ _ _ _ _ _ _ _ _ _ hr
  have hloc := (run_tree env hdiv hrun hn).2 (le_refl _) (le_refl _) (by omega) hreset
  have hasm := assemble_assembled _ _ _ hloc
  refine ⟨r, hr, fun i h1 h2 => ?_⟩
  rw [assemble_parent]
  exact ⟨fun hp => hasm.1 i (by omega) (by omega) hp,
    fun hp => hasm.2.1 i (by omega) (by omega) hp⟩

/-- Four partitions on two processes: the node 2 is recorded in the parallel
loop, the nodes 1 and 3 by the calls of `serial_rcb` of the two processes.
Node 1 has parent reference 3 and is the `left_leaf` of node 2, node 3 has
parent reference -3 and is the `right_leaf` of node 2, node 2 has parent
reference -1 and is the `right_leaf` of the sentinel node 0.  And three
partitions on one process with `exEnv`. -/
theorem tree_back_links_witness :
    ((1 : Int) ≤ 4 ∧ Bisected exGather 1 0 0 4) ∧
    (∀ i, 1 ≤ i → i < 4 →
      ((assemble exGather 4 i).parent > 0 →
        (assemble exGather 4 ((assemble exGather 4 i).parent - 1)).left_leaf = i) ∧
      ((assemble exGather 4 i).parent < 0 →
        (assemble exGather 4 (-(assemble exGather 4 i).parent - 1)).right_leaf = i)) ∧
    ((assemble exGather 4 1).parent, (assemble exGather 4 2).left_leaf,
      (assemble exGather 4 3).parent, (assemble exGather 4 2).right_leaf,
      (assemble exGather 4 2).parent, (assemble exGather 4 0).right_leaf) =
      (3, 1, -3, 3, -1, 2) ∧
    (serial_rcb exEnv 3 1 0 exBox133 3 3 3 0 3 0 0 exState).map
      (fun r => ((assemble r.st.treept 3 1).parent, (assemble r.st.treept 3 2).left_leaf,
        (assemble r.st.treept 3 2).parent, (assemble r.st.treept 3 0).right_leaf)) =
      some (3, 1, -1, 2) :=
  ⟨⟨by decide, exGather_bisected⟩,
   (tree_back_links 4 (by decide)).1 exGather exGather_bisected,
   by decide, by decide⟩

end RCB
